import Mathlib

/-!
Go Task: week bucketing, retention, merge and task store.

A shallow embedding of the engine of `src/App.js` (the helper `getSemanaAtual`, the reducer
`appReducer`, the start-up routine `initApp`, the persistence functions
`saveTasksToFirestore` and `saveData`, the handlers `adicionarTarefa`,
`handleDuplicateTarefa`, `salvarEdicao`, `handleAutoSave`, `handleDeleteTarefa`,
`deleteSelectedTasks`, `handleFinishTutorial`, `handleLogoutPress` and `handleDragEnd`,
and the projections `tarefasAgrupadas` and `buildDisplay` of `AppContent`), followed by
theorems about it.

Conventions of the embedding.

* A JavaScript `Date` is its time value: an integer number of milliseconds counted from
  1970-01-01T00:00 on the local time line (a zone with a fixed offset from UTC, so every
  local day has `msPerDay` milliseconds).  Dates stored in tasks and the reading of the
  clock are natural numbers, time values from 1970 on; a date that is computed, as a slot
  of the week or the date read from a key in `handleDragEnd`, is an integer.
* A plain object used as a dictionary and a `Map` are association lists in insertion
  order with pairwise distinct keys (`objSet`, `objGet`).
* `Array.prototype.sort` is a stable sort (`List.insertionSort`), `new Set(xs)` keeps the
  first occurrence of each element in order (`setValues`).
* The remote collection of a user is an association list from document id to task; a
  batch is applied as a whole or, when a remote call fails, not at all.
* A handler is the action it dispatches, if any (`despachar` applies it to the store), and
  `handleDragEnd` is the payload of the update it dispatches, the id and the new date; the
  two clock readings it takes, `Date.now()` and `new Date()`, are separate arguments.  Where
  a handler asks the user in an alert, the answer is an argument.
* An asynchronous call of `saveTasksToFirestore` is cut at its two `await`s: the read
  `getDocs` and the commit of the batch are separate steps, and the steps of several calls
  may alternate (`passo`).  A write to the local key-value store succeeds, except in
  `handleFinishTutorial`, which catches the failure.
-/

namespace GoTask

/-! ## Time values and the calendar -/

/-- Milliseconds in a day. -/
def msPerDay : Int := 86400000

/-- Day number of a time value, counted from 1970-01-01 (floor division). -/
def Day (t : Int) : Int := t / msPerDay

/-- Milliseconds elapsed since local midnight. -/
def TimeWithinDay (t : Int) : Int := t % msPerDay

/-- Year of the era (`0..399`, years starting on 1 March) and day of that year (`0..365`)
of a day of the era (`0..146096`): centuries of 36524 days, four-year cycles of 1461 days
and years of 365 days are split off in turn. -/
def yearOfEra (doe : Int) : Int × Int :=
  let c := min (doe / 36524) 3
  let r1 := doe - c * 36524
  let q := min (r1 / 1461) 24
  let r2 := r1 - q * 1461
  let k := min (r2 / 365) 3
  (c * 100 + q * 4 + k, r2 - k * 365)

/-- Month counted from March (`0..11`) and day of the month (`1..31`) of a day of a year
that starts on 1 March. -/
def monthDay (doy : Int) : Int × Int :=
  let mp := (5 * doy + 2) / 153
  (mp, doy - (153 * mp + 2) / 5 + 1)

/-- Civil date `(year, month, day)` of a day number in the proleptic Gregorian calendar,
with `month` in `1..12` and `day` in `1..31`.  The computation counts in years that start
on 1 March, inside 400-year eras of 146097 days. -/
def civilFromDays (z : Int) : Int × Int × Int :=
  let era := (z + 719468) / 146097
  let yd := yearOfEra ((z + 719468) % 146097)
  let md := monthDay yd.2
  let m := if md.1 < 10 then md.1 + 3 else md.1 - 9
  let y := era * 400 + yd.1
  (if m ≤ 2 then y + 1 else y, m, md.2)

/-- Day number of the civil date `y`-`m`-`d` (`m` in `1..12`); `d` may lie outside the
month, the day number then runs on into the neighbouring months. -/
def daysFromCivil (y m d : Int) : Int :=
  let y1 := if m ≤ 2 then y - 1 else y
  let era := y1 / 400
  let yoe := y1 % 400
  let mp := if m > 2 then m - 3 else m + 9
  let doy := (153 * mp + 2) / 5 + d - 1
  let doe := yoe * 365 + yoe / 4 - yoe / 100 + doy
  era * 146097 + doe - 719468

/-- The method `Date.prototype.getFullYear`. -/
def getFullYear (t : Int) : Int := (civilFromDays (Day t)).1

/-- The method `Date.prototype.getMonth` (January is 0). -/
def getMonth (t : Int) : Int := (civilFromDays (Day t)).2.1 - 1

/-- The method `Date.prototype.getDate` (day of the month). -/
def getDate (t : Int) : Int := (civilFromDays (Day t)).2.2

/-- The method `Date.prototype.getDay` (Sunday is 0); 1970-01-01 was a Thursday. -/
def getDay (t : Int) : Int := (Day t + 4) % 7

/-- The method `Date.prototype.setDate`: the day of the month is replaced, the month, the
year and the time within the day are kept; a value outside the month rolls over. -/
def setDate (t : Int) (dt : Int) : Int :=
  (daysFromCivil (getFullYear t) (getMonth t + 1) 1 + dt - 1) * msPerDay + TimeWithinDay t

/-- The call `setHours(0, 0, 0, 0)`: local midnight of the same day. -/
def setHoursZero (t : Int) : Int := Day t * msPerDay

/-- The constructor `new Date(year, monthIndex, day)`: local midnight of that civil date.
Years 0 to 99 are read as 1900 to 1999; a month index outside `0..11` carries into the
year, a day outside the month runs on into the neighbouring months. -/
def newDateYMD (year monthIndex day : Int) : Int :=
  let yr := if 0 ≤ year ∧ year ≤ 99 then 1900 + year else year
  daysFromCivil (yr + monthIndex / 12) (monthIndex % 12 + 1) day * msPerDay

/-! ## Locale formatting -/

/-- Decimal digits of `n`, least significant first; `fuel` bounds their number. -/
def digitsLE : Nat → Nat → List Nat
  | 0, _ => []
  | fuel + 1, n => if n < 10 then [n] else n % 10 :: digitsLE fuel (n / 10)

/-- Decimal rendering of a natural number, without padding. -/
def decimal (n : Nat) : List Char := ((digitsLE (n + 1) n).reverse).map Nat.digitChar

/-- Two-digit rendering (`2-digit`) of a day or month number. -/
def pad2 (n : Int) : List Char := [Nat.digitChar (n.toNat / 10), Nat.digitChar (n.toNat % 10)]

/-- Rendering of a day number with the options `day: 2-digit, month: 2-digit,
year: numeric`: `DD/MM/YYYY` for `pt-BR` (language `pt`), `MM/DD/YYYY` for `en-US`. -/
def dayKey (language : String) (z : Int) : String :=
  let c := civilFromDays z
  if language = "pt" then String.mk (pad2 c.2.2 ++ '/' :: pad2 c.2.1 ++ '/' :: decimal c.1.toNat)
  else String.mk (pad2 c.2.1 ++ '/' :: pad2 c.2.2 ++ '/' :: decimal c.1.toNat)

/-- The call `d.toLocaleDateString(locale, day: 2-digit, month: 2-digit, year: numeric)`:
only the local calendar day of the time value is rendered. -/
def toLocaleDateString (language : String) (t : Int) : String := dayKey language (Day t)

/-- The call `d.toLocaleDateString(locale, day: 2-digit, month: 2-digit)`: `DD/MM` for
language `pt`, `MM/DD` otherwise. -/
def dateShort (language : String) (t : Int) : String :=
  let c := civilFromDays (Day t)
  if language = "pt" then String.mk (pad2 c.2.2 ++ '/' :: pad2 c.2.1)
  else String.mk (pad2 c.2.1 ++ '/' :: pad2 c.2.2)

/-! ## Data model -/

/-- A task as the application stores it.  `date` and `createdAt` are time values. -/
structure Tarefa where
  id : String
  texto : String
  date : Nat
  concluida : Bool
  importante : Bool
  fixada : Bool
  color : String
  fontStyle : Option String
  fontWeight : Option String
  highlight : Bool
  highlightColor : Option String
  createdAt : Nat
  deriving DecidableEq, Repr

/-- The object spread into a task by `UPDATE_TAREFA`: the fields that are present.  The
handlers of the application pass the fields `texto`, `date`, `concluida`, `importante`,
`color`, `fontStyle`, `fontWeight`, `highlight` and `highlightColor`; the reducer itself
spreads whatever field the object carries. -/
structure Updates where
  id : Option String := none
  texto : Option String := none
  date : Option Nat := none
  concluida : Option Bool := none
  importante : Option Bool := none
  color : Option String := none
  fontStyle : Option (Option String) := none
  fontWeight : Option (Option String) := none
  highlight : Option Bool := none
  highlightColor : Option (Option String) := none
  fixada : Option Bool := none
  createdAt : Option Nat := none
  deriving DecidableEq, Repr

/-- The settings object of the state. -/
structure Settings where
  theme : String
  fontSize : Nat
  showPreview : Bool
  buttonSize : String
  language : String
  autoSave : Bool
  deriving DecidableEq, Repr

/-- A settings object with some fields absent. -/
structure SettingsUpdate where
  theme : Option String := none
  fontSize : Option Nat := none
  showPreview : Option Bool := none
  buttonSize : Option String := none
  language : Option String := none
  autoSave : Option Bool := none
  deriving DecidableEq, Repr

/-- The state held by `useReducer(appReducer, initialState)`. -/
structure AppState where
  tarefas : List Tarefa
  isLoading : Bool
  settings : Settings
  deriving DecidableEq, Repr

/-- The actions of `appReducer`, one constructor for each `action.type` the reducer
knows; `OTHER` stands for every other action (the `default` branch). -/
inductive Action where
  | SET_LOADING (payload : Bool)
  | SET_TAREFAS (payload : List Tarefa)
  | UPDATE_SETTINGS (payload : SettingsUpdate)
  | SET_SETTINGS (payload : Option SettingsUpdate)
  | ADD_TAREFA (payload : Tarefa)
  | UPDATE_TAREFA (id : String) (updates : Updates)
  | DELETE_TAREFAS (payload : List String)
  | TOGGLE_PIN_TAREFA (payload : String)
  | OTHER
  deriving DecidableEq, Repr

/-- The constant `initialState.settings`. -/
def initialSettings : Settings :=
  { theme := "system", fontSize := 14, showPreview := true, buttonSize := "small",
    language := "pt", autoSave := true }

/-- The constant `initialState`. -/
def initialState : AppState :=
  { tarefas := [], isLoading := true, settings := initialSettings }

/-- The spread `{ ...settings, ...payload }`. -/
def spreadSettings (s : Settings) (u : SettingsUpdate) : Settings :=
  { theme := u.theme.getD s.theme, fontSize := u.fontSize.getD s.fontSize,
    showPreview := u.showPreview.getD s.showPreview, buttonSize := u.buttonSize.getD s.buttonSize,
    language := u.language.getD s.language, autoSave := u.autoSave.getD s.autoSave }

/-- The spread `{ ...t, ...updates }`. -/
def spreadTarefa (t : Tarefa) (u : Updates) : Tarefa :=
  { id := u.id.getD t.id,
    texto := u.texto.getD t.texto, date := u.date.getD t.date,
    concluida := u.concluida.getD t.concluida, importante := u.importante.getD t.importante,
    fixada := u.fixada.getD t.fixada,
    color := u.color.getD t.color, fontStyle := u.fontStyle.getD t.fontStyle,
    fontWeight := u.fontWeight.getD t.fontWeight, highlight := u.highlight.getD t.highlight,
    highlightColor := u.highlightColor.getD t.highlightColor,
    createdAt := u.createdAt.getD t.createdAt }

/-- The reducer `appReducer`. -/
def appReducer (state : AppState) : Action → AppState
  | .SET_LOADING payload => { state with isLoading := payload }
  | .SET_TAREFAS payload => { state with tarefas := payload }
  | .UPDATE_SETTINGS payload => { state with settings := spreadSettings state.settings payload }
  | .SET_SETTINGS payload =>
    { state with
      settings := match payload with
        | some p => spreadSettings initialSettings p
        | none => initialSettings }
  | .ADD_TAREFA payload =>
    if state.tarefas.any (fun t => t.id = payload.id) then state
    else { state with tarefas := state.tarefas ++ [payload] }
  | .UPDATE_TAREFA id updates =>
    { state with tarefas := state.tarefas.map (fun t => if t.id = id then spreadTarefa t updates else t) }
  | .DELETE_TAREFAS payload =>
    { state with tarefas := state.tarefas.filter (fun t => !payload.contains t.id) }
  | .TOGGLE_PIN_TAREFA payload =>
    { state with
      tarefas := state.tarefas.map (fun t => if t.id = payload then { t with fixada := !t.fixada } else t) }
  | .OTHER => state

/-- The constant `tutorialTask`; `carga` is the reading of the clock when the module was
loaded. -/
def tutorialTask (carga : Nat) : Tarefa :=
  { id := "tutorial-task-id", texto := "Esta é uma tarefa de exemplo!", date := carga,
    concluida := false, importante := true, fixada := false, color := "#4a90e2",
    fontStyle := none, fontWeight := some "bold", highlight := false, highlightColor := none,
    createdAt := carga }

/-! ## The current week -/

/-- One slot of the week, as `getSemanaAtual` builds it. -/
structure WeekDay where
  nome : String
  data : String
  shortDate : String
  dateObj : Int
  displayKey : String
  deriving DecidableEq, Repr

/-- The array `dayNames` of `getSemanaAtual`. -/
def dayNames (language : String) : List String :=
  if language = "pt" then ["Segunda", "Terça", "Quarta", "Quinta", "Sexta", "Sábado", "Domingo"]
  else ["Monday", "Tuesday", "Wednesday", "Thursday", "Friday", "Saturday", "Sunday"]

/-- The value `inicioDaSemana` of `getSemanaAtual`, for the clock reading `agora`. -/
def inicioDaSemana (agora : Nat) : Int :=
  let hoje : Int := agora
  let diaDaSemana := getDay hoje
  let diff := getDate hoje - diaDaSemana + (if diaDaSemana = 0 then -6 else 1)
  setHoursZero (setDate hoje diff)

/-- The helper `getSemanaAtual`; `agora` is the reading of the clock (`new Date()`). -/
def getSemanaAtual (language : String) (agora : Nat) : List WeekDay :=
  (dayNames language).enum.map fun (index, nome) =>
    let data := setDate (inicioDaSemana agora) (getDate (inicioDaSemana agora) + index)
    let dateObj := newDateYMD (getFullYear data) (getMonth data) (getDate data)
    { nome := nome
      data := toLocaleDateString language dateObj
      shortDate := dateShort language dateObj
      dateObj := dateObj
      displayKey := nome }

/-! ## Dictionaries -/

/-- Lookup `o[k]` in a dictionary. -/
def objGet {α : Type} : List (String × α) → String → Option α
  | [], _ => none
  | (k1, v) :: rest, k => if k1 = k then some v else objGet rest k

/-- Assignment `o[k] = v` (and `Map.prototype.set`): an existing key keeps its place and
takes the new value, a new key is added at the end. -/
def objSet {α : Type} : List (String × α) → String → α → List (String × α)
  | [], k, v => [(k, v)]
  | (k1, v1) :: rest, k, v => if k1 = k then (k1, v) :: rest else (k1, v1) :: objSet rest k v

/-- The elements of `new Set(xs)` in iteration order, given those already `seen`. -/
def setValuesAux {α : Type} [DecidableEq α] (seen : List α) : List α → List α
  | [] => []
  | k :: ks => if k ∈ seen then setValuesAux seen ks else k :: setValuesAux (k :: seen) ks

/-- The array `[...new Set(xs)]`. -/
def setValues {α : Type} [DecidableEq α] (xs : List α) : List α := setValuesAux [] xs

/-! ## Start-up: merge and retention -/

/-- The list `mergedTasks` of `initApp`: a `Map` from id to task receives every remote
task and then every local task; its values are read in insertion order. -/
def mergeTasks (localTasks remoteTasks : List Tarefa) : List Tarefa :=
  let tasksMap : List (String × Tarefa) := []
  let tasksMap := remoteTasks.foldl (fun m task => objSet m task.id task) tasksMap
  let tasksMap := localTasks.foldl (fun m task => objSet m task.id task) tasksMap
  tasksMap.map (fun p => p.2)

/-- The list `tarefasFiltradas` of `initApp`, for the week start `inicioDaSemanaAtual`. -/
def tarefasFiltradas (tarefasSalvas : List Tarefa) (inicioDaSemanaAtual : Int) : List Tarefa :=
  tarefasSalvas.filter fun t =>
    let taskDate := setHoursZero t.date
    t.fixada || decide (taskDate ≥ inicioDaSemanaAtual)

/-- What `initApp` reads from its surroundings. -/
structure Boot where
  /-- The uid of the signed-in user, if any. -/
  user : Option String
  /-- The settings parsed from the local store, if any. -/
  savedSettings : Option SettingsUpdate
  /-- The language code of the first device locale, if any. -/
  deviceLanguage : Option String
  /-- The task list parsed from the local store, if any. -/
  localData : Option (List Tarefa)
  /-- The documents of the remote collection of the user, converted to tasks. -/
  remoteTasks : List Tarefa
  /-- Whether the local store holds the tutorial flag. -/
  hasSeenTutorial : Bool
  /-- The reading of the clock. -/
  agora : Nat
  /-- The reading of the clock when the module was loaded. -/
  carga : Nat

/-- The variable `currentLanguage` of `initApp`. -/
def currentLanguage (b : Boot) : String :=
  match b.savedSettings with
  | some parsedSettings =>
    match parsedSettings.language with
    | some l => if l = "" then "pt" else l
    | none => "pt"
  | none => if b.deviceLanguage = some "en" then "en" else "pt"

/-- The dispatch of the settings at the start of `initApp`. -/
def settingsDispatch (b : Boot) : Action :=
  match b.savedSettings with
  | some parsedSettings => .SET_SETTINGS (some parsedSettings)
  | none =>
    .SET_SETTINGS (some
      { theme := some initialSettings.theme, fontSize := some initialSettings.fontSize,
        showPreview := some initialSettings.showPreview,
        buttonSize := some initialSettings.buttonSize,
        language := some (if b.deviceLanguage = some "en" then "en" else "pt"),
        autoSave := some initialSettings.autoSave })

/-- The `SET_TAREFAS` dispatch of `initApp`, if there is one: the merged list when a user
is signed in, the filtered stored list otherwise (nothing when nothing is stored).  The
week start is read from slot 0 of `getSemanaAtual`, which always exists. -/
def loadDispatch (b : Boot) : Option Action :=
  match b.user with
  | some _ =>
    let localTasks := b.localData.getD []
    some (.SET_TAREFAS (mergeTasks localTasks b.remoteTasks))
  | none =>
    match b.localData with
    | some tarefasSalvas =>
      match getSemanaAtual (currentLanguage b) b.agora with
      | d :: _ => some (.SET_TAREFAS (tarefasFiltradas tarefasSalvas d.dateObj))
      | [] => none
    | none => none

/-- The actions dispatched by `initApp`, in order. -/
def initAppDispatches (b : Boot) : List Action :=
  [.SET_LOADING true, settingsDispatch b]
    ++ (loadDispatch b).toList
    ++ (if b.hasSeenTutorial then [] else [.ADD_TAREFA (tutorialTask b.carga)])
    ++ [.SET_LOADING false]

/-- The state of the store once `initApp` has run on a freshly mounted component. -/
def initApp (b : Boot) : AppState := (initAppDispatches b).foldl appReducer initialState

/-! ## Bucketing and display -/

/-- The key under which `tarefasAgrupadas` files a task. -/
def chaveDaTarefa (diasDaSemana : List WeekDay) (language : String) (tarefa : Tarefa) : String :=
  let tarefaDate := setHoursZero tarefa.date
  match diasDaSemana.find? (fun d => decide (d.dateObj = tarefaDate)) with
  | some diaDaSemanaMatch => diaDaSemanaMatch.displayKey
  | none => toLocaleDateString language tarefaDate

/-- The two statements `if (!groups[key]) groups[key] = []` and `groups[key].push(tarefa)`. -/
def pushTarefa (groups : List (String × List Tarefa)) (key : String) (tarefa : Tarefa) :
    List (String × List Tarefa) :=
  let groups := match objGet groups key with
    | none => objSet groups key []
    | some _ => groups
  objSet groups key ((objGet groups key).getD [] ++ [tarefa])

/-- The memo `tarefasAgrupadas`. -/
def tarefasAgrupadas (diasDaSemana : List WeekDay) (tarefas : List Tarefa) (language : String) :
    List (String × List Tarefa) :=
  let groups := diasDaSemana.foldl (fun groups dia => objSet groups dia.displayKey []) []
  tarefas.foldl (fun groups tarefa => pushTarefa groups (chaveDaTarefa diasDaSemana language tarefa) tarefa)
    groups

/-- A block of the display structure. -/
inductive Block where
  | weekday (dia : WeekDay)
  | separator (title : String)
  | future_day (displayKey : String)
  deriving DecidableEq, Repr

/-- The order of the comparator `(a, b) => new Date(a.date) - new Date(b.date)`: the
difference is negative or zero, so that `a` is not moved behind `b`. -/
def dateLE (a b : Tarefa) : Prop := a.date ≤ b.date

instance : DecidableRel dateLE := fun a b => inferInstanceAs (Decidable (a.date ≤ b.date))

instance : IsTotal Tarefa dateLE := ⟨fun a b => Nat.le_total a.date b.date⟩

instance : IsTrans Tarefa dateLE := ⟨fun _ _ _ h1 h2 => Nat.le_trans h1 h2⟩

/-- The filter predicate of `buildDisplay`: no slot of the week has the day of the task. -/
def foraDaSemana (diasDaSemana : List WeekDay) (t : Tarefa) : Bool :=
  let tarefaDate := setHoursZero t.date
  !diasDaSemana.any (fun d => decide (d.dateObj = tarefaDate))

/-- The list `futureKeys` of `buildDisplay`. -/
def futureKeys (diasDaSemana : List WeekDay) (tarefas : List Tarefa) (language : String) :
    List String :=
  let futureTasks := (tarefas.filter (foraDaSemana diasDaSemana)).insertionSort dateLE
  setValues (futureTasks.map (fun t => toLocaleDateString language t.date))

/-- The callback `buildDisplay`; `title` is the text `t.futureTasks`. -/
def buildDisplay (diasDaSemana : List WeekDay) (tarefas : List Tarefa) (language : String)
    (title : String) : List Block :=
  let result := diasDaSemana.map Block.weekday
  let keys := futureKeys diasDaSemana tarefas language
  if keys.length > 0 then result ++ Block.separator title :: keys.map Block.future_day
  else result

/-- The list `tarefasDoDia` that the render of `AppContent` passes to the day component
of a block; a separator shows no task. -/
def tarefasDoBloco (groups : List (String × List Tarefa)) : Block → List Tarefa
  | .weekday dia => (objGet groups dia.displayKey).getD []
  | .separator _ => []
  | .future_day displayKey => (objGet groups displayKey).getD []

/-! ## Persistence -/

/-- The entries of the local key-value store that the application uses. -/
structure LocalStore where
  /-- The entry under `STORAGE_KEY`: the stored task list. -/
  tarefas : Option (List Tarefa)
  /-- The entry under `SETTINGS_KEY`: the stored settings. -/
  settings : Option SettingsUpdate
  /-- Whether an entry under `TUTORIAL_KEY` exists. -/
  tutorialVisto : Bool
  deriving DecidableEq, Repr

/-- The store of the component together with the local store and the remote collection
of the user: the documents `users/uid/tasks`, keyed by document id, in the order in which
a snapshot lists them. -/
structure World where
  state : AppState
  storage : LocalStore
  remote : List (String × Tarefa)
  deriving DecidableEq, Repr

/-- The settings object as it is written to the local store. -/
def settingsJSON (s : Settings) : SettingsUpdate :=
  { theme := some s.theme, fontSize := some s.fontSize, showPreview := some s.showPreview,
    buttonSize := some s.buttonSize, language := some s.language, autoSave := some s.autoSave }

/-- The list `remoteTasks` of `initApp`: each document of the snapshot becomes a task
whose id is the document id. -/
def docsToTasks (remote : List (String × Tarefa)) : List Tarefa :=
  remote.map (fun doc => { doc.2 with id := doc.1 })

/-- The function `saveTasksToFirestore`.  Without a user nothing happens.  Otherwise a
batch deletes every document whose id is the id of no task of `tasksToSave` and then sets
the document `task.id` to each task in turn; `remoteOk` tells whether the remote calls
succeed, a failure is caught and leaves the collection as it was. -/
def saveTasksToFirestore (user : Option String) (remoteOk : Bool)
    (remote : List (String × Tarefa)) (tasksToSave : List Tarefa) : List (String × Tarefa) :=
  match user with
  | none => remote
  | some _ =>
    if remoteOk then
      let kept := remote.filter (fun doc => tasksToSave.any (fun t => t.id = doc.1))
      tasksToSave.foldl (fun r task => objSet r task.id task) kept
    else remote

/-- The effect `saveData`, run with the store `w.state`; `carga` is the clock reading at
module load (it only dates the tutorial task). -/
def saveData (user : Option String) (remoteOk : Bool) (carga : Nat) (w : World) : World :=
  if w.state.isLoading then w
  else
    let tasksToSave := w.state.tarefas.filter (fun t => t.id != (tutorialTask carga).id)
    { w with
      storage :=
        { w.storage with
          tarefas := some tasksToSave, settings := some (settingsJSON w.state.settings) }
      remote := saveTasksToFirestore user remoteOk w.remote tasksToSave }

/-- The signed-in branch of `initApp` (`if (user)`) when the remote calls succeed: the
local and the remote list are merged, the merged list is dispatched, written to the local
store and pushed to the remote collection. -/
def initAppSignedIn (uid : String) (w : World) : World :=
  let localTasks := w.storage.tarefas.getD []
  let remoteTasks := docsToTasks w.remote
  let mergedTasks := mergeTasks localTasks remoteTasks
  { state := appReducer w.state (.SET_TAREFAS mergedTasks)
    storage := { w.storage with tarefas := some mergedTasks }
    remote := saveTasksToFirestore (some uid) true w.remote mergedTasks }

/-! ## Handlers that create tasks -/

/-- The state `editingOptions` of `AppContent`. -/
structure EditingOptions where
  chosenColor : String
  fontStyleChoice : Option String
  fontWeightChoice : Option String
  highlight : Bool
  highlightColor : String
  deriving DecidableEq, Repr

/-- The characters that `String.prototype.trim` strips: white space and line
terminators. -/
def isWhiteSpace (c : Char) : Bool :=
  let n := c.toNat
  n = 0x09 || n = 0x0A || n = 0x0B || n = 0x0C || n = 0x0D || n = 0x20 || n = 0xA0
    || n = 0x1680 || (0x2000 ≤ n && n ≤ 0x200A) || n = 0x2028 || n = 0x2029 || n = 0x202F
    || n = 0x205F || n = 0x3000 || n = 0xFEFF

/-- The method `String.prototype.trim`. -/
def trim (s : String) : String :=
  String.mk ((s.data.dropWhile isWhiteSpace).reverse.dropWhile isWhiteSpace).reverse

/-- The call `n.toString()` on a non-negative integer such as `Date.now()`. -/
def numberToString (n : Nat) : String := String.mk (decimal n)

/-- The application of a dispatch, if there is one, to the store. -/
def despachar (state : AppState) : Option Action → AppState
  | some action => appReducer state action
  | none => state

/-- The callback `handleDuplicateTarefa`: the action it dispatches, if any.  `dateNow` is
the value of `Date.now()`, `agora` the time value of `new Date()`. -/
def handleDuplicateTarefa (carga dateNow agora : Nat) (tarefa : Tarefa) : Option Action :=
  if tarefa.id = (tutorialTask carga).id then none
  else
    let novaTarefa : Tarefa :=
      { tarefa with
        id := numberToString dateNow ++ "-copy"
        concluida := false
        createdAt := agora }
    some (.ADD_TAREFA novaTarefa)

/-- The callback `adicionarTarefa`: the action it dispatches, if any.  `tarefaInput` is
the text of the input box, `pickerDate` the chosen date, `dateNow` the value of
`Date.now()` and `agora` the time value of `new Date()`. -/
def adicionarTarefa (tarefaInput : String) (pickerDate : Nat) (diasDaSemana : List WeekDay)
    (editingOptions : EditingOptions) (dateNow agora : Nat) : Option Action :=
  if trim tarefaInput = "" then none
  else
    let novaTarefa : Tarefa :=
      { id := numberToString dateNow
        texto := tarefaInput
        date := pickerDate
        concluida := false
        importante := false
        fixada := false
        color := editingOptions.chosenColor
        fontStyle := editingOptions.fontStyleChoice
        fontWeight := editingOptions.fontWeightChoice
        highlight := editingOptions.highlight
        highlightColor := some editingOptions.highlightColor
        createdAt := agora }
    match diasDaSemana with
    | dia :: _ =>
      let inicioDaSemana := dia.dateObj
      let dataSelecionada := setHoursZero pickerDate
      if dataSelecionada < inicioDaSemana then none
      else some (.ADD_TAREFA novaTarefa)
    | [] => some (.ADD_TAREFA novaTarefa)

/-! ## Handlers that edit and delete tasks -/

/-- The callback `salvarEdicao` (the Save button of the edit dialog): the action it
dispatches, if any.  `tarefaSendoEditada` is the task being edited, `textoEditado` and
`dataEditada` are the text and the date shown in the dialog. -/
def salvarEdicao (tarefaSendoEditada : Option Tarefa) (textoEditado : String)
    (dataEditada : Nat) (editingOptions : EditingOptions) (diasDaSemana : List WeekDay) :
    Option Action :=
  match tarefaSendoEditada with
  | none => none
  | some tarefa =>
    let updates : Updates :=
      { texto := some textoEditado
        date := some dataEditada
        color := some editingOptions.chosenColor
        fontStyle := some editingOptions.fontStyleChoice
        fontWeight := some editingOptions.fontWeightChoice
        highlight := some editingOptions.highlight
        highlightColor := some (some editingOptions.highlightColor) }
    match diasDaSemana with
    | dia :: _ =>
      let inicioDaSemana := dia.dateObj
      let novaData := setHoursZero dataEditada
      if novaData < inicioDaSemana then none
      else some (.UPDATE_TAREFA tarefa.id updates)
    | [] => some (.UPDATE_TAREFA tarefa.id updates)

/-- The callback `handleAutoSave`, which the edit dialog calls two seconds after the last
change of the text when auto-save is on: the action it dispatches, if any. -/
def handleAutoSave (tarefaSendoEditada : Option Tarefa) (textoEditado : String)
    (dataEditada : Nat) (editingOptions : EditingOptions) : Option Action :=
  match tarefaSendoEditada with
  | none => none
  | some tarefa =>
    if textoEditado ≠ "" ∧ trim textoEditado ≠ "" then
      let updates : Updates :=
        { texto := some textoEditado
          date := some dataEditada
          color := some editingOptions.chosenColor
          fontStyle := some editingOptions.fontStyleChoice
          fontWeight := some editingOptions.fontWeightChoice
          highlight := some editingOptions.highlight
          highlightColor := some (some editingOptions.highlightColor) }
      some (.UPDATE_TAREFA tarefa.id updates)
    else none

/-- The callback `handleDeleteTarefa` (the bin button of a task): the action it
dispatches, if any.  `confirma` tells whether the user presses Delete in the alert. -/
def handleDeleteTarefa (carga : Nat) (tarefaId : String) (confirma : Bool) : Option Action :=
  if tarefaId = (tutorialTask carga).id then none
  else if confirma then some (.DELETE_TAREFAS [tarefaId])
  else none

/-- The callback `toggleTaskSelection` (a long press on a task, or a press in selection
mode): the new value of `selectedTasks`. -/
def toggleTaskSelection (selectedTasks : List String) (id : String) : List String :=
  if selectedTasks.contains id then selectedTasks.filter (fun tid => tid != id)
  else selectedTasks ++ [id]

/-- The callback `handleToggleSelectAllForDay` (the button Mark all of a day block): the
new value of `selectedTasks`. -/
def handleToggleSelectAllForDay (prev taskIdsForDay : List String) (areAllSelected : Bool) :
    List String :=
  if areAllSelected then prev.filter (fun id => !taskIdsForDay.contains id)
  else setValues (prev ++ taskIdsForDay)

/-- The callback `deleteSelectedTasks` (the bin button of selection mode): the action it
dispatches, if any.  `confirma` tells whether the user presses Delete in the alert. -/
def deleteSelectedTasks (selectedTasks : List String) (confirma : Bool) : Option Action :=
  if confirma then some (.DELETE_TAREFAS selectedTasks) else none

/-- The callback `handleFinishTutorial`: the tutorial flag is written to the local store
(`storageOk` tells whether the write succeeds, a failure is caught) and, either way, the
tutorial task is deleted from the store. -/
def handleFinishTutorial (storageOk : Bool) (carga : Nat) (w : World) : World :=
  { w with
    storage := if storageOk then { w.storage with tutorialVisto := true } else w.storage
    state := appReducer w.state (.DELETE_TAREFAS [(tutorialTask carga).id]) }

/-- The callback `handleLogoutPress`: the user is signed out (which touches no document),
the entry `STORAGE_KEY` is removed from the local store and the empty list is
dispatched. -/
def handleLogoutPress (w : World) : World :=
  { w with
    storage := { w.storage with tarefas := none }
    state := appReducer w.state (.SET_TAREFAS []) }

/-! ## Start-up with failing remote calls -/

/-- What `initApp` reads from its surroundings when it runs in the world `w`. -/
def bootDe (user : Option String) (deviceLanguage : Option String) (agora carga : Nat)
    (w : World) : Boot :=
  { user := user, savedSettings := w.storage.settings, deviceLanguage := deviceLanguage,
    localData := w.storage.tarefas, remoteTasks := docsToTasks w.remote,
    hasSeenTutorial := w.storage.tutorialVisto, agora := agora, carga := carga }

/-- How a run of an asynchronous routine ends: the world it leaves behind, and whether an
exception left the routine (its promise is rejected). -/
structure Run where
  world : World
  rejected : Bool
  deriving DecidableEq, Repr

/-- The routine `initApp` run in the world `w`.  `readOk` tells whether the remote read
`getDocs` of the signed-in branch succeeds, `pushOk` whether the remote calls of
`saveTasksToFirestore` do.  The read stands outside every `try`: when it fails, the
statements after it do not run, and only the two dispatches made before it have reached
the store.  A failure inside `saveTasksToFirestore` is caught there. -/
def initAppRun (user : Option String) (deviceLanguage : Option String) (agora carga : Nat)
    (readOk pushOk : Bool) (w : World) : Run :=
  let b := bootDe user deviceLanguage agora carga w
  match user with
  | some uid =>
    if readOk then
      let mergedTasks := mergeTasks (b.localData.getD []) b.remoteTasks
      { world :=
          { state := (initAppDispatches b).foldl appReducer w.state
            storage := { w.storage with tarefas := some mergedTasks }
            remote := saveTasksToFirestore (some uid) pushOk w.remote mergedTasks }
        rejected := false }
    else
      { world :=
          { w with
            state := [Action.SET_LOADING true, settingsDispatch b].foldl appReducer w.state }
        rejected := true }
  | none =>
    { world := { w with state := (initAppDispatches b).foldl appReducer w.state }
      rejected := false }

/-! ## Pushes in flight -/

/-- A call of `saveTasksToFirestore` by a signed-in user that has not returned yet: the
list it was given and, once its read `getDocs` has returned, the ids of the documents that
the snapshot listed. -/
structure Push where
  tasksToSave : List Tarefa
  snapshot : Option (List String)
  deriving DecidableEq, Repr

/-- The remote collection of a user and the pushes in flight, oldest call first. -/
structure Sync where
  remote : List (String × Tarefa)
  emVoo : List Push
  deriving DecidableEq, Repr

/-- The batch that a push builds from its snapshot, applied to the collection as it is
when the commit arrives: every document that the snapshot listed and whose id is the id
of no task of `tasksToSave` is deleted, then the document `task.id` is set to each task in
turn. -/
def commitBatch (remote : List (String × Tarefa)) (snapshot : List String)
    (tasksToSave : List Tarefa) : List (String × Tarefa) :=
  let kept := remote.filter
    (fun doc => !(snapshot.contains doc.1 && !tasksToSave.any (fun t => t.id = doc.1)))
  tasksToSave.foldl (fun r task => objSet r task.id task) kept

/-- What can happen next to the pushes of a signed-in user: `saveData` calls
`saveTasksToFirestore` with a list (after a change of the store); the read `getDocs` of
the push at position `i` returns; or the commit of the push at position `i` is applied
and the call returns. -/
inductive Passo where
  | chamar (tasksToSave : List Tarefa)
  | ler (i : Nat)
  | gravar (i : Nat)
  deriving DecidableEq, Repr

/-- One step.  A call starts at once, whatever is in flight: neither `saveData` nor
`saveTasksToFirestore` looks at the other calls.  A commit needs the snapshot of its own
push; a step that names no push, a second read and a commit before the read change
nothing. -/
def passo (s : Sync) : Passo → Sync
  | .chamar tasksToSave =>
    { s with emVoo := s.emVoo ++ [{ tasksToSave := tasksToSave, snapshot := none }] }
  | .ler i =>
    match s.emVoo[i]? with
    | some p =>
      match p.snapshot with
      | none =>
        { s with emVoo := s.emVoo.set i { p with snapshot := some (s.remote.map Prod.fst) } }
      | some _ => s
    | none => s
  | .gravar i =>
    match s.emVoo[i]? with
    | some p =>
      match p.snapshot with
      | some snapshot =>
        { remote := commitBatch s.remote snapshot p.tasksToSave, emVoo := s.emVoo.eraseIdx i }
      | none => s
    | none => s

/-- A push that runs alone from the call to the return, with no step of another push in
between. -/
def pushSozinho (s : Sync) (tasksToSave : List Tarefa) : Sync :=
  [Passo.chamar tasksToSave, .ler s.emVoo.length, .gravar s.emVoo.length].foldl passo s

/-! ## Dragging a task to another day -/

/-- The method `String.prototype.split` with a one-character separator, on the list of
the characters of the string. -/
def split (sep : Char) : List Char → List (List Char)
  | [] => [[]]
  | c :: cs =>
    if c = sep then [] :: split sep cs
    else
      match split sep cs with
      | p :: ps => (c :: p) :: ps
      | [] => [[c]]

/-- The conversion to a number of an element of `dateParts`: a missing element is not a
number, a string of decimal digits is the number it writes (the empty string is 0).  Any
other string is read as not a number: a display key holds no other numeral. -/
def toNumber : Option (List Char) → Option Int
  | none => none
  | some cs =>
    if cs.all Char.isDigit then some ((cs.foldl (fun n c => 10 * n + (c.toNat - 48)) 0 : Nat) : Int)
    else none

/-- The date that `handleDragEnd` reads from a key that is no key of the week
(`hoveredDay.split` and `new Date` of the parts): day, month, year for language `pt`,
month, day, year otherwise.  There is no date when a part is not a number: the `Date` is
then invalid and `toISOString` throws. -/
def dataDaChave (language : String) (hoveredDay : String) : Option Int :=
  let dateParts := split '/' hoveredDay.data
  if language = "pt" then
    match toNumber dateParts[2]?, toNumber dateParts[1]?, toNumber dateParts[0]? with
    | some y, some m, some d => some (newDateYMD y (m - 1) d)
    | _, _, _ => none
  else
    match toNumber dateParts[2]?, toNumber dateParts[0]?, toNumber dateParts[1]? with
    | some y, some m, some d => some (newDateYMD y (m - 1) d)
    | _, _, _ => none

/-- The state `draggedItem`: the task being dragged and the key of the block it left. -/
structure DraggedItem where
  tarefa : Tarefa
  diaDeOrigem : String
  deriving DecidableEq, Repr

/-- The callback `handleDragEnd`: the payload of the `UPDATE_TAREFA` it dispatches, if
any, as the id of the dragged task and the time value of `novaData`, the date that
`toISOString` writes into `updates.date`.  `hoveredDay` is the key of the block under the
finger, if any.  An exception is caught and nothing is dispatched.  The new date is the
date read, an integer: it lies before 1970 when the key names such a day. -/
def handleDragEnd (draggedItem : Option DraggedItem) (hoveredDay : Option String)
    (diasDaSemana : List WeekDay) (language : String) : Option (String × Int) :=
  match draggedItem, hoveredDay with
  | some item, some hovered =>
    if hovered ≠ "" ∧ hovered ≠ item.diaDeOrigem then
      let novaData : Option Int :=
        match diasDaSemana.find? (fun d => d.displayKey = hovered) with
        | some diaMatch => some diaMatch.dateObj
        | none => dataDaChave language hovered
      match novaData with
      | some data => some (item.tarefa.id, data)
      | none => none
    else none
  | _, _ => none

/-- The key that `tarefasAgrupadas` computes from the date of a task: `chaveDaTarefa` is
this key at `tarefa.date`.  The date is any time value, before 1970 included. -/
def chaveDaData (diasDaSemana : List WeekDay) (language : String) (date : Int) : String :=
  let tarefaDate := setHoursZero date
  match diasDaSemana.find? (fun d => decide (d.dateObj = tarefaDate)) with
  | some diaDaSemanaMatch => diaDaSemanaMatch.displayKey
  | none => toLocaleDateString language tarefaDate

/-! ## Reading a list as a collection keyed by id -/

/-- The task that `id` denotes in a list read as a collection keyed by id: the last task
of the list that carries the id, if any. -/
def tarefaDeId : List Tarefa → String → Option Tarefa
  | [], _ => none
  | t :: ts, id =>
    match tarefaDeId ts id with
    | some u => some u
    | none => if t.id = id then some t else none

/-! ## Sample data for worked examples -/

/-- Local midnight of the civil date `y`-`m`-`d` (on or after 1970-01-01) as a time value. -/
def meiaNoite (y m d : Int) : Nat := (daysFromCivil y m d * msPerDay).toNat

/-- A sample task with the given id, text, date and pin. -/
def amostra (id texto : String) (date : Nat) (fixada : Bool) : Tarefa :=
  { id := id, texto := texto, date := date, concluida := false, importante := false,
    fixada := fixada, color := "#000000", fontStyle := none, fontWeight := none,
    highlight := false, highlightColor := none, createdAt := 0 }

/-- A sample start-up: offline or signed in, with the given stored and remote lists, the
tutorial already seen, at the clock reading `agora`. -/
def arranque (user : Option String) (localData : Option (List Tarefa)) (remoteTasks : List Tarefa)
    (agora : Nat) : Boot :=
  { user := user, savedSettings := none, deviceLanguage := none, localData := localData,
    remoteTasks := remoteTasks, hasSeenTutorial := true, agora := agora, carga := agora }

/-- A sample store holding the given tasks, loading over, with the initial settings. -/
def estado (tarefas : List Tarefa) : AppState :=
  { tarefas := tarefas, isLoading := false, settings := initialSettings }

/-- The editing options with which `AppContent` starts in the light theme. -/
def opcoes : EditingOptions :=
  { chosenColor := "#000000", fontStyleChoice := none, fontWeightChoice := none,
    highlight := false, highlightColor := "#fff8c6" }

/-- A sample local store holding the given task list and nothing else. -/
def armazenado (tarefas : Option (List Tarefa)) : LocalStore :=
  { tarefas := tarefas, settings := none, tutorialVisto := true }

/-! # Theorems -/

/-! ## Calendar lemmas -/

theorem yearOfEra_spec (doe : Int) (h0 : 0 ≤ doe) (h1 : doe < 146097) :
    0 ≤ (yearOfEra doe).1 ∧ (yearOfEra doe).1 ≤ 399 ∧
    0 ≤ (yearOfEra doe).2 ∧ (yearOfEra doe).2 ≤ 365 ∧
    (yearOfEra doe).1 * 365 + (yearOfEra doe).1 / 4 - (yearOfEra doe).1 / 100
      + (yearOfEra doe).2 = doe := by
  simp only [yearOfEra]
  generalize hc : min (doe / 36524) 3 = c
  generalize hq : min ((doe - c * 36524) / 1461) 24 = q
  generalize hk : min ((doe - c * 36524 - q * 1461) / 365) 3 = k
  have c0 : 0 ≤ c ∧ c ≤ 3 := by omega
  have r10 : 0 ≤ doe - c * 36524 ∧ doe - c * 36524 ≤ 36524 := by omega
  have q0 : 0 ≤ q ∧ q ≤ 24 := by omega
  have r20 : 0 ≤ doe - c * 36524 - q * 1461 ∧ doe - c * 36524 - q * 1461 ≤ 1460 := by omega
  have k0 : 0 ≤ k ∧ k ≤ 3 := by omega
  have y4 : (c * 100 + q * 4 + k) / 4 = c * 25 + q := by omega
  have y100 : (c * 100 + q * 4 + k) / 100 = c := by omega
  omega

theorem monthDay_spec (doy : Int) (h0 : 0 ≤ doy) (h1 : doy ≤ 365) :
    0 ≤ (monthDay doy).1 ∧ (monthDay doy).1 ≤ 11 ∧ 1 ≤ (monthDay doy).2 ∧ (monthDay doy).2 ≤ 31 ∧
    (153 * (monthDay doy).1 + 2) / 5 + (monthDay doy).2 - 1 = doy := by
  simp only [monthDay]
  generalize hmp : (5 * doy + 2) / 153 = mp
  have : 0 ≤ mp ∧ mp ≤ 11 := by omega
  obtain ⟨a, b⟩ := this
  interval_cases mp <;> omega

theorem daysFromCivil_march (era yoe mp d : Int) (hy0 : 0 ≤ yoe) (hy1 : yoe ≤ 399)
    (hm0 : 0 ≤ mp) (hm1 : mp ≤ 11) :
    daysFromCivil (if (if mp < 10 then mp + 3 else mp - 9) ≤ 2 then era * 400 + yoe + 1
        else era * 400 + yoe) (if mp < 10 then mp + 3 else mp - 9) d
      = era * 146097 + (yoe * 365 + yoe / 4 - yoe / 100 + ((153 * mp + 2) / 5 + d - 1)) - 719468 := by
  have e1 : (era * 400 + yoe) / 400 = era := by omega
  have e2 : (era * 400 + yoe) % 400 = yoe := by omega
  simp only [daysFromCivil]
  by_cases h : mp < 10
  · have h3 : ¬ (mp + 3 ≤ 2) := by omega
    have h4 : mp + 3 > 2 := by omega
    have h5 : mp + 3 - 3 = mp := by omega
    simp only [h, if_true, h3, if_false, h4, h5, e1, e2]
  · have h3 : mp - 9 ≤ 2 := by omega
    have h4 : ¬ (mp - 9 > 2) := by omega
    have h5 : mp - 9 + 9 = mp := by omega
    have h6 : era * 400 + yoe + 1 - 1 = era * 400 + yoe := by omega
    simp only [h, if_false, h3, if_true, h4, h5, h6, e1, e2]

theorem civil_spec (z : Int) :
    1 ≤ (civilFromDays z).2.1 ∧ (civilFromDays z).2.1 ≤ 12 ∧
    1 ≤ (civilFromDays z).2.2 ∧ (civilFromDays z).2.2 ≤ 31 ∧
    daysFromCivil (civilFromDays z).1 (civilFromDays z).2.1 (civilFromDays z).2.2 = z := by
  have hdoe0 : 0 ≤ (z + 719468) % 146097 := by omega
  have hdoe1 : (z + 719468) % 146097 < 146097 := by omega
  obtain ⟨hy0, hy1, hd0, hd1, hsum⟩ := yearOfEra_spec _ hdoe0 hdoe1
  obtain ⟨hm0, hm1, hdd0, hdd1, hmd⟩ := monthDay_spec _ hd0 hd1
  refine ⟨?_, ?_, hdd0, hdd1, ?_⟩
  · simp only [civilFromDays]; split_ifs <;> omega
  · simp only [civilFromDays]; split_ifs <;> omega
  · simp only [civilFromDays]
    rw [daysFromCivil_march _ _ _ _ hy0 hy1 hm0 hm1]
    omega

theorem year_ge (z : Int) (h : -365 ≤ z) : 1969 ≤ (civilFromDays z).1 := by
  have hdoe0 : 0 ≤ (z + 719468) % 146097 := by omega
  have hdoe1 : (z + 719468) % 146097 < 146097 := by omega
  obtain ⟨hy0, hy1, hd0, hd1, hsum⟩ := yearOfEra_spec _ hdoe0 hdoe1
  obtain ⟨hm0, hm1, hdd0, hdd1, hmd⟩ := monthDay_spec _ hd0 hd1
  have hz := (civil_spec z).2.2.2.2
  simp only [civilFromDays] at hz ⊢
  rw [daysFromCivil_march _ _ _ _ hy0 hy1 hm0 hm1] at hz
  generalize yearOfEra ((z + 719468) % 146097) = yd at *
  generalize monthDay yd.2 = md at *
  generalize (z + 719468) / 146097 = era at *
  have e4 : era ≥ 4 := by omega
  have y368 : era = 4 → yd.1 ≥ 368 := by omega
  have m10 : era = 4 → yd.1 = 368 → md.1 ≥ 10 := by omega
  split_ifs <;> omega

/-! ## Date operations -/

theorem day_decomp (t : Int) : Day t * msPerDay + TimeWithinDay t = t := by
  simp only [Day, TimeWithinDay, msPerDay]; omega

theorem Day_add_days (t k : Int) : Day (t + k * msPerDay) = Day t + k := by
  simp only [Day, msPerDay]; omega

theorem Day_midnight (k : Int) : Day (k * msPerDay) = k := by
  simp only [Day, msPerDay]; omega

theorem daysFromCivil_day (y m d : Int) : daysFromCivil y m d = daysFromCivil y m 1 + d - 1 := by
  simp only [daysFromCivil]; omega

theorem setDate_eq (t dt : Int) : setDate t dt = t + (dt - getDate t) * msPerDay := by
  have h := (civil_spec (Day t)).2.2.2.2
  rw [daysFromCivil_day] at h
  have hd := day_decomp t
  simp only [setDate, getFullYear, getMonth, getDate, sub_add_cancel]
  generalize daysFromCivil (civilFromDays (Day t)).1 (civilFromDays (Day t)).2.1 1 = f at *
  generalize (civilFromDays (Day t)).2.2 = g at *
  simp only [msPerDay] at *
  generalize Day t = a at *
  generalize TimeWithinDay t = b at *
  subst h
  ring_nf
  ring_nf at hd
  omega

theorem newDateYMD_self (t : Int) (h : -365 ≤ Day t) :
    newDateYMD (getFullYear t) (getMonth t) (getDate t) = setHoursZero t := by
  have hy := year_ge (Day t) h
  have hc := (civil_spec (Day t)).2.2.2.2
  have hn : ¬ (0 ≤ (civilFromDays (Day t)).1 ∧ (civilFromDays (Day t)).1 ≤ 99) := by omega
  obtain ⟨hm1, hm2, -, -, -⟩ := civil_spec (Day t)
  have hq : ((civilFromDays (Day t)).2.1 - 1) / 12 = 0 := by omega
  have hr : ((civilFromDays (Day t)).2.1 - 1) % 12 + 1 = (civilFromDays (Day t)).2.1 := by omega
  simp only [newDateYMD, getFullYear, getMonth, getDate, setHoursZero, hn, if_false,
    hq, hr, add_zero, hc]

theorem inicioDaSemana_eq (agora : Nat) :
    inicioDaSemana agora
      = (Day agora + (if getDay agora = 0 then -6 else 1 - getDay agora)) * msPerDay := by
  simp only [inicioDaSemana, setDate_eq, setHoursZero]
  rw [show (agora : Int) + (getDate ↑agora - getDay ↑agora + (if getDay ↑agora = 0 then -6 else 1) - getDate ↑agora) * msPerDay
      = agora + (if getDay (agora : Int) = 0 then -6 else 1 - getDay agora) * msPerDay by
        split_ifs with h0
        · rw [h0]; ring
        · ring]
  rw [Day_add_days]

theorem slot_dateObj (agora index : Nat) :
    newDateYMD (getFullYear (setDate (inicioDaSemana agora) (getDate (inicioDaSemana agora) + index)))
        (getMonth (setDate (inicioDaSemana agora) (getDate (inicioDaSemana agora) + index)))
        (getDate (setDate (inicioDaSemana agora) (getDate (inicioDaSemana agora) + index)))
      = (Day agora + (if getDay agora = 0 then -6 else 1 - getDay agora) + index) * msPerDay := by
  have hday : Day (setDate (inicioDaSemana agora) (getDate (inicioDaSemana agora) + index))
      = Day agora + (if getDay agora = 0 then -6 else 1 - getDay agora) + index := by
    rw [setDate_eq, add_sub_cancel_left, Day_add_days, inicioDaSemana_eq, Day_midnight]
  have h0 : (0 : Int) ≤ Day agora := by simp only [Day, msPerDay]; omega
  have hg : 0 ≤ getDay agora ∧ getDay agora < 7 := by simp only [getDay]; omega
  rw [newDateYMD_self, setHoursZero, hday]
  rw [hday]
  split_ifs <;> omega

theorem getSemanaAtual_dateObj (language : String) (agora : Nat) :
    (getSemanaAtual language agora).map (fun d => d.dateObj)
      = (List.range 7).map (fun i : Nat =>
          (Day agora + (if getDay agora = 0 then -6 else 1 - getDay agora) + i) * msPerDay) := by
  have hr : List.range 7 = [0, 1, 2, 3, 4, 5, 6] := by decide
  rw [hr]
  by_cases hl : language = "pt"
  · simp only [getSemanaAtual, dayNames, if_pos hl, List.enum, List.enumFrom, List.map_cons,
      List.map_nil, slot_dateObj]
  · simp only [getSemanaAtual, dayNames, if_neg hl, List.enum, List.enumFrom, List.map_cons,
      List.map_nil, slot_dateObj]

theorem getSemanaAtual_displayKey (language : String) (agora : Nat) :
    (getSemanaAtual language agora).map (fun d => d.displayKey) = dayNames language := by
  simp only [getSemanaAtual, dayNames]
  split_ifs <;> rfl

/-- C5 (week computation).  For every clock reading `agora` and every language,
`getSemanaAtual` returns exactly 7 slots; with `monday` the day number of today shifted by
the offset `-6` on a Sunday and `1 - dayOfWeek` on any other day, slot `i` is the local
midnight of day `monday + i` (consecutive calendar days), `monday` is a Monday, it is not
after today and at most 6 days before it, and slot 0 is not after `agora`. -/
theorem getSemanaAtual_week (language : String) (agora : Nat) :
    ∃ monday : Int,
      monday = Day agora + (if getDay agora = 0 then -6 else 1 - getDay agora) ∧
      (getSemanaAtual language agora).length = 7 ∧
      (getSemanaAtual language agora).map (fun d => d.dateObj)
        = (List.range 7).map (fun i : Nat => (monday + i) * msPerDay) ∧
      (∀ d ∈ getSemanaAtual language agora, TimeWithinDay d.dateObj = 0) ∧
      (getSemanaAtual language agora).map (fun d => Day d.dateObj)
        = (List.range 7).map (fun i : Nat => monday + i) ∧
      getDay (monday * msPerDay) = 1 ∧
      monday ≤ Day agora ∧ Day agora ≤ monday + 6 ∧
      monday * msPerDay ≤ agora := by
  refine ⟨_, rfl, ?_, getSemanaAtual_dateObj language agora, ?_, ?_, ?_, ?_, ?_, ?_⟩
  · have h := congrArg List.length (getSemanaAtual_dateObj language agora)
    simpa using h
  · intro d hd
    have h : d.dateObj ∈ (getSemanaAtual language agora).map (fun d => d.dateObj) :=
      List.mem_map_of_mem _ hd
    rw [getSemanaAtual_dateObj, List.mem_map] at h
    obtain ⟨i, -, hi⟩ := h
    rw [← hi]
    simp only [TimeWithinDay, msPerDay]
    omega
  · have h := congrArg (List.map Day) (getSemanaAtual_dateObj language agora)
    simpa [List.map_map, Function.comp_def, Day_midnight] using h
  · simp only [getDay, Day_midnight]
    have : getDay (agora : Int) = (Day agora + 4) % 7 := rfl
    split_ifs <;> omega
  · have hg : 0 ≤ getDay agora ∧ getDay agora < 7 := by simp only [getDay]; omega
    split_ifs <;> omega
  · have hg : 0 ≤ getDay agora ∧ getDay agora < 7 := by simp only [getDay]; omega
    split_ifs <;> omega
  · have hg : 0 ≤ getDay agora ∧ getDay agora < 7 := by simp only [getDay]; omega
    have hd := day_decomp agora
    have ht : 0 ≤ TimeWithinDay agora := by simp only [TimeWithinDay, msPerDay]; omega
    simp only [msPerDay] at *
    split_ifs <;> omega

/-! ## Dictionary lemmas -/

section Obj
variable {α : Type}

theorem objGet_objSet (m : List (String × α)) (k : String) (v : α) (k2 : String) :
    objGet (objSet m k v) k2 = if k = k2 then some v else objGet m k2 := by
  induction m with
  | nil => simp [objSet, objGet]
  | cons p rest ih =>
    obtain ⟨k1, v1⟩ := p
    by_cases h1 : k1 = k
    · subst h1
      by_cases h2 : k1 = k2 <;> simp [objSet, objGet, h2]
    · by_cases h2 : k1 = k2
      · subst h2
        simp [objSet, objGet, h1, Ne.symm h1]
      · simp [objSet, objGet, h1, h2, ih]

theorem keys_objSet (m : List (String × α)) (k : String) (v : α) :
    (objSet m k v).map Prod.fst
      = if k ∈ m.map Prod.fst then m.map Prod.fst else m.map Prod.fst ++ [k] := by
  induction m with
  | nil => simp [objSet]
  | cons p rest ih =>
    obtain ⟨k1, v1⟩ := p
    by_cases h1 : k1 = k
    · subst h1; simp [objSet]
    · have h1s : ¬ k = k1 := Ne.symm h1
      by_cases h2 : k ∈ rest.map Prod.fst
      · simp only [objSet, if_neg h1, List.map_cons, ih, if_pos h2, List.mem_cons, h1s, false_or]
      · simp only [objSet, if_neg h1, List.map_cons, ih, if_neg h2, List.mem_cons, h1s, false_or,
          List.cons_append]

theorem objSet_of_not_mem (m : List (String × α)) (k : String) (v : α)
    (h : k ∉ m.map Prod.fst) : objSet m k v = m ++ [(k, v)] := by
  induction m with
  | nil => simp [objSet]
  | cons p rest ih =>
    obtain ⟨k1, v1⟩ := p
    simp only [List.map_cons, List.mem_cons, not_or] at h
    simp [objSet, Ne.symm h.1, ih h.2]

theorem objGet_eq_none (m : List (String × α)) (k : String) :
    objGet m k = none ↔ k ∉ m.map Prod.fst := by
  induction m with
  | nil => simp [objGet]
  | cons p rest ih =>
    obtain ⟨k1, v1⟩ := p
    by_cases h1 : k1 = k
    · subst h1; simp [objGet]
    · simp [objGet, h1, ih, Ne.symm h1]

theorem mem_iff_objGet (m : List (String × α)) (hn : (m.map Prod.fst).Nodup) (k : String) (v : α) :
    (k, v) ∈ m ↔ objGet m k = some v := by
  induction m with
  | nil => simp [objGet]
  | cons p rest ih =>
    obtain ⟨k1, v1⟩ := p
    simp only [List.map_cons, List.nodup_cons] at hn
    by_cases h1 : k1 = k
    · subst h1
      have : ∀ w, (k1, w) ∉ rest := fun w hw => hn.1 (List.mem_map_of_mem Prod.fst hw)
      simp [objGet, this, eq_comm]
    · simp [objGet, h1, ih hn.2, Ne.symm h1]

theorem nodup_keys_objSet (m : List (String × α)) (k : String) (v : α)
    (hn : (m.map Prod.fst).Nodup) : ((objSet m k v).map Prod.fst).Nodup := by
  rw [keys_objSet]
  split_ifs with h
  · exact hn
  · exact List.Nodup.append hn (List.nodup_singleton k) (by simpa using h)

theorem objSet_same (m : List (String × α)) (hn : (m.map Prod.fst).Nodup) (k : String) (v : α)
    (h : objGet m k = some v) : objSet m k v = m := by
  induction m with
  | nil => simp [objGet] at h
  | cons p rest ih =>
    obtain ⟨k1, v1⟩ := p
    simp only [List.map_cons, List.nodup_cons] at hn
    by_cases h1 : k1 = k
    · subst h1
      simp only [objGet, if_true, Option.some.injEq] at h
      simp [objSet, h]
    · simp only [objGet, if_neg h1] at h
      simp [objSet, h1, ih hn.2 h]

end Obj

/-! ## Merge lemmas -/

theorem tarefaDeId_some {ts : List Tarefa} {id : String} {u : Tarefa}
    (h : tarefaDeId ts id = some u) : u ∈ ts ∧ u.id = id := by
  induction ts with
  | nil => simp [tarefaDeId] at h
  | cons t ts ih =>
    simp only [tarefaDeId] at h
    cases hts : tarefaDeId ts id with
    | some w =>
      rw [hts] at h
      simp only [Option.some.injEq] at h
      subst h
      exact ⟨List.mem_cons_of_mem _ (ih hts).1, (ih hts).2⟩
    | none =>
      rw [hts] at h
      by_cases hi : t.id = id
      · simp only [hi, if_true, Option.some.injEq] at h
        subst h
        exact ⟨List.mem_cons_self _ _, hi⟩
      · simp [hi] at h

theorem tarefaDeId_eq_none (ts : List Tarefa) (id : String) :
    tarefaDeId ts id = none ↔ id ∉ ts.map (fun t => t.id) := by
  induction ts with
  | nil => simp [tarefaDeId]
  | cons t ts ih =>
    simp only [tarefaDeId, List.map_cons, List.mem_cons, not_or]
    cases hts : tarefaDeId ts id with
    | some w =>
      have : ¬ (id ∉ ts.map (fun t => t.id)) := fun hc => by
        rw [← ih, hts] at hc; exact Option.noConfusion hc
      simp only [reduceCtorEq, false_iff, not_and]
      intro _
      exact this
    | none =>
      have h2 : id ∉ ts.map (fun t => t.id) := ih.1 hts
      by_cases hi : t.id = id
      · simp [hi]
      · simp [hi, h2, Ne.symm hi]

theorem tarefaDeId_of_nodup {ts : List Tarefa} (hn : (ts.map (fun t => t.id)).Nodup)
    (id : String) (u : Tarefa) : tarefaDeId ts id = some u ↔ u ∈ ts ∧ u.id = id := by
  refine ⟨tarefaDeId_some, ?_⟩
  induction ts with
  | nil => simp
  | cons t ts ih =>
    simp only [List.map_cons, List.nodup_cons] at hn
    rintro ⟨hu, hid⟩
    simp only [tarefaDeId]
    rcases List.mem_cons.1 hu with h | h
    · subst h
      have : tarefaDeId ts id = none := by
        rw [tarefaDeId_eq_none, ← hid]; exact hn.1
      simp [this, hid]
    · rw [ih hn.2 ⟨h, hid⟩]

theorem objGet_foldl_set (ts : List Tarefa) (m0 : List (String × Tarefa)) (id : String) :
    objGet (ts.foldl (fun m task => objSet m task.id task) m0) id
      = match tarefaDeId ts id with
        | some u => some u
        | none => objGet m0 id := by
  induction ts generalizing m0 with
  | nil => simp [tarefaDeId]
  | cons t ts ih =>
    simp only [List.foldl_cons, ih, tarefaDeId, objGet_objSet]
    cases tarefaDeId ts id with
    | some w => rfl
    | none => by_cases hi : t.id = id <;> simp [hi]

theorem nodup_keys_foldl_set (ts : List Tarefa) (m0 : List (String × Tarefa))
    (hn : (m0.map Prod.fst).Nodup) :
    ((ts.foldl (fun m task => objSet m task.id task) m0).map Prod.fst).Nodup := by
  induction ts generalizing m0 with
  | nil => exact hn
  | cons t ts ih => exact ih _ (nodup_keys_objSet m0 t.id t hn)

/-- The `Map` of `initApp` once the remote and then the local tasks have been set. -/
theorem mem_tasksMap (localTasks remoteTasks : List Tarefa) (k : String) (t : Tarefa) :
    (k, t) ∈ localTasks.foldl (fun m task => objSet m task.id task)
        (remoteTasks.foldl (fun m task => objSet m task.id task) [])
      ↔ (match tarefaDeId localTasks k with
          | some u => some u
          | none => tarefaDeId remoteTasks k) = some t := by
  rw [mem_iff_objGet _ (nodup_keys_foldl_set _ _ (nodup_keys_foldl_set _ _ (by simp))),
    objGet_foldl_set, objGet_foldl_set]
  cases tarefaDeId localTasks k with
  | some u => rfl
  | none => cases tarefaDeId remoteTasks k <;> simp [objGet]

theorem tasksMap_key (localTasks remoteTasks : List Tarefa) (p : String × Tarefa)
    (hp : p ∈ localTasks.foldl (fun m task => objSet m task.id task)
        (remoteTasks.foldl (fun m task => objSet m task.id task) [])) : p.2.id = p.1 := by
  obtain ⟨k, t⟩ := p
  rw [mem_tasksMap] at hp
  cases hl : tarefaDeId localTasks k with
  | some u =>
    rw [hl] at hp
    simp only [Option.some.injEq] at hp
    subst hp
    exact (tarefaDeId_some hl).2
  | none =>
    rw [hl] at hp
    exact (tarefaDeId_some hp).2

/-- Membership in the merged list: the last local task with the id, else the last remote one. -/
theorem mem_mergeTasks (localTasks remoteTasks : List Tarefa) (t : Tarefa) :
    t ∈ mergeTasks localTasks remoteTasks
      ↔ (match tarefaDeId localTasks t.id with
          | some u => some u
          | none => tarefaDeId remoteTasks t.id) = some t := by
  simp only [mergeTasks, List.mem_map]
  constructor
  · rintro ⟨p, hp, rfl⟩
    have hk := tasksMap_key _ _ p hp
    rw [← mem_tasksMap, hk]
    exact hp
  · intro h
    exact ⟨(t.id, t), (mem_tasksMap _ _ _ _).2 h, rfl⟩

theorem mergeTasks_ids (localTasks remoteTasks : List Tarefa) :
    (mergeTasks localTasks remoteTasks).map (fun t => t.id)
      = (localTasks.foldl (fun m task => objSet m task.id task)
          (remoteTasks.foldl (fun m task => objSet m task.id task) [])).map Prod.fst := by
  simp only [mergeTasks, List.map_map]
  apply List.map_congr_left
  intro p hp
  exact tasksMap_key _ _ p hp

theorem mergeTasks_nodup (localTasks remoteTasks : List Tarefa) :
    ((mergeTasks localTasks remoteTasks).map (fun t => t.id)).Nodup := by
  rw [mergeTasks_ids]
  exact nodup_keys_foldl_set _ _ (nodup_keys_foldl_set _ _ (by simp))

theorem mem_mergeTasks_ids (localTasks remoteTasks : List Tarefa) (id : String) :
    id ∈ (mergeTasks localTasks remoteTasks).map (fun t => t.id)
      ↔ id ∈ localTasks.map (fun t => t.id) ∨ id ∈ remoteTasks.map (fun t => t.id) := by
  rw [mergeTasks_ids]
  have h := objGet_eq_none (localTasks.foldl (fun m task => objSet m task.id task)
          (remoteTasks.foldl (fun m task => objSet m task.id task) [])) id
  rw [objGet_foldl_set, objGet_foldl_set] at h
  have hl := tarefaDeId_eq_none localTasks id
  have hr := tarefaDeId_eq_none remoteTasks id
  cases h1 : tarefaDeId localTasks id with
  | some u =>
    rw [h1] at h hl
    simp only [false_iff, not_not, reduceCtorEq] at h hl
    simp [h, hl]
  | none =>
    rw [h1] at h hl
    cases h2 : tarefaDeId remoteTasks id with
    | some u =>
      rw [h2] at h hr
      simp only [false_iff, not_not, reduceCtorEq] at h hr
      simp [h, hr]
    | none =>
      rw [h2] at h hr
      simp only [objGet, true_iff] at h hl hr
      simp only [h, hl, hr, or_self]

theorem foldl_set_fresh (ts : List Tarefa) (m0 : List (String × Tarefa))
    (hn : (ts.map (fun t => t.id)).Nodup) (hd : ∀ t ∈ ts, t.id ∉ m0.map Prod.fst) :
    ts.foldl (fun m task => objSet m task.id task) m0 = m0 ++ ts.map (fun t => (t.id, t)) := by
  induction ts generalizing m0 with
  | nil => simp
  | cons t ts ih =>
    simp only [List.map_cons, List.nodup_cons] at hn
    have h1 : t.id ∉ m0.map Prod.fst := hd t (List.mem_cons_self _ _)
    rw [List.foldl_cons, objSet_of_not_mem _ _ _ h1, ih _ hn.2]
    · simp
    · intro u hu
      simp only [List.map_append, List.map_cons, List.map_nil, List.mem_append,
        List.mem_singleton, not_or]
      refine ⟨hd u (List.mem_cons_of_mem _ hu), ?_⟩
      intro he
      exact hn.1 (he ▸ List.mem_map_of_mem (fun t => t.id) hu)

theorem foldl_set_same (ts : List Tarefa) (m0 : List (String × Tarefa))
    (hn : (m0.map Prod.fst).Nodup) (hs : ∀ t ∈ ts, objGet m0 t.id = some t) :
    ts.foldl (fun m task => objSet m task.id task) m0 = m0 := by
  induction ts with
  | nil => rfl
  | cons t ts ih =>
    rw [List.foldl_cons, objSet_same m0 hn t.id t (hs t (List.mem_cons_self _ _))]
    exact ih (fun u hu => hs u (List.mem_cons_of_mem _ hu))

theorem mergeTasks_self_of_nodup (X : List Tarefa) (hn : (X.map (fun t => t.id)).Nodup) :
    mergeTasks X X = X := by
  have h0 : X.foldl (fun m task => objSet m task.id task) [] = X.map (fun t => (t.id, t)) := by
    rw [foldl_set_fresh X [] hn (by simp)]; simp
  have hk : ((X.map (fun t => (t.id, t))).map Prod.fst).Nodup := by
    simpa [List.map_map, Function.comp_def] using hn
  simp only [mergeTasks, h0]
  rw [foldl_set_same X _ hk]
  · simp [List.map_map, Function.comp_def]
  · intro t ht
    rw [← mem_iff_objGet _ hk]
    exact List.mem_map_of_mem _ ht

theorem mem_mergeTasks_of_local (localTasks remoteTasks : List Tarefa)
    (hn : (localTasks.map (fun t => t.id)).Nodup) (u : Tarefa) (hu : u ∈ localTasks) :
    u ∈ mergeTasks localTasks remoteTasks := by
  rw [mem_mergeTasks, (tarefaDeId_of_nodup hn u.id u).2 ⟨hu, rfl⟩]

theorem mem_mergeTasks_of_remote (localTasks remoteTasks : List Tarefa)
    (hn : (remoteTasks.map (fun t => t.id)).Nodup) (r : Tarefa) (hr : r ∈ remoteTasks)
    (hno : ∀ u ∈ localTasks, u.id ≠ r.id) : r ∈ mergeTasks localTasks remoteTasks := by
  have h1 : tarefaDeId localTasks r.id = none := by
    rw [tarefaDeId_eq_none]
    intro hc
    obtain ⟨u, hu, hid⟩ := List.mem_map.1 hc
    exact hno u hu hid
  rw [mem_mergeTasks, h1]
  exact (tarefaDeId_of_nodup hn r.id r).2 ⟨hr, rfl⟩

/-- C3 (merge idempotence).  Merging a collection with itself gives it back: a list with
pairwise distinct ids is returned unchanged (same tasks, same order); for every list the
merged list has the same ids and each id denotes the same task as in the list. -/
theorem mergeTasks_idempotent (X : List Tarefa) :
    ((X.map (fun t => t.id)).Nodup → mergeTasks X X = X) ∧
    (∀ id, id ∈ (mergeTasks X X).map (fun t => t.id) ↔ id ∈ X.map (fun t => t.id)) ∧
    (∀ id, tarefaDeId (mergeTasks X X) id = tarefaDeId X id) := by
  refine ⟨mergeTasks_self_of_nodup X, ?_, ?_⟩
  · intro id
    rw [mem_mergeTasks_ids, or_self]
  · intro id
    apply Option.ext
    intro t
    simp only [Option.mem_def]
    rw [tarefaDeId_of_nodup (mergeTasks_nodup X X)]
    constructor
    · rintro ⟨ht, rfl⟩
      rw [mem_mergeTasks] at ht
      cases h : tarefaDeId X t.id with
      | some u => rw [h] at ht; exact ht
      | none => rw [h] at ht; simp only [h] at ht; exact Option.noConfusion ht
    · intro h
      obtain ⟨_, hid⟩ := tarefaDeId_some h
      subst hid
      refine ⟨?_, rfl⟩
      rw [mem_mergeTasks, h]

/-- C2 (merge precedence).  The merged list of `initApp` has pairwise distinct ids, its
ids are exactly the ids found in the local or the remote list, a merged task whose id
occurs locally is a task of the local list, and a merged task whose id does not occur
locally is a task of the remote list: tasks are taken whole, never mixed field by field.
When the local ids are distinct every local task is in the merged list, and when the
remote ids are distinct so is every remote task whose id is not a local one. -/
theorem mergeTasks_precedence (localTasks remoteTasks : List Tarefa) :
    ((mergeTasks localTasks remoteTasks).map (fun t => t.id)).Nodup ∧
    (∀ id, id ∈ (mergeTasks localTasks remoteTasks).map (fun t => t.id)
      ↔ id ∈ localTasks.map (fun t => t.id) ∨ id ∈ remoteTasks.map (fun t => t.id)) ∧
    (∀ t ∈ mergeTasks localTasks remoteTasks, (∃ u ∈ localTasks, u.id = t.id) → t ∈ localTasks) ∧
    (∀ t ∈ mergeTasks localTasks remoteTasks, (∀ u ∈ localTasks, u.id ≠ t.id) → t ∈ remoteTasks) ∧
    ((localTasks.map (fun t => t.id)).Nodup → ∀ u ∈ localTasks, u ∈ mergeTasks localTasks remoteTasks) ∧
    ((remoteTasks.map (fun t => t.id)).Nodup → ∀ r ∈ remoteTasks,
      (∀ u ∈ localTasks, u.id ≠ r.id) → r ∈ mergeTasks localTasks remoteTasks) := by
  refine ⟨mergeTasks_nodup _ _, mem_mergeTasks_ids _ _, ?_, ?_, ?_, ?_⟩
  · rintro t ht ⟨u, hu, hid⟩
    rw [mem_mergeTasks] at ht
    cases h : tarefaDeId localTasks t.id with
    | some w =>
      rw [h] at ht
      simp only [Option.some.injEq] at ht
      subst ht
      exact (tarefaDeId_some h).1
    | none =>
      rw [tarefaDeId_eq_none] at h
      exact absurd (hid ▸ List.mem_map_of_mem (fun t => t.id) hu) h
  · intro t ht hno
    rw [mem_mergeTasks] at ht
    cases h : tarefaDeId localTasks t.id with
    | some w => exact absurd (tarefaDeId_some h).2 (hno w (tarefaDeId_some h).1)
    | none =>
      rw [h] at ht
      exact (tarefaDeId_some ht).1
  · exact fun hn u hu => mem_mergeTasks_of_local _ _ hn u hu
  · exact fun hn r hr hno => mem_mergeTasks_of_remote _ _ hn r hr hno

/-- C10 (duplicate-id add).  `ADD_TAREFA` with a task whose id is already the id of a task
of the state returns the state unchanged; with an id that no task of the state has, the
task is appended at the end and the rest of the state is kept. -/
theorem appReducer_ADD_TAREFA (state : AppState) (task : Tarefa) :
    ((∃ t ∈ state.tarefas, t.id = task.id) → appReducer state (.ADD_TAREFA task) = state) ∧
    ((∀ t ∈ state.tarefas, t.id ≠ task.id) →
      appReducer state (.ADD_TAREFA task) = { state with tarefas := state.tarefas ++ [task] }) := by
  constructor
  · rintro ⟨t, ht, hid⟩
    have : state.tarefas.any (fun t => decide (t.id = task.id)) = true :=
      List.any_eq_true.2 ⟨t, ht, by simpa using hid⟩
    simp only [appReducer, this, if_true]
  · intro h
    have : ¬ (state.tarefas.any (fun t => decide (t.id = task.id)) = true) := by
      rw [List.any_eq_true]
      rintro ⟨t, ht, hid⟩
      exact h t ht (by simpa using hid)
    simp [appReducer, this]

theorem getSemanaAtual_head (language : String) (agora : Nat) :
    ∃ d rest, getSemanaAtual language agora = d :: rest ∧
      d.dateObj = (Day agora + (if getDay agora = 0 then -6 else 1 - getDay agora)) * msPerDay := by
  have h := getSemanaAtual_dateObj language agora
  cases hw : getSemanaAtual language agora with
  | nil => rw [hw] at h; simp [List.range_succ_eq_map] at h
  | cons d rest =>
    refine ⟨d, rest, rfl, ?_⟩
    rw [hw] at h
    simp only [List.range_succ_eq_map, List.map_cons, List.range_zero, List.map_nil] at h
    have := (List.cons.inj h).1
    simpa using this

theorem initApp_tarefas (b : Boot) (ts : List Tarefa)
    (hload : loadDispatch b = some (.SET_TAREFAS ts)) :
    (initApp b).tarefas
      = if b.hasSeenTutorial = true then ts
        else if ts.any (fun t => decide (t.id = (tutorialTask b.carga).id)) = true then ts
        else ts ++ [tutorialTask b.carga] := by
  cases hs : b.savedSettings <;> cases hseen : b.hasSeenTutorial <;>
    simp only [initApp, initAppDispatches, hload, settingsDispatch, hs, hseen, appReducer,
      Option.toList, List.cons_append, List.nil_append, List.foldl_cons, List.foldl_nil,
      List.append_nil, if_true, if_false, Bool.false_eq_true] <;>
    split_ifs <;> rfl

/-- C1 (offline load retention).  With no user signed in and a stored list, `initApp`
dispatches `SET_TAREFAS` with the stored list filtered (order kept) against `weekStart`,
the date of slot 0 of the current week, that is the Monday of today: a stored task is kept
iff it is pinned or its date with the time zeroed is not before `weekStart`.  Every pinned
task is kept, every unpinned task dated before `weekStart` is removed, and once the
tutorial has been seen the store holds exactly the kept tasks. -/
theorem initApp_offline_retention (b : Boot) (tarefasSalvas : List Tarefa)
    (hu : b.user = none) (hl : b.localData = some tarefasSalvas) :
    ∃ (weekStart : Int) (kept : List Tarefa),
      (getSemanaAtual (currentLanguage b) b.agora).head?.map (fun d => d.dateObj) = some weekStart ∧
      weekStart
        = (Day b.agora + (if getDay b.agora = 0 then -6 else 1 - getDay b.agora)) * msPerDay ∧
      loadDispatch b = some (.SET_TAREFAS kept) ∧
      Action.SET_TAREFAS kept ∈ initAppDispatches b ∧
      (b.hasSeenTutorial = true → (initApp b).tarefas = kept) ∧
      kept = tarefasSalvas.filter (fun T => T.fixada || decide (weekStart ≤ setHoursZero T.date)) ∧
      (∀ T, T ∈ kept ↔
        T ∈ tarefasSalvas ∧ (T.fixada = true ∨ weekStart ≤ setHoursZero T.date)) ∧
      (∀ T ∈ tarefasSalvas, T.fixada = true → T ∈ kept) ∧
      (∀ T ∈ tarefasSalvas, T.fixada = false → setHoursZero T.date < weekStart → T ∉ kept) := by
  obtain ⟨d, rest, hw, hd⟩ := getSemanaAtual_head (currentLanguage b) b.agora
  have hload : loadDispatch b = some (.SET_TAREFAS (tarefasFiltradas tarefasSalvas d.dateObj)) := by
    simp only [loadDispatch, hu, hl, hw]
  have hmem : ∀ T, T ∈ tarefasFiltradas tarefasSalvas d.dateObj ↔
      T ∈ tarefasSalvas ∧ (T.fixada = true ∨ d.dateObj ≤ setHoursZero T.date) := by
    intro T
    simp [tarefasFiltradas, List.mem_filter]
  refine ⟨d.dateObj, tarefasFiltradas tarefasSalvas d.dateObj, ?_, hd, hload, ?_, ?_, ?_, hmem,
    ?_, ?_⟩
  · simp [hw]
  · simp [initAppDispatches, hload]
  · intro hs
    rw [initApp_tarefas b _ hload, if_pos hs]
  · simp [tarefasFiltradas]
  · intro T hT hf
    exact (hmem T).2 ⟨hT, Or.inl hf⟩
  · intro T _ hf hlt hk
    rcases ((hmem T).1 hk).2 with h | h
    · rw [hf] at h; exact Bool.noConfusion h
    · omega

/-- C4 (no retention when signed in).  With a user signed in, for every local list, remote
list and clock reading, `initApp` dispatches `SET_TAREFAS` with the merged list itself:
nothing is compared with the week.  Every merged task is in the store afterwards, the
store holds exactly the merged list once the tutorial has been seen, and every task of
either side, whatever its date and pin, still has its id in the store; with distinct ids
on a side, every local task and every remote task whose id is not a local one is in the
store as it was. -/
theorem initApp_signed_in_no_retention (b : Boot) (uid : String) (hu : b.user = some uid) :
    loadDispatch b = some (.SET_TAREFAS (mergeTasks (b.localData.getD []) b.remoteTasks)) ∧
    Action.SET_TAREFAS (mergeTasks (b.localData.getD []) b.remoteTasks) ∈ initAppDispatches b ∧
    (b.hasSeenTutorial = true →
      (initApp b).tarefas = mergeTasks (b.localData.getD []) b.remoteTasks) ∧
    (∀ t ∈ mergeTasks (b.localData.getD []) b.remoteTasks, t ∈ (initApp b).tarefas) ∧
    (∀ t, t ∈ b.localData.getD [] ∨ t ∈ b.remoteTasks → ∃ u ∈ (initApp b).tarefas, u.id = t.id) ∧
    (((b.localData.getD []).map (fun t => t.id)).Nodup →
      ∀ t ∈ b.localData.getD [], t ∈ (initApp b).tarefas) ∧
    ((b.remoteTasks.map (fun t => t.id)).Nodup →
      ∀ r ∈ b.remoteTasks, (∀ u ∈ b.localData.getD [], u.id ≠ r.id) → r ∈ (initApp b).tarefas) := by
  have hload : loadDispatch b
      = some (.SET_TAREFAS (mergeTasks (b.localData.getD []) b.remoteTasks)) := by
    simp only [loadDispatch, hu]
  have hall : ∀ t ∈ mergeTasks (b.localData.getD []) b.remoteTasks, t ∈ (initApp b).tarefas := by
    intro t ht
    rw [initApp_tarefas b _ hload]
    split_ifs
    · exact ht
    · exact ht
    · exact List.mem_append_left _ ht
  refine ⟨hload, ?_, ?_, hall, ?_,
    fun hn t ht => hall t (mem_mergeTasks_of_local _ _ hn t ht),
    fun hn r hr hno => hall r (mem_mergeTasks_of_remote _ _ hn r hr hno)⟩
  · simp [initAppDispatches, hload]
  · intro hs
    rw [initApp_tarefas b _ hload, if_pos hs]
  · intro t ht
    have hid : t.id ∈ (mergeTasks (b.localData.getD []) b.remoteTasks).map (fun t => t.id) := by
      rw [mem_mergeTasks_ids]
      rcases ht with h | h
      · exact Or.inl (List.mem_map_of_mem (fun t => t.id) h)
      · exact Or.inr (List.mem_map_of_mem (fun t => t.id) h)
    obtain ⟨u, hu2, hid2⟩ := List.mem_map.1 hid
    exact ⟨u, hall u hu2, hid2⟩

/-! ## Bucketing lemmas -/

theorem objGet_pushTarefa (g : List (String × List Tarefa)) (k : String) (t : Tarefa)
    (k2 : String) :
    objGet (pushTarefa g k t) k2
      = if k = k2 then some ((objGet g k).getD [] ++ [t]) else objGet g k2 := by
  cases h : objGet g k with
  | none =>
    simp only [pushTarefa, h, objGet_objSet, if_true, Option.getD_some, Option.getD_none]
    by_cases hk : k = k2 <;> simp [hk, h]
  | some b =>
    simp only [pushTarefa, h, objGet_objSet, Option.getD_some]

theorem keys_pushTarefa (g : List (String × List Tarefa)) (k : String) (t : Tarefa) :
    (pushTarefa g k t).map Prod.fst
      = if k ∈ g.map Prod.fst then g.map Prod.fst else g.map Prod.fst ++ [k] := by
  cases h : objGet g k with
  | none =>
    have hk : k ∉ g.map Prod.fst := (objGet_eq_none g k).1 h
    simp only [pushTarefa, h, keys_objSet, if_neg hk]
    simp
  | some b =>
    have hk : k ∈ g.map Prod.fst := by
      by_contra hc
      rw [(objGet_eq_none g k).2 hc] at h
      exact Option.noConfusion h
    simp only [pushTarefa, h, keys_objSet, if_pos hk]

theorem nodup_keys_pushTarefa (g : List (String × List Tarefa)) (k : String) (t : Tarefa)
    (hn : (g.map Prod.fst).Nodup) : ((pushTarefa g k t).map Prod.fst).Nodup := by
  rw [keys_pushTarefa]
  split_ifs with h
  · exact hn
  · exact List.Nodup.append hn (List.nodup_singleton k) (by simpa using h)

theorem perm_objSet_append (g : List (String × List Tarefa)) (k : String) (b : List Tarefa)
    (t : Tarefa) (h : objGet g k = some b) :
    ((objSet g k (b ++ [t])).flatMap Prod.snd).Perm (t :: g.flatMap Prod.snd) := by
  induction g with
  | nil => simp [objGet] at h
  | cons p rest ih =>
    obtain ⟨k1, v1⟩ := p
    by_cases h1 : k1 = k
    · subst h1
      simp only [objGet, if_true, Option.some.injEq] at h
      subst h
      simp only [objSet, if_true, List.flatMap_cons, List.append_assoc, List.singleton_append]
      exact List.perm_middle
    · simp only [objGet, if_neg h1] at h
      simp only [objSet, if_neg h1, List.flatMap_cons]
      exact ((ih h).append_left v1).trans List.perm_middle

theorem perm_pushTarefa (g : List (String × List Tarefa)) (k : String) (t : Tarefa) :
    ((pushTarefa g k t).flatMap Prod.snd).Perm (t :: g.flatMap Prod.snd) := by
  cases h : objGet g k with
  | none =>
    have hk : k ∉ g.map Prod.fst := (objGet_eq_none g k).1 h
    have h2 : objGet (objSet g k ([] : List Tarefa)) k = some [] := by
      rw [objGet_objSet, if_pos rfl]
    have h3 := perm_objSet_append (objSet g k []) k [] t h2
    simp only [pushTarefa, h, h2, Option.getD_some]
    refine h3.trans ?_
    rw [objSet_of_not_mem g k [] hk]
    simp
  | some b =>
    simp only [pushTarefa, h, Option.getD_some]
    exact perm_objSet_append g k b t h

theorem perm_foldl_pushTarefa (key : Tarefa → String) (ts : List Tarefa)
    (g : List (String × List Tarefa)) :
    ((ts.foldl (fun groups tarefa => pushTarefa groups (key tarefa) tarefa) g).flatMap
      Prod.snd).Perm (g.flatMap Prod.snd ++ ts) := by
  induction ts generalizing g with
  | nil => simp
  | cons t ts ih =>
    rw [List.foldl_cons]
    refine (ih _).trans ?_
    refine ((perm_pushTarefa g (key t) t).append_right ts).trans ?_
    have hm : (g.flatMap Prod.snd ++ t :: ts).Perm (t :: (g.flatMap Prod.snd ++ ts)) :=
      List.perm_middle
    simpa using hm.symm

theorem nodup_keys_foldl_pushTarefa (key : Tarefa → String) (ts : List Tarefa)
    (g : List (String × List Tarefa)) (hn : (g.map Prod.fst).Nodup) :
    ((ts.foldl (fun groups tarefa => pushTarefa groups (key tarefa) tarefa) g).map
      Prod.fst).Nodup := by
  induction ts generalizing g with
  | nil => exact hn
  | cons t ts ih => exact ih _ (nodup_keys_pushTarefa g (key t) t hn)

theorem getD_foldl_pushTarefa (key : Tarefa → String) (ts : List Tarefa)
    (g : List (String × List Tarefa)) (k : String) :
    (objGet (ts.foldl (fun groups tarefa => pushTarefa groups (key tarefa) tarefa) g) k).getD []
      = (objGet g k).getD [] ++ ts.filter (fun t => decide (key t = k)) := by
  induction ts generalizing g with
  | nil => simp
  | cons t ts ih =>
    rw [List.foldl_cons, ih, objGet_pushTarefa]
    by_cases hk : key t = k
    · subst hk
      simp [List.filter_cons]
    · simp [List.filter_cons, hk]

theorem mem_keys_foldl_pushTarefa (key : Tarefa → String) (ts : List Tarefa)
    (g : List (String × List Tarefa)) (k : String) :
    k ∈ (ts.foldl (fun groups tarefa => pushTarefa groups (key tarefa) tarefa) g).map Prod.fst
      ↔ k ∈ g.map Prod.fst ∨ ∃ t ∈ ts, key t = k := by
  induction ts generalizing g with
  | nil => simp
  | cons t ts ih =>
    rw [List.foldl_cons, ih, keys_pushTarefa]
    by_cases h : key t ∈ g.map Prod.fst
    · rw [if_pos h]
      constructor
      · rintro (h1 | ⟨u, hu, hk⟩)
        · exact Or.inl h1
        · exact Or.inr ⟨u, List.mem_cons_of_mem _ hu, hk⟩
      · rintro (h1 | ⟨u, hu, hk⟩)
        · exact Or.inl h1
        · rcases List.mem_cons.1 hu with rfl | hu
          · exact Or.inl (hk ▸ h)
          · exact Or.inr ⟨u, hu, hk⟩
    · rw [if_neg h]
      simp only [List.mem_append, List.mem_singleton]
      constructor
      · rintro ((h1 | h1) | ⟨u, hu, hk⟩)
        · exact Or.inl h1
        · exact Or.inr ⟨t, List.mem_cons_self _ _, h1.symm⟩
        · exact Or.inr ⟨u, List.mem_cons_of_mem _ hu, hk⟩
      · rintro (h1 | ⟨u, hu, hk⟩)
        · exact Or.inl (Or.inl h1)
        · rcases List.mem_cons.1 hu with rfl | hu
          · exact Or.inl (Or.inr hk.symm)
          · exact Or.inr ⟨u, hu, hk⟩

/-- The dictionary with which `tarefasAgrupadas` starts: one empty bucket for each slot. -/
theorem initial_groups (dias : List WeekDay) (g : List (String × List Tarefa))
    (hn : (g.map Prod.fst).Nodup) :
    ((dias.foldl (fun groups dia => objSet groups dia.displayKey []) g).map Prod.fst).Nodup ∧
    (∀ k, k ∈ (dias.foldl (fun groups dia => objSet groups dia.displayKey []) g).map Prod.fst
      ↔ k ∈ g.map Prod.fst ∨ k ∈ dias.map (fun d => d.displayKey)) ∧
    ((∀ p ∈ g, p.2 = []) →
      ∀ p ∈ dias.foldl (fun groups dia => objSet groups dia.displayKey []) g, p.2 = []) := by
  induction dias generalizing g with
  | nil => simp [hn]
  | cons d dias ih =>
    rw [List.foldl_cons]
    obtain ⟨h1, h2, h3⟩ := ih (objSet g d.displayKey []) (nodup_keys_objSet _ _ _ hn)
    refine ⟨h1, ?_, ?_⟩
    · intro k
      rw [h2, keys_objSet]
      by_cases hd : d.displayKey ∈ g.map Prod.fst
      · rw [if_pos hd]
        simp only [List.map_cons, List.mem_cons]
        constructor
        · rintro (h | h)
          · exact Or.inl h
          · exact Or.inr (Or.inr h)
        · rintro (h | h | h)
          · exact Or.inl h
          · exact Or.inl (h ▸ hd)
          · exact Or.inr h
      · rw [if_neg hd]
        simp only [List.map_cons, List.mem_cons, List.mem_append, List.mem_singleton]
        tauto
    · intro hg
      apply h3
      intro p hp
      obtain ⟨k, v⟩ := p
      rw [mem_iff_objGet _ (nodup_keys_objSet _ _ _ hn), objGet_objSet] at hp
      by_cases hk : d.displayKey = k
      · rw [if_pos hk] at hp
        exact (Option.some.inj hp).symm
      · rw [if_neg hk, ← mem_iff_objGet _ hn] at hp
        exact hg _ hp

theorem tarefasAgrupadas_nodup (dias : List WeekDay) (tarefas : List Tarefa) (language : String) :
    ((tarefasAgrupadas dias tarefas language).map Prod.fst).Nodup :=
  nodup_keys_foldl_pushTarefa _ _ _ (initial_groups dias [] (by simp)).1

theorem tarefasAgrupadas_getD (dias : List WeekDay) (tarefas : List Tarefa) (language : String)
    (k : String) :
    (objGet (tarefasAgrupadas dias tarefas language) k).getD []
      = tarefas.filter (fun t => decide (chaveDaTarefa dias language t = k)) := by
  simp only [tarefasAgrupadas]
  rw [getD_foldl_pushTarefa]
  have h0 : (objGet (dias.foldl (fun groups dia => objSet groups dia.displayKey [])
      ([] : List (String × List Tarefa))) k).getD [] = [] := by
    cases h : objGet (dias.foldl (fun groups dia => objSet groups dia.displayKey [])
      ([] : List (String × List Tarefa))) k with
    | none => rfl
    | some v =>
      rw [← mem_iff_objGet _ (initial_groups dias [] (by simp)).1] at h
      exact (initial_groups dias [] (by simp)).2.2 (by simp) _ h
  rw [h0, List.nil_append]

theorem tarefasAgrupadas_bucket (dias : List WeekDay) (tarefas : List Tarefa) (language : String)
    (p : String × List Tarefa) (hp : p ∈ tarefasAgrupadas dias tarefas language) :
    p.2 = tarefas.filter (fun t => decide (chaveDaTarefa dias language t = p.1)) := by
  obtain ⟨k, v⟩ := p
  rw [mem_iff_objGet _ (tarefasAgrupadas_nodup dias tarefas language)] at hp
  rw [← tarefasAgrupadas_getD, hp]
  rfl

theorem tarefasAgrupadas_keys (dias : List WeekDay) (tarefas : List Tarefa) (language : String)
    (k : String) :
    k ∈ (tarefasAgrupadas dias tarefas language).map Prod.fst
      ↔ k ∈ dias.map (fun d => d.displayKey)
        ∨ ∃ t ∈ tarefas, chaveDaTarefa dias language t = k := by
  simp only [tarefasAgrupadas]
  rw [mem_keys_foldl_pushTarefa, (initial_groups dias [] (by simp)).2.1]
  simp

theorem tarefasAgrupadas_perm (dias : List WeekDay) (tarefas : List Tarefa) (language : String) :
    ((tarefasAgrupadas dias tarefas language).flatMap Prod.snd).Perm tarefas := by
  simp only [tarefasAgrupadas]
  refine (perm_foldl_pushTarefa _ _ _).trans ?_
  have h0 : (dias.foldl (fun groups dia => objSet groups dia.displayKey [])
      ([] : List (String × List Tarefa))).flatMap Prod.snd = [] := by
    rw [List.flatMap_eq_nil_iff]
    exact (initial_groups dias [] (by simp)).2.2 (by simp)
  rw [h0, List.nil_append]

theorem tarefasAgrupadas_mem (dias : List WeekDay) (tarefas : List Tarefa) (language : String)
    (t : Tarefa) (ht : t ∈ tarefas) :
    ∃ p ∈ tarefasAgrupadas dias tarefas language,
      p.1 = chaveDaTarefa dias language t ∧ t ∈ p.2 := by
  have hk : chaveDaTarefa dias language t
      ∈ (tarefasAgrupadas dias tarefas language).map Prod.fst :=
    (tarefasAgrupadas_keys _ _ _ _).2 (Or.inr ⟨t, ht, rfl⟩)
  obtain ⟨p, hp, hpk⟩ := List.mem_map.1 hk
  refine ⟨p, hp, hpk, ?_⟩
  rw [tarefasAgrupadas_bucket dias tarefas language p hp, List.mem_filter]
  exact ⟨ht, by simp [hpk]⟩

/-- C6 (bucketer completeness).  For every week and task list the buckets of
`tarefasAgrupadas` partition the list: bucket keys are pairwise distinct, the concatenation
of all buckets is a rearrangement of the input (every task as often as in the input,
nothing else), each bucket is exactly the input tasks filed under its key, in input order,
every input task is in the bucket of its key, and no task is in two buckets. -/
theorem tarefasAgrupadas_partition (diasDaSemana : List WeekDay) (tarefas : List Tarefa)
    (language : String) :
    ((tarefasAgrupadas diasDaSemana tarefas language).map Prod.fst).Nodup ∧
    ((tarefasAgrupadas diasDaSemana tarefas language).flatMap Prod.snd).Perm tarefas ∧
    (∀ t, ((tarefasAgrupadas diasDaSemana tarefas language).flatMap Prod.snd).count t
      = tarefas.count t) ∧
    (∀ p ∈ tarefasAgrupadas diasDaSemana tarefas language,
      p.2 = tarefas.filter (fun t => decide (chaveDaTarefa diasDaSemana language t = p.1))) ∧
    (∀ t ∈ tarefas, ∃ p ∈ tarefasAgrupadas diasDaSemana tarefas language,
      p.1 = chaveDaTarefa diasDaSemana language t ∧ t ∈ p.2) ∧
    (∀ p ∈ tarefasAgrupadas diasDaSemana tarefas language,
      ∀ q ∈ tarefasAgrupadas diasDaSemana tarefas language,
      ∀ t, t ∈ p.2 → t ∈ q.2 → p = q) := by
  have hn := tarefasAgrupadas_nodup diasDaSemana tarefas language
  have hb := tarefasAgrupadas_bucket diasDaSemana tarefas language
  refine ⟨hn, tarefasAgrupadas_perm _ _ _, fun t => (tarefasAgrupadas_perm _ _ _).count_eq t,
    hb, tarefasAgrupadas_mem diasDaSemana tarefas language, ?_⟩
  · intro p hp q hq t htp htq
    rw [hb p hp, List.mem_filter] at htp
    rw [hb q hq, List.mem_filter] at htq
    have hk : p.1 = q.1 := by
      have h1 := htp.2
      have h2 := htq.2
      simp only [decide_eq_true_eq] at h1 h2
      rw [← h1, ← h2]
    obtain ⟨k1, v1⟩ := p
    obtain ⟨k2, v2⟩ := q
    simp only at hk
    subst hk
    rw [mem_iff_objGet _ hn] at hp hq
    rw [hp] at hq
    rw [Option.some.inj hq]

/-! ## Locale keys -/

theorem digitsLE_lt (fuel n : Nat) : ∀ d ∈ digitsLE fuel n, d < 10 := by
  induction fuel generalizing n with
  | zero => simp [digitsLE]
  | succ f ih =>
    intro d hd
    simp only [digitsLE] at hd
    split_ifs at hd with h
    · simp only [List.mem_singleton] at hd; omega
    · rcases List.mem_cons.1 hd with rfl | hd
      · omega
      · exact ih _ d hd

theorem ofDigits_digitsLE (fuel n : Nat) (h : n < fuel) :
    Nat.ofDigits 10 (digitsLE fuel n) = n := by
  induction fuel generalizing n with
  | zero => omega
  | succ f ih =>
    simp only [digitsLE]
    split_ifs with h10
    · simp [Nat.ofDigits]
    · rw [Nat.ofDigits_cons, ih (n / 10) (by omega)]
      omega

theorem digitChar_toNat (d : Nat) (h : d < 10) : (Nat.digitChar d).toNat - 48 = d := by
  interval_cases d <;> rfl

theorem digitChar_inj (a b : Nat) (ha : a < 10) (hb : b < 10)
    (h : Nat.digitChar a = Nat.digitChar b) : a = b := by
  rw [← digitChar_toNat a ha, ← digitChar_toNat b hb, h]

theorem map_digitChar_inj (l1 l2 : List Nat) (h1 : ∀ d ∈ l1, d < 10) (h2 : ∀ d ∈ l2, d < 10)
    (h : l1.map Nat.digitChar = l2.map Nat.digitChar) : l1 = l2 := by
  have key : ∀ l : List Nat, (∀ d ∈ l, d < 10) →
      (l.map Nat.digitChar).map (fun c => c.toNat - 48) = l := by
    intro l hl
    rw [List.map_map]
    conv_rhs => rw [← List.map_id l]
    apply List.map_congr_left
    intro d hd
    exact digitChar_toNat d (hl d hd)
  rw [← key l1 h1, ← key l2 h2, h]

theorem decimal_inj (a b : Nat) (h : decimal a = decimal b) : a = b := by
  simp only [decimal] at h
  have h3 := map_digitChar_inj _ _
    (fun d hd => digitsLE_lt (a + 1) a d (List.mem_reverse.1 hd))
    (fun d hd => digitsLE_lt (b + 1) b d (List.mem_reverse.1 hd)) h
  have h4 := List.reverse_injective h3
  rw [← ofDigits_digitsLE (a + 1) a (by omega), ← ofDigits_digitsLE (b + 1) b (by omega), h4]

theorem pad2_inj (a b : Int) (ha0 : 0 ≤ a) (ha1 : a < 100) (hb0 : 0 ≤ b) (hb1 : b < 100)
    (h : pad2 a = pad2 b) : a = b := by
  simp only [pad2, List.cons.injEq, and_true] at h
  have h1 := digitChar_inj _ _ (by omega) (by omega) h.1
  have h2 := digitChar_inj _ _ (by omega) (by omega) h.2
  omega

theorem civilFromDays_inj (z1 z2 : Int) (h : civilFromDays z1 = civilFromDays z2) : z1 = z2 := by
  calc z1 = daysFromCivil (civilFromDays z1).1 (civilFromDays z1).2.1 (civilFromDays z1).2.2 :=
        ((civil_spec z1).2.2.2.2).symm
    _ = daysFromCivil (civilFromDays z2).1 (civilFromDays z2).2.1 (civilFromDays z2).2.2 := by
        rw [h]
    _ = z2 := (civil_spec z2).2.2.2.2

theorem pad2_length (a : Int) : (pad2 a).length = 2 := rfl

theorem key_chars_inj (a b a2 b2 : Int) (r r2 : List Char)
    (h : pad2 a ++ '/' :: pad2 b ++ '/' :: r = pad2 a2 ++ '/' :: pad2 b2 ++ '/' :: r2) :
    pad2 a = pad2 a2 ∧ pad2 b = pad2 b2 ∧ r = r2 := by
  have h1 : pad2 a ++ ('/' :: (pad2 b ++ '/' :: r)) = pad2 a2 ++ ('/' :: (pad2 b2 ++ '/' :: r2)) := by
    simpa using h
  obtain ⟨e1, e2⟩ := List.append_inj h1 (by rw [pad2_length, pad2_length])
  obtain ⟨e3, e4⟩ := List.append_inj (List.cons.inj e2).2 (by rw [pad2_length, pad2_length])
  exact ⟨e1, e3, (List.cons.inj e4).2⟩

/-- From 1969 on, the key of a day determines the day. -/
theorem dayKey_inj (language : String) (z1 z2 : Int) (h1 : -365 ≤ z1) (h2 : -365 ≤ z2)
    (h : dayKey language z1 = dayKey language z2) : z1 = z2 := by
  obtain ⟨a1, a2, a3, a4, -⟩ := civil_spec z1
  obtain ⟨b1, b2, b3, b4, -⟩ := civil_spec z2
  have y1 := year_ge z1 h1
  have y2 := year_ge z2 h2
  apply civilFromDays_inj
  have hy : (civilFromDays z1).1.toNat = (civilFromDays z2).1.toNat →
      (civilFromDays z1).1 = (civilFromDays z2).1 := by omega
  simp only [dayKey] at h
  split_ifs at h
  · obtain ⟨e1, e2, e3⟩ := key_chars_inj _ _ _ _ _ _ (congrArg String.data h)
    have hd := pad2_inj _ _ (by omega) (by omega) (by omega) (by omega) e1
    have hm := pad2_inj _ _ (by omega) (by omega) (by omega) (by omega) e2
    exact Prod.ext (hy (decimal_inj _ _ e3)) (Prod.ext hm hd)
  · obtain ⟨e1, e2, e3⟩ := key_chars_inj _ _ _ _ _ _ (congrArg String.data h)
    have hm := pad2_inj _ _ (by omega) (by omega) (by omega) (by omega) e1
    have hd := pad2_inj _ _ (by omega) (by omega) (by omega) (by omega) e2
    exact Prod.ext (hy (decimal_inj _ _ e3)) (Prod.ext hm hd)

/-- A key of a day is never the name of a weekday. -/
theorem dayKey_not_dayName (weekLanguage language : String) (z : Int) :
    dayKey language z ∉ dayNames weekLanguage := by
  have h3 : (dayKey language z).data.get? 2 = some '/' := by
    simp only [dayKey, pad2]
    split_ifs <;> rfl
  have hn : ∀ n ∈ dayNames weekLanguage, n.data.get? 2 ≠ some '/' := by
    unfold dayNames
    split_ifs <;> decide
  intro hc
  exact hn _ hc h3

/-! ## Keys of tasks in a week -/

theorem getSemanaAtual_nodup (language : String) (agora : Nat) :
    ((getSemanaAtual language agora).map (fun d => d.dateObj)).Nodup := by
  rw [getSemanaAtual_dateObj]
  refine List.Nodup.map ?_ (List.nodup_range 7)
  intro i j hij
  simp only [msPerDay] at hij
  omega

theorem Day_setHoursZero (t : Int) : Day (setHoursZero t) = Day t := Day_midnight _

theorem Day_nonneg (n : Nat) : 0 ≤ Day (n : Int) := by
  simp only [Day, msPerDay]; omega

theorem find_dateObj (dias : List WeekDay) (hn : (dias.map (fun d => d.dateObj)).Nodup)
    (x : Int) (d : WeekDay) (hd : d ∈ dias) (hx : d.dateObj = x) :
    dias.find? (fun d => decide (d.dateObj = x)) = some d := by
  induction dias with
  | nil => simp at hd
  | cons e rest ih =>
    simp only [List.map_cons, List.nodup_cons] at hn
    rcases List.mem_cons.1 hd with rfl | hd2
    · simp [List.find?_cons, hx]
    · have hne : e.dateObj ≠ x := by
        intro he
        apply hn.1
        rw [he, ← hx]
        exact List.mem_map_of_mem (fun d => d.dateObj) hd2
      simp [List.find?_cons, hne, ih hn.2 hd2]

theorem chaveDaTarefa_week (dias : List WeekDay) (hn : (dias.map (fun d => d.dateObj)).Nodup)
    (language : String) (t : Tarefa) (d : WeekDay) (hd : d ∈ dias)
    (hx : setHoursZero t.date = d.dateObj) : chaveDaTarefa dias language t = d.displayKey := by
  simp only [chaveDaTarefa, find_dateObj dias hn _ d hd hx.symm]

theorem chaveDaTarefa_future (dias : List WeekDay) (language : String) (t : Tarefa)
    (ht : foraDaSemana dias t = true) :
    chaveDaTarefa dias language t = toLocaleDateString language t.date := by
  have hnone : dias.find? (fun d => decide (d.dateObj = setHoursZero t.date)) = none := by
    rw [List.find?_eq_none]
    intro d hd hc
    simp only [foraDaSemana, Bool.not_eq_true', List.any_eq_false] at ht
    exact ht d hd hc
  simp only [chaveDaTarefa, hnone, toLocaleDateString, Day_setHoursZero]

theorem foraDaSemana_iff (dias : List WeekDay) (t : Tarefa) :
    foraDaSemana dias t = true ↔ ∀ d ∈ dias, setHoursZero t.date ≠ d.dateObj := by
  simp only [foraDaSemana, Bool.not_eq_true', List.any_eq_false, decide_eq_true_eq]
  constructor
  · intro h d hd hc; exact h d hd hc.symm
  · intro h d hd hc; exact h d hd hc.symm

/-- C7 (bucket assignment).  In the week of `agora`: a task whose date with the time zeroed
is the date of slot `d` is in the bucket under `d.displayKey`; a task that matches no slot
is in the bucket under the locale-formatted key of its own day and in none of the weekday
buckets; and two tasks outside the week are together in a bucket iff their dates fall on
the same calendar day. -/
theorem tarefasAgrupadas_assignment (weekLanguage language : String) (agora : Nat)
    (tarefas : List Tarefa) :
    (∀ t ∈ tarefas, ∀ d ∈ getSemanaAtual weekLanguage agora, setHoursZero t.date = d.dateObj →
      ∃ b, (d.displayKey, b) ∈ tarefasAgrupadas (getSemanaAtual weekLanguage agora) tarefas language
        ∧ t ∈ b) ∧
    (∀ t ∈ tarefas, (∀ d ∈ getSemanaAtual weekLanguage agora, setHoursZero t.date ≠ d.dateObj) →
      (∃ b, (toLocaleDateString language (setHoursZero t.date), b)
          ∈ tarefasAgrupadas (getSemanaAtual weekLanguage agora) tarefas language ∧ t ∈ b) ∧
      toLocaleDateString language (setHoursZero t.date) = toLocaleDateString language t.date ∧
      ∀ d ∈ getSemanaAtual weekLanguage agora, ∀ b,
        (d.displayKey, b) ∈ tarefasAgrupadas (getSemanaAtual weekLanguage agora) tarefas language →
        t ∉ b) ∧
    (∀ t1 ∈ tarefas, ∀ t2 ∈ tarefas,
      (∀ d ∈ getSemanaAtual weekLanguage agora, setHoursZero t1.date ≠ d.dateObj) →
      (∀ d ∈ getSemanaAtual weekLanguage agora, setHoursZero t2.date ≠ d.dateObj) →
      ((∃ p ∈ tarefasAgrupadas (getSemanaAtual weekLanguage agora) tarefas language,
          t1 ∈ p.2 ∧ t2 ∈ p.2) ↔ Day t1.date = Day t2.date)) := by
  have hn := getSemanaAtual_nodup weekLanguage agora
  have hb := tarefasAgrupadas_bucket (getSemanaAtual weekLanguage agora) tarefas language
  have hin := tarefasAgrupadas_mem (getSemanaAtual weekLanguage agora) tarefas language
  have hfut : ∀ t : Tarefa,
      (∀ d ∈ getSemanaAtual weekLanguage agora, setHoursZero t.date ≠ d.dateObj) →
      chaveDaTarefa (getSemanaAtual weekLanguage agora) language t
        = toLocaleDateString language t.date :=
    fun t h => chaveDaTarefa_future _ _ _ ((foraDaSemana_iff _ _).2 h)
  have hsame : ∀ t : Tarefa, toLocaleDateString language (setHoursZero t.date)
      = toLocaleDateString language t.date := by
    intro t; simp only [toLocaleDateString, Day_setHoursZero]
  refine ⟨?_, ?_, ?_⟩
  · intro t ht d hd hx
    obtain ⟨p, hp, hk, htp⟩ := hin t ht
    rw [chaveDaTarefa_week _ hn language t d hd hx] at hk
    exact ⟨p.2, by rw [← hk]; exact hp, htp⟩
  · intro t ht hout
    refine ⟨?_, hsame t, ?_⟩
    · obtain ⟨p, hp, hk, htp⟩ := hin t ht
      rw [hfut t hout] at hk
      exact ⟨p.2, by rw [hsame, ← hk]; exact hp, htp⟩
    · intro d hd b hmem htb
      have h1 := hb _ hmem
      simp only at h1
      rw [h1, List.mem_filter, decide_eq_true_eq, hfut t hout] at htb
      have h2 : d.displayKey ∈ dayNames weekLanguage := by
        rw [← getSemanaAtual_displayKey weekLanguage agora]
        exact List.mem_map_of_mem (fun d => d.displayKey) hd
      rw [← htb.2] at h2
      exact dayKey_not_dayName weekLanguage language _ h2
  · intro t1 ht1 t2 ht2 ho1 ho2
    constructor
    · rintro ⟨p, hp, h1, h2⟩
      rw [hb p hp, List.mem_filter, decide_eq_true_eq, hfut t1 ho1] at h1
      rw [hb p hp, List.mem_filter, decide_eq_true_eq, hfut t2 ho2] at h2
      have hk := h1.2.trans h2.2.symm
      simp only [toLocaleDateString] at hk
      exact dayKey_inj language _ _ (by have := Day_nonneg t1.date; omega)
        (by have := Day_nonneg t2.date; omega) hk
    · intro hday
      obtain ⟨p, hp, hk, htp⟩ := hin t1 ht1
      refine ⟨p, hp, htp, ?_⟩
      rw [hb p hp, List.mem_filter, decide_eq_true_eq]
      refine ⟨ht2, ?_⟩
      rw [hk, hfut t1 ho1, hfut t2 ho2]
      simp only [toLocaleDateString, hday]

/-! ## Set values and sorting -/

section SetValues
variable {α β : Type} [DecidableEq α] [DecidableEq β]

theorem mem_setValuesAux (seen xs : List α) (k : α) :
    k ∈ setValuesAux seen xs ↔ k ∈ xs ∧ k ∉ seen := by
  induction xs generalizing seen with
  | nil => simp [setValuesAux]
  | cons x xs ih =>
    simp only [setValuesAux]
    split_ifs with h
    · rw [ih]
      constructor
      · rintro ⟨h1, h2⟩; exact ⟨List.mem_cons_of_mem _ h1, h2⟩
      · rintro ⟨h1, h2⟩
        rcases List.mem_cons.1 h1 with rfl | h1
        · exact absurd h h2
        · exact ⟨h1, h2⟩
    · rw [List.mem_cons, ih]
      constructor
      · rintro (rfl | ⟨h1, h2⟩)
        · exact ⟨List.mem_cons_self _ _, h⟩
        · exact ⟨List.mem_cons_of_mem _ h1, fun hc => h2 (List.mem_cons_of_mem _ hc)⟩
      · rintro ⟨h1, h2⟩
        by_cases hk : k = x
        · exact Or.inl hk
        · refine Or.inr ⟨(List.mem_cons.1 h1).resolve_left hk, ?_⟩
          intro hc
          rcases List.mem_cons.1 hc with h3 | h3
          · exact hk h3
          · exact h2 h3

theorem nodup_setValuesAux (seen xs : List α) : (setValuesAux seen xs).Nodup := by
  induction xs generalizing seen with
  | nil => simp [setValuesAux]
  | cons x xs ih =>
    simp only [setValuesAux]
    split_ifs with h
    · exact ih seen
    · rw [List.nodup_cons]
      refine ⟨?_, ih _⟩
      rw [mem_setValuesAux]
      rintro ⟨-, h2⟩
      exact h2 (List.mem_cons_self _ _)

theorem sublist_setValuesAux (seen xs : List α) : (setValuesAux seen xs).Sublist xs := by
  induction xs generalizing seen with
  | nil => simp [setValuesAux]
  | cons x xs ih =>
    simp only [setValuesAux]
    split_ifs with h
    · exact (ih seen).cons x
    · exact (ih _).cons₂ x

theorem setValuesAux_map (f : α → β) (seen xs : List α)
    (hf : ∀ a ∈ seen ++ xs, ∀ b ∈ seen ++ xs, f a = f b → a = b) :
    setValuesAux (seen.map f) (xs.map f) = (setValuesAux seen xs).map f := by
  induction xs generalizing seen with
  | nil => simp [setValuesAux]
  | cons x xs ih =>
    have hmem : f x ∈ seen.map f ↔ x ∈ seen := by
      constructor
      · intro h
        obtain ⟨y, hy, hxy⟩ := List.mem_map.1 h
        have := hf y (List.mem_append_left _ hy) x
          (List.mem_append_right _ (List.mem_cons_self _ _)) hxy
        exact this ▸ hy
      · exact List.mem_map_of_mem f
    simp only [List.map_cons, setValuesAux, hmem]
    split_ifs with h
    · exact ih seen (fun a ha b hb => hf a (by
        rcases List.mem_append.1 ha with h1 | h1
        · exact List.mem_append_left _ h1
        · exact List.mem_append_right _ (List.mem_cons_of_mem _ h1)) b (by
        rcases List.mem_append.1 hb with h1 | h1
        · exact List.mem_append_left _ h1
        · exact List.mem_append_right _ (List.mem_cons_of_mem _ h1)))
    · rw [List.map_cons, ← List.map_cons f x seen, ih (x :: seen)]
      intro a ha b hb
      refine hf a ?_ b ?_
      · rcases List.mem_append.1 ha with h1 | h1
        · rcases List.mem_cons.1 h1 with h2 | h2
          · exact List.mem_append_right _ (h2 ▸ List.mem_cons_self _ _)
          · exact List.mem_append_left _ h2
        · exact List.mem_append_right _ (List.mem_cons_of_mem _ h1)
      · rcases List.mem_append.1 hb with h1 | h1
        · rcases List.mem_cons.1 h1 with h2 | h2
          · exact List.mem_append_right _ (h2 ▸ List.mem_cons_self _ _)
          · exact List.mem_append_left _ h2
        · exact List.mem_append_right _ (List.mem_cons_of_mem _ h1)

end SetValues

theorem Day_mono (a b : Nat) (h : a ≤ b) : Day (a : Int) ≤ Day (b : Int) := by
  simp only [Day, msPerDay]; omega

/-- The days of the tasks outside the week, in the order of `futureTasks`, are sorted. -/
theorem futureDays_sorted (dias : List WeekDay) (tarefas : List Tarefa) :
    (((tarefas.filter (foraDaSemana dias)).insertionSort dateLE).map
      (fun t => Day (t.date : Int))).Pairwise (fun a b => a ≤ b) := by
  rw [List.pairwise_map]
  have hs := List.sorted_insertionSort dateLE (tarefas.filter (foraDaSemana dias))
  exact List.Pairwise.imp (fun {a b} h => Day_mono a.date b.date h) hs

/-- The list `futureKeys` is the list of keys of the distinct days of the tasks outside the
week, in increasing order of day. -/
theorem futureKeys_eq (dias : List WeekDay) (tarefas : List Tarefa) (language : String) :
    futureKeys dias tarefas language
      = (setValues (((tarefas.filter (foraDaSemana dias)).insertionSort dateLE).map
          (fun t => Day (t.date : Int)))).map (dayKey language) := by
  simp only [futureKeys, setValues]
  rw [← setValuesAux_map (dayKey language) []]
  · simp [List.map_map, Function.comp_def, toLocaleDateString]
  · intro a ha b hb hab
    simp only [List.nil_append, List.mem_map] at ha hb
    obtain ⟨t1, -, rfl⟩ := ha
    obtain ⟨t2, -, rfl⟩ := hb
    exact dayKey_inj language _ _ (by have := Day_nonneg t1.date; omega)
      (by have := Day_nonneg t2.date; omega) hab

theorem futureDays_increasing (dias : List WeekDay) (tarefas : List Tarefa) :
    (setValues (((tarefas.filter (foraDaSemana dias)).insertionSort dateLE).map
      (fun t => Day (t.date : Int)))).Pairwise (fun a b => a < b) := by
  have h1 := (futureDays_sorted dias tarefas).sublist (sublist_setValuesAux [] _)
  have h2 : (setValues (((tarefas.filter (foraDaSemana dias)).insertionSort dateLE).map
      (fun t => Day (t.date : Int)))).Pairwise (fun a b => a ≠ b) :=
    nodup_setValuesAux [] _
  exact (h1.and h2).imp (fun {a b} h => lt_of_le_of_ne h.1 h.2)

theorem mem_futureDays (dias : List WeekDay) (tarefas : List Tarefa) (z : Int) :
    z ∈ setValues (((tarefas.filter (foraDaSemana dias)).insertionSort dateLE).map
        (fun t => Day (t.date : Int)))
      ↔ ∃ t ∈ tarefas, foraDaSemana dias t = true ∧ Day (t.date : Int) = z := by
  simp only [setValues, mem_setValuesAux, List.mem_map, List.not_mem_nil, not_false_eq_true,
    and_true]
  constructor
  · rintro ⟨t, ht, rfl⟩
    have := (List.perm_insertionSort dateLE _).mem_iff.1 ht
    rw [List.mem_filter] at this
    exact ⟨t, this.1, this.2, rfl⟩
  · rintro ⟨t, ht, hf, rfl⟩
    exact ⟨t, (List.perm_insertionSort dateLE _).mem_iff.2 (List.mem_filter.2 ⟨ht, hf⟩), rfl⟩

/-! ## The display structure -/

theorem getSemanaAtual_length (language : String) (agora : Nat) :
    (getSemanaAtual language agora).length = 7 := by
  have h := congrArg List.length (getSemanaAtual_dateObj language agora)
  simpa using h

theorem dayNames_nodup (language : String) : (dayNames language).Nodup := by
  unfold dayNames
  split_ifs <;> decide

theorem buildDisplay_eq (dias : List WeekDay) (tarefas : List Tarefa) (language title : String) :
    buildDisplay dias tarefas language title
      = dias.map Block.weekday ++
        (if futureKeys dias tarefas language = [] then []
          else Block.separator title :: (futureKeys dias tarefas language).map Block.future_day) := by
  simp only [buildDisplay]
  by_cases h : futureKeys dias tarefas language = []
  · simp [h]
  · have hl : (futureKeys dias tarefas language).length > 0 := List.length_pos.2 h
    simp [h, hl]

/-- C8 (future-block ordering).  The block list of `buildDisplay` is the 7 weekday blocks
followed, when some task lies outside the week, by the separator and one `future_day`
block for each day of `days`, keyed by the locale key of the day; `days` is strictly
increasing and consists of the calendar days of the tasks outside the week. -/
theorem buildDisplay_future_order (weekLanguage language : String) (agora : Nat)
    (tarefas : List Tarefa) (title : String) :
    ∃ days : List Int,
      days.Pairwise (fun a b => a < b) ∧
      (∀ z, z ∈ days ↔ ∃ t ∈ tarefas,
        (∀ d ∈ getSemanaAtual weekLanguage agora, setHoursZero t.date ≠ d.dateObj)
          ∧ Day (t.date : Int) = z) ∧
      ((getSemanaAtual weekLanguage agora).map Block.weekday).length = 7 ∧
      buildDisplay (getSemanaAtual weekLanguage agora) tarefas language title
        = (getSemanaAtual weekLanguage agora).map Block.weekday ++
          (if days = [] then []
            else Block.separator title :: days.map (fun z => Block.future_day (dayKey language z))) := by
  refine ⟨setValues (((tarefas.filter (foraDaSemana (getSemanaAtual weekLanguage agora))).insertionSort
      dateLE).map (fun t => Day (t.date : Int))), futureDays_increasing _ _, ?_, ?_, ?_⟩
  · intro z
    rw [mem_futureDays]
    simp only [foraDaSemana_iff]
  · rw [List.length_map, getSemanaAtual_length]
  · rw [buildDisplay_eq, futureKeys_eq]
    simp only [List.map_eq_nil_iff, List.map_map, Function.comp_def]

theorem flatMap_buckets (g : List (String × List Tarefa)) (hn : (g.map Prod.fst).Nodup) :
    g.flatMap Prod.snd = (g.map Prod.fst).flatMap (fun k => (objGet g k).getD []) := by
  rw [List.flatMap_map, List.flatMap_def, List.flatMap_def]
  congr 1
  apply List.map_congr_left
  intro p hp
  obtain ⟨k, v⟩ := p
  rw [mem_iff_objGet _ hn] at hp
  simp [hp]

theorem mem_futureKeys (dias : List WeekDay) (tarefas : List Tarefa) (language : String)
    (k : String) :
    k ∈ futureKeys dias tarefas language
      ↔ ∃ t ∈ tarefas, foraDaSemana dias t = true ∧ toLocaleDateString language t.date = k := by
  simp only [futureKeys, setValues, mem_setValuesAux, List.mem_map, List.not_mem_nil,
    not_false_eq_true, and_true]
  constructor
  · rintro ⟨t, ht, rfl⟩
    have := (List.perm_insertionSort dateLE _).mem_iff.1 ht
    rw [List.mem_filter] at this
    exact ⟨t, this.1, this.2, rfl⟩
  · rintro ⟨t, ht, hf, rfl⟩
    exact ⟨t, (List.perm_insertionSort dateLE _).mem_iff.2 (List.mem_filter.2 ⟨ht, hf⟩), rfl⟩

/-- C9 (display structure).  `buildDisplay` returns the 7 weekday blocks in week order;
nothing follows iff every task falls on a slot of the week; otherwise one separator
follows and then the `future_day` blocks of `keys`, which are pairwise distinct and are
exactly the keys of `tarefasAgrupadas` that are not weekday keys.  All block keys are
distinct, and the task lists that the render shows under the blocks, put end to end, are a
rearrangement of the collection: every task is shown exactly once. -/
theorem buildDisplay_structure (weekLanguage language : String) (agora : Nat)
    (tarefas : List Tarefa) (title : String) :
    ∃ keys : List String,
      buildDisplay (getSemanaAtual weekLanguage agora) tarefas language title
        = (getSemanaAtual weekLanguage agora).map Block.weekday ++
          (if keys = [] then [] else Block.separator title :: keys.map Block.future_day) ∧
      ((getSemanaAtual weekLanguage agora).map Block.weekday).length = 7 ∧
      (keys = [] ↔ ∀ t ∈ tarefas, ∃ d ∈ getSemanaAtual weekLanguage agora,
        setHoursZero t.date = d.dateObj) ∧
      keys.Nodup ∧
      (∀ k, k ∈ keys ↔
        k ∈ (tarefasAgrupadas (getSemanaAtual weekLanguage agora) tarefas language).map Prod.fst
          ∧ k ∉ (getSemanaAtual weekLanguage agora).map (fun d => d.displayKey)) ∧
      ((getSemanaAtual weekLanguage agora).map (fun d => d.displayKey) ++ keys).Nodup ∧
      ((buildDisplay (getSemanaAtual weekLanguage agora) tarefas language title).flatMap
        (tarefasDoBloco (tarefasAgrupadas (getSemanaAtual weekLanguage agora) tarefas language))).Perm
        tarefas := by
  have hwn := getSemanaAtual_nodup weekLanguage agora
  have hnames := getSemanaAtual_displayKey weekLanguage agora
  have hkn : (futureKeys (getSemanaAtual weekLanguage agora) tarefas language).Nodup :=
    nodup_setValuesAux [] _
  have hdisj : ∀ k ∈ futureKeys (getSemanaAtual weekLanguage agora) tarefas language,
      k ∉ (getSemanaAtual weekLanguage agora).map (fun d => d.displayKey) := by
    intro k hk
    rw [mem_futureKeys] at hk
    obtain ⟨t, -, -, rfl⟩ := hk
    rw [hnames]
    exact dayKey_not_dayName weekLanguage language _
  have hkeys : ∀ k, k ∈ futureKeys (getSemanaAtual weekLanguage agora) tarefas language ↔
      k ∈ (tarefasAgrupadas (getSemanaAtual weekLanguage agora) tarefas language).map Prod.fst
        ∧ k ∉ (getSemanaAtual weekLanguage agora).map (fun d => d.displayKey) := by
    intro k
    constructor
    · intro hk
      refine ⟨?_, hdisj k hk⟩
      rw [mem_futureKeys] at hk
      obtain ⟨t, ht, hf, rfl⟩ := hk
      rw [tarefasAgrupadas_keys]
      exact Or.inr ⟨t, ht, chaveDaTarefa_future _ _ _ hf⟩
    · rintro ⟨hk, hnot⟩
      rw [tarefasAgrupadas_keys] at hk
      rcases hk with hk | ⟨t, ht, rfl⟩
      · exact absurd hk hnot
      · rw [mem_futureKeys]
        by_cases hf : foraDaSemana (getSemanaAtual weekLanguage agora) t = true
        · exact ⟨t, ht, hf, (chaveDaTarefa_future _ _ _ hf).symm⟩
        · exfalso
          rw [foraDaSemana_iff] at hf
          push_neg at hf
          obtain ⟨d, hd, hx⟩ := hf
          apply hnot
          rw [chaveDaTarefa_week _ hwn language t d hd hx]
          exact List.mem_map_of_mem (fun d => d.displayKey) hd
  have hall : (getSemanaAtual weekLanguage agora).map (fun d => d.displayKey)
      ++ futureKeys (getSemanaAtual weekLanguage agora) tarefas language |>.Nodup := by
    refine List.Nodup.append (hnames ▸ dayNames_nodup weekLanguage) hkn ?_
    intro k h1 h2
    exact hdisj k h2 h1
  refine ⟨futureKeys (getSemanaAtual weekLanguage agora) tarefas language, buildDisplay_eq _ _ _ _,
    by rw [List.length_map, getSemanaAtual_length], ?_, hkn, hkeys, hall, ?_⟩
  · rw [List.eq_nil_iff_forall_not_mem]
    constructor
    · intro h t ht
      by_contra hc
      push_neg at hc
      exact h _ ((mem_futureKeys _ _ _ _).2 ⟨t, ht, (foraDaSemana_iff _ _).2 hc, rfl⟩)
    · intro h k hk
      rw [mem_futureKeys] at hk
      obtain ⟨t, ht, hf, -⟩ := hk
      obtain ⟨d, hd, hx⟩ := h t ht
      exact (foraDaSemana_iff _ _).1 hf d hd hx
  · have hshow : (buildDisplay (getSemanaAtual weekLanguage agora) tarefas language title).flatMap
          (tarefasDoBloco (tarefasAgrupadas (getSemanaAtual weekLanguage agora) tarefas language))
        = ((getSemanaAtual weekLanguage agora).map (fun d => d.displayKey)
            ++ futureKeys (getSemanaAtual weekLanguage agora) tarefas language).flatMap
          (fun k => (objGet (tarefasAgrupadas (getSemanaAtual weekLanguage agora) tarefas
            language) k).getD []) := by
      rw [buildDisplay_eq, List.flatMap_append, List.flatMap_append, List.flatMap_map,
        List.flatMap_map]
      congr 1
      split_ifs with h
      · simp [h]
      · rw [List.flatMap_cons, List.flatMap_map]
        rfl
    rw [hshow]
    have hperm : ((tarefasAgrupadas (getSemanaAtual weekLanguage agora) tarefas language).map
        Prod.fst).Perm ((getSemanaAtual weekLanguage agora).map (fun d => d.displayKey)
          ++ futureKeys (getSemanaAtual weekLanguage agora) tarefas language) := by
      rw [List.perm_ext_iff_of_nodup (tarefasAgrupadas_nodup _ _ _) hall]
      intro k
      rw [List.mem_append, hkeys]
      constructor
      · intro hk
        by_cases hw : k ∈ (getSemanaAtual weekLanguage agora).map (fun d => d.displayKey)
        · exact Or.inl hw
        · exact Or.inr ⟨hk, hw⟩
      · rintro (hw | ⟨hk, -⟩)
        · exact (tarefasAgrupadas_keys _ _ _ _).2 (Or.inl hw)
        · exact hk
    refine (hperm.flatMap_right _).symm.trans ?_
    rw [← flatMap_buckets _ (tarefasAgrupadas_nodup _ _ _)]
    exact tarefasAgrupadas_perm _ _ _

/-! ## Reducer: update, delete, toggle -/

theorem forall₂_map_self {α : Type} (R : α → α → Prop) (f : α → α) (l : List α)
    (h : ∀ a ∈ l, R a (f a)) : List.Forall₂ R l (l.map f) := by
  induction l with
  | nil => exact List.Forall₂.nil
  | cons a l ih =>
    exact List.Forall₂.cons (h a (List.mem_cons_self _ _))
      (ih (fun b hb => h b (List.mem_cons_of_mem _ hb)))

theorem map_ite_absent (tarefas : List Tarefa) (id : String) (f : Tarefa → Tarefa)
    (h : ∀ t ∈ tarefas, t.id ≠ id) :
    tarefas.map (fun t => if t.id = id then f t else t) = tarefas := by
  conv_rhs => rw [← List.map_id tarefas]
  apply List.map_congr_left
  intro t ht
  simp [h t ht]

/-- C11 (update).  `UPDATE_TAREFA` keeps the length and the order of the collection: the
task at each position is kept as it is when its id is not the id of the action, and
otherwise every field named in `updates` takes the value given there and every other field
keeps its value.  When no task has the id the state is unchanged; loading flag and
settings are never touched. -/
theorem appReducer_UPDATE_TAREFA (state : AppState) (id : String) (updates : Updates) :
    (appReducer state (.UPDATE_TAREFA id updates)).tarefas.length = state.tarefas.length ∧
    List.Forall₂
      (fun t r =>
        (t.id ≠ id → r = t) ∧
        (t.id = id →
          r.id = updates.id.getD t.id ∧ r.texto = updates.texto.getD t.texto ∧
          r.date = updates.date.getD t.date ∧ r.concluida = updates.concluida.getD t.concluida ∧
          r.importante = updates.importante.getD t.importante ∧
          r.fixada = updates.fixada.getD t.fixada ∧ r.color = updates.color.getD t.color ∧
          r.fontStyle = updates.fontStyle.getD t.fontStyle ∧
          r.fontWeight = updates.fontWeight.getD t.fontWeight ∧
          r.highlight = updates.highlight.getD t.highlight ∧
          r.highlightColor = updates.highlightColor.getD t.highlightColor ∧
          r.createdAt = updates.createdAt.getD t.createdAt))
      state.tarefas (appReducer state (.UPDATE_TAREFA id updates)).tarefas ∧
    ((∀ t ∈ state.tarefas, t.id ≠ id) → appReducer state (.UPDATE_TAREFA id updates) = state) ∧
    (appReducer state (.UPDATE_TAREFA id updates)).isLoading = state.isLoading ∧
    (appReducer state (.UPDATE_TAREFA id updates)).settings = state.settings := by
  refine ⟨by simp [appReducer], ?_, ?_, rfl, rfl⟩
  · simp only [appReducer]
    apply forall₂_map_self
    intro t _
    by_cases h : t.id = id
    · simp [h, spreadTarefa]
    · simp [h]
  · intro h
    simp only [appReducer, map_ite_absent state.tarefas id _ h]

/-- C12 (delete).  `DELETE_TAREFAS ids` leaves exactly the tasks whose id is not in `ids`,
unchanged and in their original order.  Ids that match no task have no effect, alone or
added to other ids, and an empty id list leaves the state unchanged. -/
theorem appReducer_DELETE_TAREFAS (state : AppState) (ids : List String) :
    (appReducer state (.DELETE_TAREFAS ids)).tarefas
      = state.tarefas.filter (fun t => decide (t.id ∉ ids)) ∧
    (∀ t, t ∈ (appReducer state (.DELETE_TAREFAS ids)).tarefas ↔ t ∈ state.tarefas ∧ t.id ∉ ids) ∧
    (appReducer state (.DELETE_TAREFAS ids)).tarefas.Sublist state.tarefas ∧
    ((∀ t ∈ state.tarefas, t.id ∉ ids) → appReducer state (.DELETE_TAREFAS ids) = state) ∧
    (∀ extra : List String, (∀ t ∈ state.tarefas, t.id ∉ extra) →
      appReducer state (.DELETE_TAREFAS (ids ++ extra)) = appReducer state (.DELETE_TAREFAS ids)) ∧
    appReducer state (.DELETE_TAREFAS []) = state ∧
    (appReducer state (.DELETE_TAREFAS ids)).isLoading = state.isLoading ∧
    (appReducer state (.DELETE_TAREFAS ids)).settings = state.settings := by
  have hf : (fun t : Tarefa => !ids.contains t.id) = (fun t => decide (t.id ∉ ids)) := by
    funext t; simp
  refine ⟨by simp only [appReducer, hf], ?_, ?_, ?_, ?_, ?_, rfl, rfl⟩
  · intro t
    simp [appReducer, List.mem_filter]
  · simp only [appReducer]
    exact List.filter_sublist _
  · intro h
    have : state.tarefas.filter (fun t => !ids.contains t.id) = state.tarefas := by
      rw [List.filter_eq_self]
      intro t ht
      simpa using h t ht
    simp only [appReducer, this]
  · intro extra h
    simp only [appReducer]
    congr 1
    apply List.filter_congr
    intro t ht
    have := h t ht
    simp [this]
  · simp [appReducer]

/-- C13 (toggle pin).  `TOGGLE_PIN_TAREFA id` keeps length and order, replaces each task
with that id by the same task with `fixada` negated, and keeps every other task as it is.
When no task has the id the state is unchanged, and applying the action twice gives back
the original state. -/
theorem appReducer_TOGGLE_PIN_TAREFA (state : AppState) (id : String) :
    (appReducer state (.TOGGLE_PIN_TAREFA id)).tarefas.length = state.tarefas.length ∧
    List.Forall₂
      (fun t r =>
        (t.id ≠ id → r = t) ∧
        (t.id = id → r = { t with fixada := !t.fixada } ∧ r.fixada = !t.fixada ∧ r.id = t.id ∧
          r.texto = t.texto ∧ r.date = t.date ∧ r.concluida = t.concluida ∧
          r.importante = t.importante ∧ r.color = t.color ∧ r.fontStyle = t.fontStyle ∧
          r.fontWeight = t.fontWeight ∧ r.highlight = t.highlight ∧
          r.highlightColor = t.highlightColor ∧ r.createdAt = t.createdAt))
      state.tarefas (appReducer state (.TOGGLE_PIN_TAREFA id)).tarefas ∧
    ((∀ t ∈ state.tarefas, t.id ≠ id) → appReducer state (.TOGGLE_PIN_TAREFA id) = state) ∧
    appReducer (appReducer state (.TOGGLE_PIN_TAREFA id)) (.TOGGLE_PIN_TAREFA id) = state ∧
    (appReducer state (.TOGGLE_PIN_TAREFA id)).isLoading = state.isLoading ∧
    (appReducer state (.TOGGLE_PIN_TAREFA id)).settings = state.settings := by
  refine ⟨by simp [appReducer], ?_, ?_, ?_, rfl, rfl⟩
  · simp only [appReducer]
    apply forall₂_map_self
    intro t _
    by_cases h : t.id = id
    · simp [h]
    · simp [h]
  · intro h
    simp only [appReducer, map_ite_absent state.tarefas id _ h]
  · simp only [appReducer, List.map_map]
    have : state.tarefas.map ((fun t : Tarefa => if t.id = id then { t with fixada := !t.fixada } else t)
        ∘ (fun t : Tarefa => if t.id = id then { t with fixada := !t.fixada } else t))
        = state.tarefas := by
      conv_rhs => rw [← List.map_id state.tarefas]
      apply List.map_congr_left
      intro t _
      by_cases h : t.id = id
      · subst h
        cases t
        simp
      · simp [h]
    rw [this]

/-! ## Ids under the reducer -/

theorem ids_UPDATE_TAREFA (state : AppState) (id : String) (updates : Updates)
    (h : updates.id = none) :
    (appReducer state (.UPDATE_TAREFA id updates)).tarefas.map (fun t => t.id)
      = state.tarefas.map (fun t => t.id) := by
  simp only [appReducer, List.map_map]
  apply List.map_congr_left
  intro t _
  by_cases ht : t.id = id
  · simp [ht, spreadTarefa, h]
  · simp [ht]

theorem ids_TOGGLE_PIN_TAREFA (state : AppState) (id : String) :
    (appReducer state (.TOGGLE_PIN_TAREFA id)).tarefas.map (fun t => t.id)
      = state.tarefas.map (fun t => t.id) := by
  simp only [appReducer, List.map_map]
  apply List.map_congr_left
  intro t _
  by_cases ht : t.id = id
  · simp [ht]
  · simp [ht]

theorem tarefas_ADD_TAREFA (state : AppState) (task : Tarefa) :
    (appReducer state (.ADD_TAREFA task)).tarefas
      = if ∃ t ∈ state.tarefas, t.id = task.id then state.tarefas
        else state.tarefas ++ [task] := by
  by_cases h : ∃ t ∈ state.tarefas, t.id = task.id
  · have : state.tarefas.any (fun t => decide (t.id = task.id)) = true := by
      obtain ⟨t, ht, hid⟩ := h
      exact List.any_eq_true.2 ⟨t, ht, by simpa using hid⟩
    rw [if_pos h]
    simp only [appReducer, this, if_true]
  · have : ¬ (state.tarefas.any (fun t => decide (t.id = task.id)) = true) := by
      rw [List.any_eq_true]
      rintro ⟨t, ht, hid⟩
      exact h ⟨t, ht, by simpa using hid⟩
    rw [if_neg h]
    simp [appReducer, this]

theorem nodup_ADD_TAREFA (state : AppState) (task : Tarefa)
    (hn : (state.tarefas.map (fun t => t.id)).Nodup) :
    ((appReducer state (.ADD_TAREFA task)).tarefas.map (fun t => t.id)).Nodup := by
  rw [tarefas_ADD_TAREFA]
  split_ifs with h
  · exact hn
  · rw [List.map_append]
    refine List.Nodup.append hn (List.nodup_singleton _) ?_
    intro k hk hk2
    simp only [List.map_cons, List.map_nil, List.mem_singleton] at hk2
    obtain ⟨t, ht, hid⟩ := List.mem_map.1 hk
    exact h ⟨t, ht, hid.trans hk2⟩

/-- C18 as amended (unique-id invariant).  From a state whose tasks have pairwise distinct
ids, `ADD_TAREFA`, `DELETE_TAREFAS`, `TOGGLE_PIN_TAREFA` and every `UPDATE_TAREFA` whose
`updates` object carries no `id` field lead to a state with pairwise distinct ids.  None
of them changes the id of an existing task: an add keeps the existing tasks in front, a
delete keeps a sublist, update and toggle keep the list of ids as it is. -/
theorem appReducer_unique_ids (state : AppState)
    (hn : (state.tarefas.map (fun t => t.id)).Nodup) :
    (∀ task : Tarefa,
      ((appReducer state (.ADD_TAREFA task)).tarefas.map (fun t => t.id)).Nodup ∧
      ∃ rest, (appReducer state (.ADD_TAREFA task)).tarefas = state.tarefas ++ rest) ∧
    (∀ (id : String) (updates : Updates), updates.id = none →
      ((appReducer state (.UPDATE_TAREFA id updates)).tarefas.map (fun t => t.id)).Nodup ∧
      (appReducer state (.UPDATE_TAREFA id updates)).tarefas.map (fun t => t.id)
        = state.tarefas.map (fun t => t.id)) ∧
    (∀ ids : List String,
      ((appReducer state (.DELETE_TAREFAS ids)).tarefas.map (fun t => t.id)).Nodup ∧
      (appReducer state (.DELETE_TAREFAS ids)).tarefas.Sublist state.tarefas) ∧
    (∀ id : String,
      ((appReducer state (.TOGGLE_PIN_TAREFA id)).tarefas.map (fun t => t.id)).Nodup ∧
      (appReducer state (.TOGGLE_PIN_TAREFA id)).tarefas.map (fun t => t.id)
        = state.tarefas.map (fun t => t.id)) := by
  refine ⟨?_, ?_, ?_, ?_⟩
  · intro task
    refine ⟨nodup_ADD_TAREFA state task hn, ?_⟩
    rw [tarefas_ADD_TAREFA]
    split_ifs
    · exact ⟨[], by simp⟩
    · exact ⟨[task], rfl⟩
  · intro id updates h
    rw [ids_UPDATE_TAREFA state id updates h]
    exact ⟨hn, rfl⟩
  · intro ids
    have hs : (appReducer state (.DELETE_TAREFAS ids)).tarefas.Sublist state.tarefas := by
      simp only [appReducer]
      exact List.filter_sublist _
    exact ⟨(hs.map (fun t => t.id)).nodup hn, hs⟩
  · intro id
    rw [ids_TOGGLE_PIN_TAREFA state id]
    exact ⟨hn, rfl⟩

/-! ## Remote replace -/

theorem objGet_filter_none {α : Type} (m : List (String × α)) (p : String → Bool) (k : String)
    (h : p k = false) : objGet (m.filter (fun doc => p doc.1)) k = none := by
  rw [objGet_eq_none]
  intro hc
  obtain ⟨doc, hdoc, hk⟩ := List.mem_map.1 hc
  have := (List.mem_filter.1 hdoc).2
  rw [hk, h] at this
  exact Bool.noConfusion this

theorem nodup_keys_filter {α : Type} (m : List (String × α)) (p : String × α → Bool)
    (hn : (m.map Prod.fst).Nodup) : ((m.filter p).map Prod.fst).Nodup :=
  ((List.filter_sublist m).map Prod.fst).nodup hn

/-- After a successful push the document under each id is the last task of the pushed list
that carries the id. -/
theorem objGet_saveTasksToFirestore (uid : String) (remote : List (String × Tarefa))
    (tasksToSave : List Tarefa) (k : String) :
    objGet (saveTasksToFirestore (some uid) true remote tasksToSave) k
      = tarefaDeId tasksToSave k := by
  simp only [saveTasksToFirestore, if_true]
  rw [objGet_foldl_set]
  cases h : tarefaDeId tasksToSave k with
  | some u => rfl
  | none =>
    have hk : k ∉ tasksToSave.map (fun t => t.id) := (tarefaDeId_eq_none _ _).1 h
    apply objGet_filter_none remote (fun d => tasksToSave.any (fun t => decide (t.id = d))) k
    rw [List.any_eq_false]
    intro t ht hc
    exact hk (List.mem_map.2 ⟨t, ht, by simpa using hc⟩)

theorem nodup_saveTasksToFirestore (user : Option String) (remoteOk : Bool)
    (remote : List (String × Tarefa)) (tasksToSave : List Tarefa)
    (hn : (remote.map Prod.fst).Nodup) :
    ((saveTasksToFirestore user remoteOk remote tasksToSave).map Prod.fst).Nodup := by
  cases user with
  | none => exact hn
  | some uid =>
    cases remoteOk with
    | false => exact hn
    | true =>
      simp only [saveTasksToFirestore, if_true]
      exact nodup_keys_foldl_set _ _ (nodup_keys_filter _ _ hn)

theorem keys_saveTasksToFirestore (uid : String) (remote : List (String × Tarefa))
    (tasksToSave : List Tarefa) (k : String) :
    k ∈ (saveTasksToFirestore (some uid) true remote tasksToSave).map Prod.fst
      ↔ k ∈ tasksToSave.map (fun t => t.id) := by
  have h1 := objGet_eq_none (saveTasksToFirestore (some uid) true remote tasksToSave) k
  rw [objGet_saveTasksToFirestore, tarefaDeId_eq_none] at h1
  exact not_iff_not.1 h1.symm

/-- C16 (remote replace).  For a signed-in user and a remote collection keyed by document
id, a successful `saveTasksToFirestore tasksToSave` leaves a collection keyed by distinct
ids whose ids are exactly the ids of the tasks of `tasksToSave`: every document whose id
is the id of no such task is gone, and each id holds the task of the list with that id
(the last one, should the list repeat an id): under the id of every task of the list a
task of the list with that id is stored, and with distinct ids every task of the list is
stored under its id.  Without a user the collection is unchanged. -/
theorem saveTasksToFirestore_replace (remote : List (String × Tarefa))
    (tasksToSave : List Tarefa) (hn : (remote.map Prod.fst).Nodup) :
    (∀ uid : String,
      ((saveTasksToFirestore (some uid) true remote tasksToSave).map Prod.fst).Nodup ∧
      (∀ k, k ∈ (saveTasksToFirestore (some uid) true remote tasksToSave).map Prod.fst
        ↔ k ∈ tasksToSave.map (fun t => t.id)) ∧
      (∀ doc ∈ remote, doc.1 ∉ tasksToSave.map (fun t => t.id) →
        doc.1 ∉ (saveTasksToFirestore (some uid) true remote tasksToSave).map Prod.fst) ∧
      (∀ k t, (k, t) ∈ saveTasksToFirestore (some uid) true remote tasksToSave
        ↔ tarefaDeId tasksToSave k = some t) ∧
      (∀ t ∈ tasksToSave, ∃ u ∈ tasksToSave, u.id = t.id ∧
        (t.id, u) ∈ saveTasksToFirestore (some uid) true remote tasksToSave) ∧
      ((tasksToSave.map (fun t => t.id)).Nodup →
        ∀ t ∈ tasksToSave, (t.id, t) ∈ saveTasksToFirestore (some uid) true remote tasksToSave)) ∧
    (∀ remoteOk : Bool, saveTasksToFirestore none remoteOk remote tasksToSave = remote) := by
  refine ⟨fun uid => ⟨nodup_saveTasksToFirestore _ _ _ _ hn, keys_saveTasksToFirestore uid _ _,
    ?_, ?_, ?_, ?_⟩, fun _ => rfl⟩
  · intro doc _ hno hc
    exact hno ((keys_saveTasksToFirestore uid _ _ _).1 hc)
  · intro k t
    rw [mem_iff_objGet _ (nodup_saveTasksToFirestore _ _ _ _ hn), objGet_saveTasksToFirestore]
  · intro t ht
    cases h : tarefaDeId tasksToSave t.id with
    | none =>
      exact absurd (List.mem_map_of_mem (fun t => t.id) ht) ((tarefaDeId_eq_none _ _).1 h)
    | some u =>
      refine ⟨u, (tarefaDeId_some h).1, (tarefaDeId_some h).2, ?_⟩
      rw [mem_iff_objGet _ (nodup_saveTasksToFirestore _ _ _ _ hn), objGet_saveTasksToFirestore]
      exact h
  · intro hl t ht
    rw [mem_iff_objGet _ (nodup_saveTasksToFirestore _ _ _ _ hn), objGet_saveTasksToFirestore]
    exact (tarefaDeId_of_nodup hl t.id t).2 ⟨ht, rfl⟩

/-- C15 (tutorial exclusion).  Once loading is over, `saveData` writes under the tasks key
of the local store, and passes to `saveTasksToFirestore`, the collection of the store
without the tasks that carry the id of the tutorial task: every other task is kept, in
order, and no task with that id is in the list; after a successful push no remote document
has that id either.  While loading, `saveData` writes nothing. -/
theorem saveData_tutorial_exclusion (user : Option String) (remoteOk : Bool) (carga : Nat)
    (w : World) :
    (w.state.isLoading = false →
      ∃ tasksToSave : List Tarefa,
        (saveData user remoteOk carga w).storage.tarefas = some tasksToSave ∧
        (saveData user remoteOk carga w).remote
          = saveTasksToFirestore user remoteOk w.remote tasksToSave ∧
        tasksToSave = w.state.tarefas.filter (fun t => decide (t.id ≠ "tutorial-task-id")) ∧
        (∀ t ∈ tasksToSave, t.id ≠ (tutorialTask carga).id) ∧
        (∀ t, t ∈ tasksToSave ↔ t ∈ w.state.tarefas ∧ t.id ≠ (tutorialTask carga).id) ∧
        tasksToSave.Sublist w.state.tarefas ∧
        (∀ uid, user = some uid → remoteOk = true →
          ∀ doc ∈ (saveData user remoteOk carga w).remote, doc.1 ≠ (tutorialTask carga).id) ∧
        (saveData user remoteOk carga w).state = w.state) ∧
    (w.state.isLoading = true → saveData user remoteOk carga w = w) := by
  constructor
  · intro hl
    have hmem : ∀ t, t ∈ w.state.tarefas.filter (fun t => t.id != (tutorialTask carga).id)
        ↔ t ∈ w.state.tarefas ∧ t.id ≠ (tutorialTask carga).id := by
      intro t
      simp [List.mem_filter]
    refine ⟨w.state.tarefas.filter (fun t => t.id != (tutorialTask carga).id), ?_, ?_, ?_, ?_,
      hmem, List.filter_sublist _, ?_, ?_⟩
    · simp [saveData, hl]
    · simp [saveData, hl]
    · apply List.filter_congr
      intro t _
      by_cases h : t.id = "tutorial-task-id" <;> simp [tutorialTask, h]
    · intro t ht
      exact ((hmem t).1 ht).2
    · intro uid hu hok doc hdoc
      subst hu
      subst hok
      have hk : doc.1 ∈ (saveTasksToFirestore (some uid) true w.remote
          (w.state.tarefas.filter (fun t => t.id != (tutorialTask carga).id))).map Prod.fst := by
        have hr : (saveData (some uid) true carga w).remote
            = saveTasksToFirestore (some uid) true w.remote
              (w.state.tarefas.filter (fun t => t.id != (tutorialTask carga).id)) := by
          simp [saveData, hl]
        rw [← hr]
        exact List.mem_map_of_mem Prod.fst hdoc
      rw [keys_saveTasksToFirestore] at hk
      obtain ⟨t, ht, hid⟩ := List.mem_map.1 hk
      rw [← hid]
      exact ((hmem t).1 ht).2
    · simp [saveData, hl]
  · intro hl
    simp [saveData, hl]

/-! ## The persistence round of sign-in -/

theorem docsToTasks_ids (remote : List (String × Tarefa)) :
    (docsToTasks remote).map (fun t => t.id) = remote.map Prod.fst := by
  simp [docsToTasks, List.map_map, Function.comp_def]

/-- C17 (reconciliation persistence round).  When the signed-in branch of `initApp` has
run with working stores on a remote collection keyed by document id, the in-memory
collection and the tasks entry of the local store are the merged list, and the remote
collection holds exactly the merged tasks, each under its id; no document that existed
before has been deleted.  The merged list is the one that `loadDispatch` dispatches. -/
theorem initAppSignedIn_round (uid : String) (w : World)
    (hn : (w.remote.map Prod.fst).Nodup) :
    (initAppSignedIn uid w).state.tarefas
      = mergeTasks (w.storage.tarefas.getD []) (docsToTasks w.remote) ∧
    (initAppSignedIn uid w).storage.tarefas
      = some (mergeTasks (w.storage.tarefas.getD []) (docsToTasks w.remote)) ∧
    (∀ k t, (k, t) ∈ (initAppSignedIn uid w).remote
      ↔ t ∈ mergeTasks (w.storage.tarefas.getD []) (docsToTasks w.remote) ∧ t.id = k) ∧
    ((initAppSignedIn uid w).remote.map Prod.snd).Perm
      (mergeTasks (w.storage.tarefas.getD []) (docsToTasks w.remote)) ∧
    (∀ doc ∈ w.remote, doc.1 ∈ (initAppSignedIn uid w).remote.map Prod.fst) ∧
    (∀ b : Boot, b.user = some uid → b.localData = w.storage.tarefas →
      b.remoteTasks = docsToTasks w.remote →
      loadDispatch b
        = some (.SET_TAREFAS (mergeTasks (w.storage.tarefas.getD []) (docsToTasks w.remote)))) := by
  have hmn := mergeTasks_nodup (w.storage.tarefas.getD []) (docsToTasks w.remote)
  have hrn := nodup_saveTasksToFirestore (some uid) true w.remote
    (mergeTasks (w.storage.tarefas.getD []) (docsToTasks w.remote)) hn
  have hmem : ∀ k t, (k, t) ∈ (initAppSignedIn uid w).remote
      ↔ t ∈ mergeTasks (w.storage.tarefas.getD []) (docsToTasks w.remote) ∧ t.id = k := by
    intro k t
    simp only [initAppSignedIn]
    rw [mem_iff_objGet _ hrn, objGet_saveTasksToFirestore, tarefaDeId_of_nodup hmn]
  refine ⟨rfl, rfl, hmem, ?_, ?_, ?_⟩
  · have hkeys : (initAppSignedIn uid w).remote.map Prod.fst
        = ((initAppSignedIn uid w).remote.map Prod.snd).map (fun t => t.id) := by
      rw [List.map_map]
      apply List.map_congr_left
      intro p hp
      obtain ⟨k, t⟩ := p
      exact ((hmem k t).1 hp).2.symm
    have hsn : ((initAppSignedIn uid w).remote.map Prod.snd).Nodup := by
      apply List.Nodup.of_map (fun t => t.id)
      rw [← hkeys]
      exact hrn
    rw [List.perm_ext_iff_of_nodup hsn (List.Nodup.of_map _ hmn)]
    intro t
    constructor
    · intro ht
      obtain ⟨p, hp, rfl⟩ := List.mem_map.1 ht
      obtain ⟨k, t⟩ := p
      exact ((hmem k t).1 hp).1
    · intro ht
      exact List.mem_map.2 ⟨(t.id, t), (hmem t.id t).2 ⟨ht, rfl⟩, rfl⟩
  · intro doc hdoc
    simp only [initAppSignedIn]
    rw [keys_saveTasksToFirestore, mem_mergeTasks_ids, docsToTasks_ids]
    exact Or.inr (List.mem_map_of_mem Prod.fst hdoc)
  · intro b hu hl hr
    simp only [loadDispatch, hu, hl, hr]

/-! ## Generated ids -/

theorem numberToString_inj (n m : Nat) (h : numberToString n = numberToString m) : n = m :=
  decimal_inj n m (congrArg String.data h)

theorem copy_inj (n m : Nat)
    (h : numberToString n ++ "-copy" = numberToString m ++ "-copy") : n = m := by
  have h1 := congrArg String.data h
  simp only [String.data_append] at h1
  exact decimal_inj n m (List.append_cancel_right h1)

theorem digitChar_ne_y (d : Nat) (h : d < 10) : Nat.digitChar d ≠ 'y' := by
  interval_cases d <;> decide

theorem not_mem_decimal_y (n : Nat) : 'y' ∉ decimal n := by
  intro hc
  simp only [decimal, List.mem_map, List.mem_reverse] at hc
  obtain ⟨d, hd, hy⟩ := hc
  exact digitChar_ne_y d (digitsLE_lt _ _ d hd) hy

theorem numberToString_ne_copy (n m : Nat) : numberToString n ≠ numberToString m ++ "-copy" := by
  intro h
  have h1 := congrArg String.data h
  simp only [String.data_append] at h1
  apply not_mem_decimal_y n
  have : 'y' ∈ (numberToString m).data ++ "-copy".data := by
    apply List.mem_append_right
    decide
  rw [← h1] at this
  exact this

/-! ## Creating tasks -/

theorem all_dropWhile {α : Type} (p : α → Bool) (l : List α) :
    (∀ x ∈ l.dropWhile p, p x = true) ↔ ∀ x ∈ l, p x = true := by
  induction l with
  | nil => simp
  | cons a l ih =>
    by_cases ha : p a = true
    · rw [List.dropWhile_cons_of_pos ha, ih]
      simp [ha]
    · rw [List.dropWhile_cons_of_neg ha]

/-- The test `s.trim() === ''` succeeds exactly on the strings made of white space only. -/
theorem trim_eq_empty (s : String) : trim s = "" ↔ ∀ c ∈ s.data, isWhiteSpace c = true := by
  have h1 : trim s = "" ↔
      ((s.data.dropWhile isWhiteSpace).reverse.dropWhile isWhiteSpace).reverse = [] := by
    simp only [trim]
    constructor
    · intro h; exact congrArg String.data h
    · intro h; rw [h]
  rw [h1, List.reverse_eq_nil_iff, List.dropWhile_eq_nil_iff]
  simp only [List.mem_reverse]
  exact all_dropWhile isWhiteSpace s.data

theorem adicionarTarefa_some (tarefaInput : String) (pickerDate : Nat)
    (diasDaSemana : List WeekDay) (editingOptions : EditingOptions) (dateNow agora : Nat)
    (nova : Tarefa)
    (h : adicionarTarefa tarefaInput pickerDate diasDaSemana editingOptions dateNow agora
      = some (.ADD_TAREFA nova)) :
    nova =
      { id := numberToString dateNow, texto := tarefaInput, date := pickerDate,
        concluida := false, importante := false, fixada := false,
        color := editingOptions.chosenColor, fontStyle := editingOptions.fontStyleChoice,
        fontWeight := editingOptions.fontWeightChoice, highlight := editingOptions.highlight,
        highlightColor := some editingOptions.highlightColor, createdAt := agora } := by
  simp only [adicionarTarefa] at h
  split_ifs at h with h1
  cases diasDaSemana with
  | nil =>
    simp only [Option.some.injEq, Action.ADD_TAREFA.injEq] at h
    exact h.symm
  | cons dia rest =>
    simp only at h
    split_ifs at h with h2
    simp only [Option.some.injEq, Action.ADD_TAREFA.injEq] at h
    exact h.symm

theorem handleDuplicateTarefa_some (carga dateNow agora : Nat) (tarefa nova : Tarefa)
    (h : handleDuplicateTarefa carga dateNow agora tarefa = some (.ADD_TAREFA nova)) :
    nova = { tarefa with
      id := numberToString dateNow ++ "-copy", concluida := false, createdAt := agora } := by
  simp only [handleDuplicateTarefa] at h
  split_ifs at h with h1
  simp only [Option.some.injEq, Action.ADD_TAREFA.injEq] at h
  exact h.symm

theorem despachar_ADD_fresh (state : AppState) (nova : Tarefa)
    (h : ∀ t ∈ state.tarefas, t.id ≠ nova.id) :
    (despachar state (some (.ADD_TAREFA nova))).tarefas = state.tarefas ++ [nova] := by
  simp only [despachar, tarefas_ADD_TAREFA]
  rw [if_neg]
  rintro ⟨t, ht, hid⟩
  exact h t ht hid

theorem despachar_ADD_present (state : AppState) (nova : Tarefa)
    (h : ∃ t ∈ state.tarefas, t.id = nova.id) :
    despachar state (some (.ADD_TAREFA nova)) = state := by
  obtain ⟨t, ht, hid⟩ := h
  have : state.tarefas.any (fun t => decide (t.id = nova.id)) = true :=
    List.any_eq_true.2 ⟨t, ht, by simpa using hid⟩
  simp only [despachar, appReducer, this, if_true]

theorem despachar_ADD_keeps (state : AppState) (nova : Tarefa) :
    ∃ rest, (despachar state (some (.ADD_TAREFA nova))).tarefas = state.tarefas ++ rest := by
  simp only [despachar, tarefas_ADD_TAREFA]
  split_ifs
  · exact ⟨[], by simp⟩
  · exact ⟨[nova], rfl⟩

/-- C14 (duplicate).  For a task that does not carry the id of the tutorial task,
`handleDuplicateTarefa` dispatches `ADD_TAREFA` with a task whose id is the clock reading
followed by `-copy`, whose `concluida` is false, whose `createdAt` is the current time and
whose other fields are those of the task; whatever the store, the tasks already there, the
duplicated one included, stay as they are in front of the collection.  For the tutorial
task nothing is dispatched. -/
theorem handleDuplicateTarefa_spec (carga dateNow agora : Nat) (tarefa : Tarefa) :
    (tarefa.id ≠ (tutorialTask carga).id →
      ∃ nova : Tarefa,
        handleDuplicateTarefa carga dateNow agora tarefa = some (.ADD_TAREFA nova) ∧
        nova.id = numberToString dateNow ++ "-copy" ∧ nova.concluida = false ∧
        nova.createdAt = agora ∧ nova.texto = tarefa.texto ∧ nova.date = tarefa.date ∧
        nova.importante = tarefa.importante ∧ nova.fixada = tarefa.fixada ∧
        nova.color = tarefa.color ∧ nova.fontStyle = tarefa.fontStyle ∧
        nova.fontWeight = tarefa.fontWeight ∧ nova.highlight = tarefa.highlight ∧
        nova.highlightColor = tarefa.highlightColor ∧
        (∀ state : AppState, ∃ rest,
          (despachar state (handleDuplicateTarefa carga dateNow agora tarefa)).tarefas
            = state.tarefas ++ rest) ∧
        (∀ state : AppState, tarefa ∈ state.tarefas →
          tarefa ∈ (despachar state (handleDuplicateTarefa carga dateNow agora tarefa)).tarefas)) ∧
    (tarefa.id = (tutorialTask carga).id →
      handleDuplicateTarefa carga dateNow agora tarefa = none ∧
      ∀ state : AppState,
        despachar state (handleDuplicateTarefa carga dateNow agora tarefa) = state) := by
  constructor
  · intro h
    have he : handleDuplicateTarefa carga dateNow agora tarefa
        = some (.ADD_TAREFA { tarefa with
            id := numberToString dateNow ++ "-copy", concluida := false, createdAt := agora }) := by
      simp only [handleDuplicateTarefa, if_neg h]
    refine ⟨_, he, rfl, rfl, rfl, rfl, rfl, rfl, rfl, rfl, rfl, rfl, rfl, rfl, ?_, ?_⟩
    · intro state
      rw [he]
      exact despachar_ADD_keeps state _
    · intro state ht
      rw [he]
      obtain ⟨rest, hr⟩ := despachar_ADD_keeps state
        { tarefa with
          id := numberToString dateNow ++ "-copy", concluida := false, createdAt := agora }
      rw [hr]
      exact List.mem_append_left _ ht
  · intro h
    have he : handleDuplicateTarefa carga dateNow agora tarefa = none := by
      simp only [handleDuplicateTarefa, if_pos h]
    refine ⟨he, fun state => ?_⟩
    rw [he]
    rfl

/-- C19 as amended (generated ids).  The id of a new task is the decimal string of the
millisecond clock and the id of a copy is that string followed by `-copy`: ids generated
at different clock readings differ and a copy id is never an add id.  An add or a
duplicate whose generated id is carried by no task of the collection appends exactly one
task; when a task of the collection already carries the generated id the state is left
unchanged. -/
theorem generated_ids (state : AppState) :
    (∀ n m : Nat, numberToString n = numberToString m → n = m) ∧
    (∀ n m : Nat, numberToString n ++ "-copy" = numberToString m ++ "-copy" → n = m) ∧
    (∀ n m : Nat, numberToString n ≠ numberToString m ++ "-copy") ∧
    (∀ (tarefaInput : String) (pickerDate : Nat) (diasDaSemana : List WeekDay)
      (editingOptions : EditingOptions) (dateNow agora : Nat) (nova : Tarefa),
      adicionarTarefa tarefaInput pickerDate diasDaSemana editingOptions dateNow agora
        = some (.ADD_TAREFA nova) →
      nova.id = numberToString dateNow ∧
      ((∀ t ∈ state.tarefas, t.id ≠ numberToString dateNow) →
        (despachar state
          (adicionarTarefa tarefaInput pickerDate diasDaSemana editingOptions dateNow agora)).tarefas
          = state.tarefas ++ [nova]) ∧
      ((∃ t ∈ state.tarefas, t.id = numberToString dateNow) →
        despachar state
          (adicionarTarefa tarefaInput pickerDate diasDaSemana editingOptions dateNow agora)
          = state)) ∧
    (∀ (carga dateNow agora : Nat) (tarefa nova : Tarefa),
      handleDuplicateTarefa carga dateNow agora tarefa = some (.ADD_TAREFA nova) →
      nova.id = numberToString dateNow ++ "-copy" ∧
      ((∀ t ∈ state.tarefas, t.id ≠ numberToString dateNow ++ "-copy") →
        (despachar state (handleDuplicateTarefa carga dateNow agora tarefa)).tarefas
          = state.tarefas ++ [nova]) ∧
      ((∃ t ∈ state.tarefas, t.id = numberToString dateNow ++ "-copy") →
        despachar state (handleDuplicateTarefa carga dateNow agora tarefa) = state)) := by
  refine ⟨numberToString_inj, copy_inj, numberToString_ne_copy, ?_, ?_⟩
  · intro tarefaInput pickerDate diasDaSemana editingOptions dateNow agora nova h
    have hid : nova.id = numberToString dateNow := by
      rw [adicionarTarefa_some _ _ _ _ _ _ _ h]
    rw [h]
    refine ⟨hid, fun hf => ?_, fun hp => ?_⟩
    · exact despachar_ADD_fresh state nova (by rw [hid]; exact hf)
    · exact despachar_ADD_present state nova (by rw [hid]; exact hp)
  · intro carga dateNow agora tarefa nova h
    have hid : nova.id = numberToString dateNow ++ "-copy" := by
      rw [handleDuplicateTarefa_some _ _ _ _ _ h]
    rw [h]
    refine ⟨hid, fun hf => ?_, fun hp => ?_⟩
    · exact despachar_ADD_fresh state nova (by rw [hid]; exact hf)
    · exact despachar_ADD_present state nova (by rw [hid]; exact hp)

/-- C20 (empty-text add).  When the input text is empty or made of white space only,
`adicionarTarefa` dispatches nothing and the state is unchanged.  When the text has a
character that is not white space and the chosen day is not before slot 0 of the week, it
dispatches the add of one task that carries the text and the date, with `concluida`,
`importante` and `fixada` false and the clock reading as id; if no task of the store has
that id, the collection grows by exactly that task, at the end. -/
theorem adicionarTarefa_spec (state : AppState) (tarefaInput : String) (pickerDate : Nat)
    (diasDaSemana : List WeekDay) (editingOptions : EditingOptions) (dateNow agora : Nat) :
    ((∀ c ∈ tarefaInput.data, isWhiteSpace c = true) →
      adicionarTarefa tarefaInput pickerDate diasDaSemana editingOptions dateNow agora = none ∧
      despachar state
        (adicionarTarefa tarefaInput pickerDate diasDaSemana editingOptions dateNow agora)
        = state) ∧
    ((∃ c ∈ tarefaInput.data, isWhiteSpace c = false) →
      (∀ dia ∈ diasDaSemana.head?, dia.dateObj ≤ setHoursZero pickerDate) →
      ∃ nova : Tarefa,
        adicionarTarefa tarefaInput pickerDate diasDaSemana editingOptions dateNow agora
          = some (.ADD_TAREFA nova) ∧
        nova.texto = tarefaInput ∧ nova.date = pickerDate ∧ nova.concluida = false ∧
        nova.importante = false ∧ nova.fixada = false ∧ nova.id = numberToString dateNow ∧
        nova.createdAt = agora ∧
        ((∀ t ∈ state.tarefas, t.id ≠ nova.id) →
          (despachar state
            (adicionarTarefa tarefaInput pickerDate diasDaSemana editingOptions dateNow
              agora)).tarefas = state.tarefas ++ [nova])) := by
  constructor
  · intro h
    have he : adicionarTarefa tarefaInput pickerDate diasDaSemana editingOptions dateNow agora
        = none := by
      simp only [adicionarTarefa, if_pos ((trim_eq_empty tarefaInput).2 h)]
    rw [he]
    exact ⟨rfl, rfl⟩
  · rintro ⟨c, hc, hw⟩ hdate
    have hne : ¬ trim tarefaInput = "" := by
      intro h
      rw [(trim_eq_empty tarefaInput).1 h c hc] at hw
      exact Bool.noConfusion hw
    have he : adicionarTarefa tarefaInput pickerDate diasDaSemana editingOptions dateNow agora
        = some (.ADD_TAREFA
          { id := numberToString dateNow, texto := tarefaInput, date := pickerDate,
            concluida := false, importante := false, fixada := false,
            color := editingOptions.chosenColor, fontStyle := editingOptions.fontStyleChoice,
            fontWeight := editingOptions.fontWeightChoice, highlight := editingOptions.highlight,
            highlightColor := some editingOptions.highlightColor, createdAt := agora }) := by
      simp only [adicionarTarefa, if_neg hne]
      cases diasDaSemana with
      | nil => rfl
      | cons dia rest =>
        have := hdate dia (by simp)
        simp only
        rw [if_neg (by omega)]
    refine ⟨_, he, rfl, rfl, rfl, rfl, rfl, rfl, rfl, ?_⟩
    intro hf
    rw [he]
    exact despachar_ADD_fresh state _ hf

/-! ## The date check of the handlers -/

theorem setHoursZero_lt_iff (t k : Int) : setHoursZero t < k * msPerDay ↔ Day t < k := by
  simp only [setHoursZero, msPerDay]
  omega

theorem trim_ne_empty (s : String) (h : ∃ c ∈ s.data, isWhiteSpace c = false) : trim s ≠ "" := by
  obtain ⟨c, hc, hw⟩ := h
  intro he
  rw [(trim_eq_empty s).1 he c hc] at hw
  exact Bool.noConfusion hw

theorem ne_empty_of_trim (s : String) (h : trim s ≠ "") : s ≠ "" := by
  intro he
  apply h
  rw [he]
  rfl

/-- C26 (past-date add).  In the week of the clock reading `agoraSemana`, whose Monday is
the day `Day agoraSemana` shifted by `-6` on a Sunday and by `1 - dayOfWeek` otherwise:
when the day of the chosen date precedes that Monday, `adicionarTarefa` dispatches nothing
and the store is unchanged, whatever the text; when the day of the chosen date is that
Monday or a later day (a day after the Sunday of the week included) and the text is not
blank, it dispatches the add of a task with the text and the chosen date, and the
collection grows by that task if its id is not taken. -/
theorem adicionarTarefa_past_date (state : AppState) (language : String) (agoraSemana : Nat)
    (tarefaInput : String) (pickerDate : Nat) (editingOptions : EditingOptions)
    (dateNow agora : Nat) :
    (Day pickerDate
        < Day agoraSemana + (if getDay agoraSemana = 0 then -6 else 1 - getDay agoraSemana) →
      adicionarTarefa tarefaInput pickerDate (getSemanaAtual language agoraSemana)
        editingOptions dateNow agora = none ∧
      despachar state (adicionarTarefa tarefaInput pickerDate
        (getSemanaAtual language agoraSemana) editingOptions dateNow agora) = state) ∧
    (Day agoraSemana + (if getDay agoraSemana = 0 then -6 else 1 - getDay agoraSemana)
        ≤ Day pickerDate →
      (∃ c ∈ tarefaInput.data, isWhiteSpace c = false) →
      ∃ nova : Tarefa,
        adicionarTarefa tarefaInput pickerDate (getSemanaAtual language agoraSemana)
          editingOptions dateNow agora = some (.ADD_TAREFA nova) ∧
        nova.texto = tarefaInput ∧ nova.date = pickerDate ∧
        ((∀ t ∈ state.tarefas, t.id ≠ nova.id) →
          (despachar state (adicionarTarefa tarefaInput pickerDate
            (getSemanaAtual language agoraSemana) editingOptions dateNow agora)).tarefas
            = state.tarefas ++ [nova])) := by
  obtain ⟨d, rest, hw, hd⟩ := getSemanaAtual_head language agoraSemana
  constructor
  · intro hlt
    have he : adicionarTarefa tarefaInput pickerDate (getSemanaAtual language agoraSemana)
        editingOptions dateNow agora = none := by
      rw [hw]
      simp only [adicionarTarefa]
      split_ifs with h1 h2
      · rfl
      · rfl
      · exact absurd ((setHoursZero_lt_iff _ _).2 hlt) (by rw [← hd]; exact h2)
    rw [he]
    exact ⟨rfl, rfl⟩
  · intro hge hc
    have hne := trim_ne_empty tarefaInput hc
    have hnl : ¬ setHoursZero pickerDate < d.dateObj := by
      rw [hd, setHoursZero_lt_iff]
      omega
    have he : adicionarTarefa tarefaInput pickerDate (getSemanaAtual language agoraSemana)
        editingOptions dateNow agora
        = some (.ADD_TAREFA
          { id := numberToString dateNow, texto := tarefaInput, date := pickerDate,
            concluida := false, importante := false, fixada := false,
            color := editingOptions.chosenColor, fontStyle := editingOptions.fontStyleChoice,
            fontWeight := editingOptions.fontWeightChoice, highlight := editingOptions.highlight,
            highlightColor := some editingOptions.highlightColor, createdAt := agora }) := by
      rw [hw]
      simp only [adicionarTarefa, if_neg hne, if_neg hnl]
    refine ⟨_, he, rfl, rfl, ?_⟩
    intro hf
    rw [he]
    exact despachar_ADD_fresh state _ hf

/-! ## The edit paths -/

theorem texto_UPDATE_TAREFA (state : AppState) (id : String) (updates : Updates)
    (texto : String) (hu : updates.texto = some texto) (hne : texto ≠ "")
    (h : ∀ t ∈ state.tarefas, t.texto ≠ "") :
    ∀ t ∈ (appReducer state (.UPDATE_TAREFA id updates)).tarefas, t.texto ≠ "" := by
  intro t ht
  simp only [appReducer, List.mem_map] at ht
  obtain ⟨u, hu1, rfl⟩ := ht
  split_ifs
  · simp only [spreadTarefa, hu, Option.getD_some]
    exact hne
  · exact h u hu1

theorem mem_UPDATE_TAREFA (state : AppState) (id : String) (updates : Updates) (t : Tarefa)
    (ht : t ∈ state.tarefas) (hid : t.id = id) :
    spreadTarefa t updates ∈ (despachar state (some (.UPDATE_TAREFA id updates))).tarefas := by
  simp only [despachar, appReducer, List.mem_map]
  exact ⟨t, ht, by simp [hid]⟩

/-- C21 (text never persisted empty), evaluated on the three operations that write task
text.  From a store in which every task has a non-empty text, `adicionarTarefa` and
`handleAutoSave` lead to a store in which every task has a non-empty text, and so does
`salvarEdicao` when the text of the dialog is not empty.  But `salvarEdicao` does not look
at the text: with the empty text, a task of the store being edited and a date that passes
the date check, it dispatches the update, and the store then holds a task whose text is
empty. -/
theorem salvarEdicao_texto (state : AppState) (h : ∀ t ∈ state.tarefas, t.texto ≠ "") :
    (∀ (tarefaInput : String) (pickerDate : Nat) (diasDaSemana : List WeekDay)
        (editingOptions : EditingOptions) (dateNow agora : Nat),
      ∀ t ∈ (despachar state (adicionarTarefa tarefaInput pickerDate diasDaSemana
          editingOptions dateNow agora)).tarefas, t.texto ≠ "") ∧
    (∀ (tarefaSendoEditada : Option Tarefa) (textoEditado : String) (dataEditada : Nat)
        (editingOptions : EditingOptions),
      ∀ t ∈ (despachar state (handleAutoSave tarefaSendoEditada textoEditado dataEditada
          editingOptions)).tarefas, t.texto ≠ "") ∧
    (∀ (tarefaSendoEditada : Option Tarefa) (textoEditado : String) (dataEditada : Nat)
        (editingOptions : EditingOptions) (diasDaSemana : List WeekDay),
      textoEditado ≠ "" →
      ∀ t ∈ (despachar state (salvarEdicao tarefaSendoEditada textoEditado dataEditada
          editingOptions diasDaSemana)).tarefas, t.texto ≠ "") ∧
    (∀ tarefa ∈ state.tarefas, ∀ (dataEditada : Nat) (editingOptions : EditingOptions)
        (diasDaSemana : List WeekDay),
      (∀ dia ∈ diasDaSemana.head?, dia.dateObj ≤ setHoursZero dataEditada) →
      ∃ t ∈ (despachar state (salvarEdicao (some tarefa) "" dataEditada editingOptions
          diasDaSemana)).tarefas, t.id = tarefa.id ∧ t.texto = "") := by
  refine ⟨?_, ?_, ?_, ?_⟩
  · intro tarefaInput pickerDate diasDaSemana editingOptions dateNow agora t ht
    cases he : adicionarTarefa tarefaInput pickerDate diasDaSemana editingOptions dateNow agora with
    | none =>
      rw [he] at ht
      exact h t ht
    | some a =>
      have hne : trim tarefaInput ≠ "" := by
        intro hc
        simp only [adicionarTarefa, if_pos hc] at he
        exact Option.noConfusion he
      have ha : ∃ nova, a = .ADD_TAREFA nova ∧ nova.texto = tarefaInput := by
        simp only [adicionarTarefa, if_neg hne] at he
        cases diasDaSemana with
        | nil => exact ⟨_, (Option.some.inj he).symm, rfl⟩
        | cons dia rest =>
          simp only at he
          split_ifs at he
          exact ⟨_, (Option.some.inj he).symm, rfl⟩
      obtain ⟨nova, rfl, hn⟩ := ha
      rw [he] at ht
      simp only [despachar, tarefas_ADD_TAREFA] at ht
      split_ifs at ht
      · exact h t ht
      · rcases List.mem_append.1 ht with h1 | h1
        · exact h t h1
        · simp only [List.mem_singleton] at h1
          rw [h1, hn]
          exact ne_empty_of_trim _ hne
  · intro tarefaSendoEditada textoEditado dataEditada editingOptions t ht
    cases tarefaSendoEditada with
    | none => exact h t ht
    | some tarefa =>
      simp only [handleAutoSave] at ht
      split_ifs at ht with hc
      · exact texto_UPDATE_TAREFA state _ _ textoEditado rfl hc.1 h t ht
      · exact h t ht
  · intro tarefaSendoEditada textoEditado dataEditada editingOptions diasDaSemana hne t ht
    cases tarefaSendoEditada with
    | none => exact h t ht
    | some tarefa =>
      simp only [salvarEdicao] at ht
      cases diasDaSemana with
      | nil => exact texto_UPDATE_TAREFA state _ _ textoEditado rfl hne h t ht
      | cons dia rest =>
        simp only at ht
        split_ifs at ht
        · exact h t ht
        · exact texto_UPDATE_TAREFA state _ _ textoEditado rfl hne h t ht
  · intro tarefa htar dataEditada editingOptions diasDaSemana hdate
    have he : salvarEdicao (some tarefa) "" dataEditada editingOptions diasDaSemana
        = some (.UPDATE_TAREFA tarefa.id
          { texto := some "", date := some dataEditada,
            color := some editingOptions.chosenColor,
            fontStyle := some editingOptions.fontStyleChoice,
            fontWeight := some editingOptions.fontWeightChoice,
            highlight := some editingOptions.highlight,
            highlightColor := some (some editingOptions.highlightColor) }) := by
      simp only [salvarEdicao]
      cases diasDaSemana with
      | nil => rfl
      | cons dia rest =>
        have := hdate dia (by simp)
        simp only
        rw [if_neg (by omega)]
    rw [he]
    exact ⟨_, mem_UPDATE_TAREFA state _ _ tarefa htar rfl, rfl, rfl⟩

/-- C30 (edits and the current week), evaluated on both edit paths.  In the week of the
clock reading `agora`, for an edited date whose day precedes the Monday of the week:
`salvarEdicao` dispatches nothing and the store is unchanged.  But `handleAutoSave` has no
date check: with a task being edited and a text that is not blank it dispatches the
update, and every task of the store that carries the id of the edited task then carries
the edited date, whose day precedes the Monday. -/
theorem handleAutoSave_past_date (state : AppState) (language : String) (agora : Nat)
    (tarefa : Tarefa) (textoEditado : String) (dataEditada : Nat)
    (editingOptions : EditingOptions)
    (hpast : Day dataEditada
      < Day agora + (if getDay agora = 0 then -6 else 1 - getDay agora)) :
    salvarEdicao (some tarefa) textoEditado dataEditada editingOptions
      (getSemanaAtual language agora) = none ∧
    despachar state (salvarEdicao (some tarefa) textoEditado dataEditada editingOptions
      (getSemanaAtual language agora)) = state ∧
    ((∃ c ∈ textoEditado.data, isWhiteSpace c = false) →
      (∃ updates : Updates,
        handleAutoSave (some tarefa) textoEditado dataEditada editingOptions
          = some (.UPDATE_TAREFA tarefa.id updates) ∧ updates.date = some dataEditada) ∧
      ∀ t ∈ state.tarefas, t.id = tarefa.id →
        ∃ u ∈ (despachar state (handleAutoSave (some tarefa) textoEditado dataEditada
            editingOptions)).tarefas,
          u.id = tarefa.id ∧ u.date = dataEditada ∧
          Day u.date < Day agora + (if getDay agora = 0 then -6 else 1 - getDay agora)) := by
  obtain ⟨d, rest, hw, hd⟩ := getSemanaAtual_head language agora
  have he : salvarEdicao (some tarefa) textoEditado dataEditada editingOptions
      (getSemanaAtual language agora) = none := by
    rw [hw]
    simp only [salvarEdicao]
    rw [if_pos (by rw [hd]; exact (setHoursZero_lt_iff _ _).2 hpast)]
  refine ⟨he, by rw [he]; rfl, ?_⟩
  intro hc
  have hne := trim_ne_empty textoEditado hc
  have ha : handleAutoSave (some tarefa) textoEditado dataEditada editingOptions
      = some (.UPDATE_TAREFA tarefa.id
          { texto := some textoEditado, date := some dataEditada,
            color := some editingOptions.chosenColor,
            fontStyle := some editingOptions.fontStyleChoice,
            fontWeight := some editingOptions.fontWeightChoice,
            highlight := some editingOptions.highlight,
            highlightColor := some (some editingOptions.highlightColor) }) := by
    simp only [handleAutoSave]
    rw [if_pos ⟨ne_empty_of_trim _ hne, hne⟩]
  refine ⟨⟨_, ha, rfl⟩, ?_⟩
  intro t ht hid
  rw [ha]
  exact ⟨_, mem_UPDATE_TAREFA state _ _ t ht hid, hid, rfl, hpast⟩

/-! ## Deleting tasks and the tutorial task -/

theorem mem_DELETE_TAREFAS (state : AppState) (ids : List String) (t : Tarefa) :
    t ∈ (appReducer state (.DELETE_TAREFAS ids)).tarefas ↔ t ∈ state.tarefas ∧ t.id ∉ ids := by
  simp [appReducer, List.mem_filter]

/-- C25 (tutorial task and deletion), evaluated on the three operations that delete.  In
a store that holds the tutorial task: `handleDeleteTarefa` never removes it, whatever id
it is called with and whatever the user answers; `deleteSelectedTasks` keeps it when the
selection does not hold its id; `handleFinishTutorial` removes the tasks with its id and
keeps every other task, in order.  But the selection can hold its id (a long press on the
tutorial task selects it: `toggleTaskSelection` has no check, nor has the button Mark
all), and `deleteSelectedTasks` has no check either: once confirmed, it removes the
tutorial task. -/
theorem deleteSelectedTasks_tutorial (state : AppState) (carga : Nat)
    (h : tutorialTask carga ∈ state.tarefas) :
    (∀ (tarefaId : String) (confirma : Bool),
      tutorialTask carga
        ∈ (despachar state (handleDeleteTarefa carga tarefaId confirma)).tarefas) ∧
    (∀ (selectedTasks : List String) (confirma : Bool),
      (tutorialTask carga).id ∉ selectedTasks →
      tutorialTask carga
        ∈ (despachar state (deleteSelectedTasks selectedTasks confirma)).tarefas) ∧
    (∀ (storageOk : Bool) (w : World), w.state = state →
      (handleFinishTutorial storageOk carga w).state.tarefas
        = state.tarefas.filter (fun t => decide (t.id ≠ (tutorialTask carga).id))) ∧
    toggleTaskSelection [] (tutorialTask carga).id = [(tutorialTask carga).id] ∧
    (∀ prev : List String,
      (tutorialTask carga).id
        ∈ handleToggleSelectAllForDay prev (state.tarefas.map (fun t => t.id)) false) ∧
    (∀ selectedTasks : List String, (tutorialTask carga).id ∈ selectedTasks →
      tutorialTask carga
        ∉ (despachar state (deleteSelectedTasks selectedTasks true)).tarefas) := by
  refine ⟨?_, ?_, ?_, rfl, ?_, ?_⟩
  · intro tarefaId confirma
    simp only [handleDeleteTarefa]
    split_ifs with h1 h2
    · exact h
    · simp only [despachar, mem_DELETE_TAREFAS, List.mem_singleton]
      exact ⟨h, fun hc => h1 hc.symm⟩
    · exact h
  · intro selectedTasks confirma hsel
    simp only [deleteSelectedTasks]
    split_ifs
    · simp only [despachar, mem_DELETE_TAREFAS]
      exact ⟨h, hsel⟩
    · exact h
  · intro storageOk w hw
    subst hw
    simp only [handleFinishTutorial, appReducer]
    apply List.filter_congr
    intro t _
    by_cases ht : t.id = (tutorialTask carga).id <;> simp [ht]
  · intro prev
    simp only [handleToggleSelectAllForDay, Bool.false_eq_true, if_false, setValues]
    rw [mem_setValuesAux]
    refine ⟨List.mem_append_right _ (List.mem_map_of_mem (fun t => t.id) h), by simp⟩
  · intro selectedTasks hsel
    simp only [deleteSelectedTasks, if_true, despachar, mem_DELETE_TAREFAS]
    exact fun hc => hc.2 hsel

/-! ## Logout -/

/-- C22 as amended (logout).  For every local store, remote collection and store of the
component, after `handleLogoutPress` the tasks entry of the local store is gone, the
settings entry and the tutorial flag of the local store are what they were, the in-memory
task collection is empty (loading flag and settings kept), and the remote collection is
exactly what it was. -/
theorem handleLogoutPress_frame (w : World) :
    (handleLogoutPress w).storage.tarefas = none ∧
    (handleLogoutPress w).storage.settings = w.storage.settings ∧
    (handleLogoutPress w).storage.tutorialVisto = w.storage.tutorialVisto ∧
    (handleLogoutPress w).state.tarefas = [] ∧
    (handleLogoutPress w).state.isLoading = w.state.isLoading ∧
    (handleLogoutPress w).state.settings = w.state.settings ∧
    (handleLogoutPress w).remote = w.remote :=
  ⟨rfl, rfl, rfl, rfl, rfl, rfl, rfl⟩

/-! ## Buckets and the tutorial task -/

/-- C24 as amended (buckets and the tutorial task).  For every week, language and
collection that holds the tutorial task, the concatenation of all buckets of
`tarefasAgrupadas` is a rearrangement of the whole collection, the tutorial task
included: the tutorial task lies in the bucket under its key, and it occurs in the
concatenation as often as in the collection.  The computation takes the collection as
an argument and returns only the buckets. -/
theorem tarefasAgrupadas_tutorial (diasDaSemana : List WeekDay) (tarefas : List Tarefa)
    (language : String) (carga : Nat) (h : tutorialTask carga ∈ tarefas) :
    ((tarefasAgrupadas diasDaSemana tarefas language).flatMap Prod.snd).Perm tarefas ∧
    (∃ p ∈ tarefasAgrupadas diasDaSemana tarefas language,
      p.1 = chaveDaTarefa diasDaSemana language (tutorialTask carga) ∧
      tutorialTask carga ∈ p.2) ∧
    tutorialTask carga ∈ (tarefasAgrupadas diasDaSemana tarefas language).flatMap Prod.snd ∧
    ((tarefasAgrupadas diasDaSemana tarefas language).flatMap Prod.snd).count (tutorialTask carga)
      = tarefas.count (tutorialTask carga) := by
  have hp := tarefasAgrupadas_perm diasDaSemana tarefas language
  exact ⟨hp, tarefasAgrupadas_mem diasDaSemana tarefas language _ h, hp.mem_iff.2 h,
    hp.count_eq _⟩

/-! ## Remote failures -/

theorem foldl_initAppDispatches (b : Boot) (uid : String) (hu : b.user = some uid)
    (s : AppState) :
    ((initAppDispatches b).foldl appReducer s).isLoading = false ∧
    ∃ rest, ((initAppDispatches b).foldl appReducer s).tarefas
      = mergeTasks (b.localData.getD []) b.remoteTasks ++ rest := by
  cases hseen : b.hasSeenTutorial
  · simp only [initAppDispatches, loadDispatch, hu, hseen, Option.toList, List.cons_append,
      List.nil_append, List.foldl_cons, List.foldl_nil, Bool.false_eq_true, if_false]
    refine ⟨rfl, ?_⟩
    simp only [appReducer]
    split_ifs
    · exact ⟨[], by simp⟩
    · exact ⟨[tutorialTask b.carga], rfl⟩
  · simp only [initAppDispatches, loadDispatch, hu, hseen, Option.toList, List.cons_append,
      List.nil_append, List.foldl_cons, List.foldl_nil, if_true, List.append_nil]
    exact ⟨rfl, ⟨[], by simp [appReducer]⟩⟩

/-- C23 (remote failures), evaluated on each remote call.  A failing push after a
mutation is caught: `saveData` writes the local store and leaves the store of the
component and the remote collection as they are.  A failing replace during sign-in is
caught: `initApp` is not rejected, it ends with `isLoading` false, with the last locally
stored task of each id in the collection, and with the remote collection as it was.  But
the remote read of sign-in stands outside every `try`: when it fails, `initApp` is
rejected, `isLoading` stays true and the task collection is still what it was before (on
a fresh mount: empty), so no locally stored task has reached it. -/
theorem initAppRun_remote_failure (uid : String) (deviceLanguage : Option String)
    (agora carga : Nat) (w : World) :
    (∀ user : Option String,
      (saveData user false carga w).state = w.state ∧
      (saveData user false carga w).remote = w.remote) ∧
    ((initAppRun (some uid) deviceLanguage agora carga true false w).rejected = false ∧
      (initAppRun (some uid) deviceLanguage agora carga true false w).world.state.isLoading
        = false ∧
      (∀ (id : String) (t : Tarefa), tarefaDeId (w.storage.tarefas.getD []) id = some t →
        t ∈ (initAppRun (some uid) deviceLanguage agora carga true false w).world.state.tarefas) ∧
      (initAppRun (some uid) deviceLanguage agora carga true false w).world.remote = w.remote) ∧
    (∀ pushOk : Bool,
      (initAppRun (some uid) deviceLanguage agora carga false pushOk w).rejected = true ∧
      (initAppRun (some uid) deviceLanguage agora carga false pushOk w).world.state.isLoading
        = true ∧
      (initAppRun (some uid) deviceLanguage agora carga false pushOk w).world.state.tarefas
        = w.state.tarefas ∧
      (initAppRun (some uid) deviceLanguage agora carga false pushOk w).world.storage
        = w.storage ∧
      (initAppRun (some uid) deviceLanguage agora carga false pushOk w).world.remote
        = w.remote) := by
  refine ⟨?_, ⟨rfl, ?_, ?_, rfl⟩, ?_⟩
  · intro user
    simp only [saveData]
    split_ifs
    · exact ⟨rfl, rfl⟩
    · cases user <;> exact ⟨rfl, rfl⟩
  · exact (foldl_initAppDispatches (bootDe (some uid) deviceLanguage agora carga w) uid rfl
      w.state).1
  · intro id t ht
    obtain ⟨rest, hr⟩ := (foldl_initAppDispatches
      (bootDe (some uid) deviceLanguage agora carga w) uid rfl w.state).2
    simp only [initAppRun, if_true]
    rw [hr]
    apply List.mem_append_left
    rw [mem_mergeTasks]
    have hid := (tarefaDeId_some ht).2
    simp only [bootDe, hid, ht]
  · intro pushOk
    refine ⟨rfl, ?_, ?_, rfl, rfl⟩
    · simp only [initAppRun, Bool.false_eq_true, if_false, List.foldl_cons, List.foldl_nil]
      cases hs : (bootDe (some uid) deviceLanguage agora carga w).savedSettings <;>
        simp [settingsDispatch, hs, appReducer]
    · simp only [initAppRun, Bool.false_eq_true, if_false, List.foldl_cons, List.foldl_nil]
      cases hs : (bootDe (some uid) deviceLanguage agora carga w).savedSettings <;>
        simp [settingsDispatch, hs, appReducer]

/-! ## The order of the merged list -/

theorem setValuesAux_congr {α : Type} [DecidableEq α] (s1 s2 xs : List α)
    (h : ∀ k, k ∈ s1 ↔ k ∈ s2) : setValuesAux s1 xs = setValuesAux s2 xs := by
  induction xs generalizing s1 s2 with
  | nil => rfl
  | cons x xs ih =>
    simp only [setValuesAux]
    by_cases hx : x ∈ s1
    · rw [if_pos hx, if_pos ((h x).1 hx)]
      exact ih s1 s2 h
    · rw [if_neg hx, if_neg (fun hc => hx ((h x).2 hc))]
      congr 1
      apply ih
      intro k
      simp [h k]

theorem setValuesAux_append {α : Type} [DecidableEq α] (seen xs ys : List α) :
    setValuesAux seen (xs ++ ys) = setValuesAux seen xs ++ setValuesAux (seen ++ xs) ys := by
  induction xs generalizing seen with
  | nil => simp [setValuesAux]
  | cons x xs ih =>
    rw [List.cons_append]
    simp only [setValuesAux]
    by_cases hx : x ∈ seen
    · rw [if_pos hx, if_pos hx, ih seen]
      congr 1
      apply setValuesAux_congr
      intro k
      simp only [List.mem_append, List.mem_cons]
      constructor
      · rintro (h | h)
        · exact Or.inl h
        · exact Or.inr (Or.inr h)
      · rintro (h | h | h)
        · exact Or.inl h
        · exact Or.inl (h ▸ hx)
        · exact Or.inr h
    · rw [if_neg hx, if_neg hx, ih (x :: seen), List.cons_append]
      congr 2
      apply setValuesAux_congr
      intro k
      simp only [List.mem_append, List.mem_cons]
      tauto

theorem keys_foldl_set (ts : List Tarefa) (m0 : List (String × Tarefa)) :
    (ts.foldl (fun m task => objSet m task.id task) m0).map Prod.fst
      = m0.map Prod.fst ++ setValuesAux (m0.map Prod.fst) (ts.map (fun t => t.id)) := by
  induction ts generalizing m0 with
  | nil => simp [setValuesAux]
  | cons t ts ih =>
    rw [List.foldl_cons, ih, keys_objSet]
    simp only [List.map_cons, setValuesAux]
    by_cases hk : t.id ∈ m0.map Prod.fst
    · rw [if_pos hk, if_pos hk]
    · rw [if_neg hk, if_neg hk, List.append_assoc, List.singleton_append]
      congr 2
      apply setValuesAux_congr
      intro k
      simp only [List.mem_append, List.mem_cons, List.mem_singleton, List.not_mem_nil, or_false]
      exact or_comm

theorem mergeTasks_order (localTasks remoteTasks : List Tarefa) :
    (mergeTasks localTasks remoteTasks).map (fun t => t.id)
      = setValues (remoteTasks.map (fun t => t.id) ++ localTasks.map (fun t => t.id)) := by
  rw [mergeTasks_ids, keys_foldl_set, keys_foldl_set]
  simp only [List.map_nil, List.nil_append, setValues]
  rw [setValuesAux_append]
  congr 1
  apply setValuesAux_congr
  intro k
  rw [mem_setValuesAux]
  simp

/-- C29 (merge and unique ids).  For every local and remote list, lists with repeated ids
included, the merged list of `initApp` has pairwise distinct ids; for an id that occurs
in the local list it holds the last local task with that id, for an id that occurs only
in the remote list the last remote task with that id, and nothing else; and its ids are
the ids of the remote list followed by those of the local list, each kept where it occurs
first. -/
theorem mergeTasks_unique_ids (localTasks remoteTasks : List Tarefa) :
    ((mergeTasks localTasks remoteTasks).map (fun t => t.id)).Nodup ∧
    (∀ (id : String) (t : Tarefa), tarefaDeId localTasks id = some t →
      t ∈ mergeTasks localTasks remoteTasks) ∧
    (∀ (id : String) (t : Tarefa), tarefaDeId localTasks id = none →
      tarefaDeId remoteTasks id = some t → t ∈ mergeTasks localTasks remoteTasks) ∧
    (∀ t ∈ mergeTasks localTasks remoteTasks,
      tarefaDeId localTasks t.id = some t ∨
      (tarefaDeId localTasks t.id = none ∧ tarefaDeId remoteTasks t.id = some t)) ∧
    (mergeTasks localTasks remoteTasks).map (fun t => t.id)
      = setValues (remoteTasks.map (fun t => t.id) ++ localTasks.map (fun t => t.id)) := by
  refine ⟨mergeTasks_nodup _ _, ?_, ?_, ?_, mergeTasks_order _ _⟩
  · intro id t ht
    rw [mem_mergeTasks]
    have hid := (tarefaDeId_some ht).2
    simp only [hid, ht]
  · intro id t hl hr
    rw [mem_mergeTasks]
    have hid := (tarefaDeId_some hr).2
    simp only [hid, hl, hr]
  · intro t ht
    rw [mem_mergeTasks] at ht
    cases hl : tarefaDeId localTasks t.id with
    | some u =>
      rw [hl] at ht
      exact Or.inl ht
    | none =>
      rw [hl] at ht
      exact Or.inr ⟨rfl, ht⟩

/-! ## Pushes one after another -/

theorem commitBatch_own_snapshot (uid : String) (remote : List (String × Tarefa))
    (tasksToSave : List Tarefa) :
    commitBatch remote (remote.map Prod.fst) tasksToSave
      = saveTasksToFirestore (some uid) true remote tasksToSave := by
  simp only [commitBatch, saveTasksToFirestore, if_true]
  congr 1
  apply List.filter_congr
  intro doc hdoc
  have hc : (remote.map Prod.fst).contains doc.1 = true :=
    List.elem_iff.2 (List.mem_map_of_mem Prod.fst hdoc)
  rw [hc, Bool.true_and, Bool.not_not]

theorem pushSozinho_eq (uid : String) (remote : List (String × Tarefa))
    (tasksToSave : List Tarefa) :
    pushSozinho { remote := remote, emVoo := [] } tasksToSave
      = { remote := saveTasksToFirestore (some uid) true remote tasksToSave, emVoo := [] } := by
  simp [pushSozinho, passo, commitBatch_own_snapshot uid]

theorem foldl_pushSozinho (uid : String) (listas : List (List Tarefa))
    (remote : List (String × Tarefa)) :
    listas.foldl pushSozinho { remote := remote, emVoo := [] }
      = { remote := listas.foldl (fun r ts => saveTasksToFirestore (some uid) true r ts) remote,
          emVoo := [] } := by
  induction listas generalizing remote with
  | nil => rfl
  | cons l ls ih => rw [List.foldl_cons, pushSozinho_eq uid, ih, List.foldl_cons]

theorem nodup_foldl_saveTasksToFirestore (uid : String) (listas : List (List Tarefa))
    (remote : List (String × Tarefa)) (hn : (remote.map Prod.fst).Nodup) :
    ((listas.foldl (fun r ts => saveTasksToFirestore (some uid) true r ts) remote).map
      Prod.fst).Nodup := by
  induction listas generalizing remote with
  | nil => exact hn
  | cons l ls ih => exact ih _ (nodup_saveTasksToFirestore _ _ _ _ hn)

/-- C27 as amended (pushes are not serialized).  A call of `saveTasksToFirestore` joins
the pushes in flight at once, whatever is in flight, and changes no document by itself.
A push that runs alone, with no step of another push between its call and its return,
does what `saveTasksToFirestore` does in one piece.  So when the pushes run one after the
other, none is left in flight and the final remote collection, keyed by distinct ids,
holds under each id exactly the last task of the latest list that carries the id. -/
theorem pushSozinho_latest (uid : String) (remote : List (String × Tarefa))
    (hn : (remote.map Prod.fst).Nodup) (anteriores : List (List Tarefa))
    (ultima : List Tarefa) :
    (∀ (s : Sync) (tasksToSave : List Tarefa),
      (passo s (.chamar tasksToSave)).emVoo
        = s.emVoo ++ [{ tasksToSave := tasksToSave, snapshot := none }] ∧
      (passo s (.chamar tasksToSave)).remote = s.remote) ∧
    (∀ (r : List (String × Tarefa)) (tasksToSave : List Tarefa),
      pushSozinho { remote := r, emVoo := [] } tasksToSave
        = { remote := saveTasksToFirestore (some uid) true r tasksToSave, emVoo := [] }) ∧
    ((anteriores ++ [ultima]).foldl pushSozinho { remote := remote, emVoo := [] }).emVoo = [] ∧
    (((anteriores ++ [ultima]).foldl pushSozinho { remote := remote, emVoo := [] }).remote.map
      Prod.fst).Nodup ∧
    (∀ (k : String) (t : Tarefa),
      (k, t) ∈ ((anteriores ++ [ultima]).foldl pushSozinho
          { remote := remote, emVoo := [] }).remote
        ↔ tarefaDeId ultima k = some t) := by
  have hf := foldl_pushSozinho uid (anteriores ++ [ultima]) remote
  have hnd := nodup_foldl_saveTasksToFirestore uid (anteriores ++ [ultima]) remote hn
  refine ⟨fun s tasksToSave => ⟨rfl, rfl⟩, pushSozinho_eq uid, ?_, ?_, ?_⟩
  · rw [hf]
  · rw [hf]
    exact hnd
  · intro k t
    rw [hf]
    simp only
    rw [mem_iff_objGet _ hnd, List.foldl_append, List.foldl_cons, List.foldl_nil,
      objGet_saveTasksToFirestore]

/-! ## Reading a date key back -/

theorem digitChar_isDigit (d : Nat) (h : d < 10) : (Nat.digitChar d).isDigit = true := by
  interval_cases d <;> rfl

theorem split_of_not_mem (sep : Char) (a : List Char) (h : sep ∉ a) : split sep a = [a] := by
  induction a with
  | nil => rfl
  | cons c cs ih =>
    simp only [List.mem_cons, not_or] at h
    simp only [split, if_neg (Ne.symm h.1), ih h.2]

theorem split_append (sep : Char) (a rest : List Char) (h : sep ∉ a) :
    split sep (a ++ sep :: rest) = a :: split sep rest := by
  induction a with
  | nil => simp [split]
  | cons c cs ih =>
    simp only [List.mem_cons, not_or] at h
    rw [List.cons_append]
    simp only [split, if_neg (Ne.symm h.1)]
    rw [ih h.2]

theorem slash_not_mem_digits (l : List Nat) (h : ∀ d ∈ l, d < 10) :
    '/' ∉ l.map Nat.digitChar := by
  intro hc
  obtain ⟨d, hd, he⟩ := List.mem_map.1 hc
  have := digitChar_isDigit d (h d hd)
  rw [he] at this
  exact absurd this (by decide)

theorem all_isDigit_digits (l : List Nat) (h : ∀ d ∈ l, d < 10) :
    (l.map Nat.digitChar).all Char.isDigit = true := by
  rw [List.all_eq_true]
  intro c hc
  obtain ⟨d, hd, rfl⟩ := List.mem_map.1 hc
  exact digitChar_isDigit d (h d hd)

theorem foldl_digitChar (l : List Nat) (h : ∀ d ∈ l, d < 10) (acc : Nat) :
    (l.map Nat.digitChar).foldl (fun n c => 10 * n + (c.toNat - 48)) acc
      = l.foldl (fun n d => 10 * n + d) acc := by
  induction l generalizing acc with
  | nil => rfl
  | cons d ds ih =>
    simp only [List.map_cons, List.foldl_cons]
    rw [digitChar_toNat d (h d (List.mem_cons_self _ _))]
    exact ih (fun e he => h e (List.mem_cons_of_mem _ he)) _

theorem foldl_reverse_ofDigits (l : List Nat) :
    l.reverse.foldl (fun n d => 10 * n + d) 0 = Nat.ofDigits 10 l := by
  induction l with
  | nil => rfl
  | cons d ds ih =>
    rw [List.reverse_cons, List.foldl_append, ih, Nat.ofDigits_cons]
    simp only [List.foldl_cons, List.foldl_nil]
    omega

theorem toNumber_digits (l : List Nat) (h : ∀ d ∈ l, d < 10) :
    toNumber (some (l.reverse.map Nat.digitChar)) = some ((Nat.ofDigits 10 l : Nat) : Int) := by
  have hr : ∀ d ∈ l.reverse, d < 10 := fun d hd => h d (List.mem_reverse.1 hd)
  simp only [toNumber, all_isDigit_digits _ hr, if_true, foldl_digitChar _ hr,
    foldl_reverse_ofDigits]

theorem toNumber_decimal (n : Nat) : toNumber (some (decimal n)) = some (n : Int) := by
  simp only [decimal]
  rw [toNumber_digits _ (digitsLE_lt (n + 1) n), ofDigits_digitsLE (n + 1) n (by omega)]

theorem pad2_eq (n : Int) :
    pad2 n = ([n.toNat % 10, n.toNat / 10].reverse).map Nat.digitChar := rfl

theorem toNumber_pad2 (n : Int) (h0 : 0 ≤ n) (h1 : n < 100) :
    toNumber (some (pad2 n)) = some n := by
  rw [pad2_eq, toNumber_digits _ (by
    intro d hd
    simp only [List.mem_cons, List.mem_singleton, List.not_mem_nil, or_false] at hd
    omega)]
  simp only [Nat.ofDigits_cons, Nat.ofDigits_nil, Option.some.injEq]
  omega

theorem slash_not_mem_pad2 (n : Int) (h0 : 0 ≤ n) (h1 : n < 100) : '/' ∉ pad2 n := by
  rw [pad2_eq]
  apply slash_not_mem_digits
  intro d hd
  simp only [List.reverse_cons, List.reverse_nil, List.nil_append, List.cons_append,
    List.mem_cons, List.mem_singleton, List.not_mem_nil, or_false] at hd
  omega

theorem slash_not_mem_decimal (n : Nat) : '/' ∉ decimal n := by
  simp only [decimal]
  apply slash_not_mem_digits
  intro d hd
  exact digitsLE_lt (n + 1) n d (List.mem_reverse.1 hd)

theorem split_key (a b : Int) (y : Nat) (ha0 : 0 ≤ a) (ha1 : a < 100) (hb0 : 0 ≤ b)
    (hb1 : b < 100) :
    split '/' (pad2 a ++ '/' :: pad2 b ++ '/' :: decimal y) = [pad2 a, pad2 b, decimal y] := by
  have h : pad2 a ++ '/' :: pad2 b ++ '/' :: decimal y
      = pad2 a ++ '/' :: (pad2 b ++ '/' :: decimal y) := by simp
  rw [h, split_append _ _ _ (slash_not_mem_pad2 a ha0 ha1),
    split_append _ _ _ (slash_not_mem_pad2 b hb0 hb1),
    split_of_not_mem _ _ (slash_not_mem_decimal y)]

theorem year_ge_100 (z : Int) (h : -683003 ≤ z) : 100 ≤ (civilFromDays z).1 := by
  have hdoe0 : 0 ≤ (z + 719468) % 146097 := by omega
  have hdoe1 : (z + 719468) % 146097 < 146097 := by omega
  obtain ⟨hy0, hy1, hd0, hd1, hsum⟩ := yearOfEra_spec _ hdoe0 hdoe1
  obtain ⟨hm0, hm1, hdd0, hdd1, hmd⟩ := monthDay_spec _ hd0 hd1
  have hz := (civil_spec z).2.2.2.2
  simp only [civilFromDays] at hz ⊢
  rw [daysFromCivil_march _ _ _ _ hy0 hy1 hm0 hm1] at hz
  generalize yearOfEra ((z + 719468) % 146097) = yd at *
  generalize monthDay yd.2 = md at *
  generalize (z + 719468) / 146097 = era at *
  have e0 : era ≥ 0 := by omega
  have y99 : era = 0 → yd.1 ≥ 99 := by omega
  have m10 : era = 0 → yd.1 = 99 → md.1 ≥ 10 := by omega
  split_ifs <;> omega

theorem daysFromCivil_100 : daysFromCivil 100 1 1 = -683003 := by decide

theorem newDateYMD_civil (z : Int) (h : -683003 ≤ z) :
    newDateYMD (civilFromDays z).1 ((civilFromDays z).2.1 - 1) (civilFromDays z).2.2
      = z * msPerDay := by
  have hy := year_ge_100 z h
  obtain ⟨hm1, hm2, -, -, hc⟩ := civil_spec z
  have hn : ¬ (0 ≤ (civilFromDays z).1 ∧ (civilFromDays z).1 ≤ 99) := by omega
  have hq : ((civilFromDays z).2.1 - 1) / 12 = 0 := by omega
  have hr : ((civilFromDays z).2.1 - 1) % 12 + 1 = (civilFromDays z).2.1 := by omega
  simp only [newDateYMD, hn, if_false, hq, hr, add_zero, hc]

/-- From the year 100 on, the date read from the key of a day is the midnight of that
day. -/
theorem dataDaChave_dayKey (language : String) (z : Int) (h : -683003 ≤ z) :
    dataDaChave language (dayKey language z) = some (z * msPerDay) := by
  have hy := year_ge_100 z h
  obtain ⟨hm1, hm2, hd1, hd2, -⟩ := civil_spec z
  have hyn : (((civilFromDays z).1.toNat : Nat) : Int) = (civilFromDays z).1 :=
    Int.toNat_of_nonneg (by omega)
  by_cases hl : language = "pt"
  · simp only [dataDaChave, dayKey, if_pos hl]
    rw [split_key _ _ _ (by omega) (by omega) (by omega) (by omega)]
    simp only [List.getElem?_cons_succ, List.getElem?_cons_zero, toNumber_decimal,
      toNumber_pad2 _ (show (0 : Int) ≤ (civilFromDays z).2.1 by omega)
        (show (civilFromDays z).2.1 < 100 by omega),
      toNumber_pad2 _ (show (0 : Int) ≤ (civilFromDays z).2.2 by omega)
        (show (civilFromDays z).2.2 < 100 by omega), hyn, newDateYMD_civil z h]
  · simp only [dataDaChave, dayKey, if_neg hl]
    rw [split_key _ _ _ (by omega) (by omega) (by omega) (by omega)]
    simp only [List.getElem?_cons_succ, List.getElem?_cons_zero, toNumber_decimal,
      toNumber_pad2 _ (show (0 : Int) ≤ (civilFromDays z).2.1 by omega)
        (show (civilFromDays z).2.1 < 100 by omega),
      toNumber_pad2 _ (show (0 : Int) ≤ (civilFromDays z).2.2 by omega)
        (show (civilFromDays z).2.2 < 100 by omega), hyn, newDateYMD_civil z h]

/-! ## Dropping a task on a block -/

theorem chaveDaTarefa_eq_chaveDaData (dias : List WeekDay) (language : String) (t : Tarefa) :
    chaveDaTarefa dias language t = chaveDaData dias language t.date := rfl

theorem chaveDaData_week (dias : List WeekDay) (hn : (dias.map (fun d => d.dateObj)).Nodup)
    (language : String) (x : Int) (d : WeekDay) (hd : d ∈ dias)
    (hx : setHoursZero x = d.dateObj) : chaveDaData dias language x = d.displayKey := by
  simp only [chaveDaData, find_dateObj dias hn _ d hd hx.symm]

theorem chaveDaData_future (dias : List WeekDay) (language : String) (x : Int)
    (h : ∀ d ∈ dias, d.dateObj ≠ setHoursZero x) :
    chaveDaData dias language x = toLocaleDateString language x := by
  have hnone : dias.find? (fun d => decide (d.dateObj = setHoursZero x)) = none := by
    rw [List.find?_eq_none]
    intro d hd hc
    simp only [decide_eq_true_eq] at hc
    exact h d hd hc
  simp only [chaveDaData, hnone, toLocaleDateString, Day_setHoursZero]

theorem dayNames_ne_empty (language : String) : ∀ n ∈ dayNames language, n ≠ "" := by
  unfold dayNames
  split_ifs <;> decide

theorem dayKey_ne_empty (language : String) (z : Int) : dayKey language z ≠ "" := by
  intro h
  have h2 := congrArg String.data h
  simp only [dayKey, pad2] at h2
  split_ifs at h2 <;> simp at h2

theorem find_displayKey (dias : List WeekDay) (hn : (dias.map (fun d => d.displayKey)).Nodup)
    (d : WeekDay) (hd : d ∈ dias) :
    dias.find? (fun e => decide (e.displayKey = d.displayKey)) = some d := by
  induction dias with
  | nil => simp at hd
  | cons e rest ih =>
    simp only [List.map_cons, List.nodup_cons] at hn
    rcases List.mem_cons.1 hd with rfl | hd2
    · simp [List.find?_cons]
    · have hne : e.displayKey ≠ d.displayKey := by
        intro he
        apply hn.1
        rw [he]
        exact List.mem_map_of_mem (fun d => d.displayKey) hd2
      simp [List.find?_cons, hne, ih hn.2 hd2]

theorem week_dateObj_midnight (language : String) (agora : Nat) (d : WeekDay)
    (hd : d ∈ getSemanaAtual language agora) : setHoursZero d.dateObj = d.dateObj := by
  have h : d.dateObj ∈ (getSemanaAtual language agora).map (fun d => d.dateObj) :=
    List.mem_map_of_mem _ hd
  rw [getSemanaAtual_dateObj, List.mem_map] at h
  obtain ⟨i, -, hi⟩ := h
  rw [← hi, setHoursZero, Day_midnight]

theorem handleDragEnd_weekday (language : String) (agora : Nat) (item : DraggedItem)
    (dia : WeekDay) (hd : dia ∈ getSemanaAtual language agora)
    (hne : dia.displayKey ≠ item.diaDeOrigem) :
    handleDragEnd (some item) (some dia.displayKey) (getSemanaAtual language agora) language
      = some (item.tarefa.id, dia.dateObj) := by
  have hKe : dia.displayKey ≠ "" := by
    apply dayNames_ne_empty language
    rw [← getSemanaAtual_displayKey language agora]
    exact List.mem_map_of_mem (fun d => d.displayKey) hd
  have hf := find_displayKey (getSemanaAtual language agora)
    (by rw [getSemanaAtual_displayKey]; exact dayNames_nodup language) dia hd
  simp only [handleDragEnd, hf]
  rw [if_pos ⟨hKe, hne⟩]

theorem handleDragEnd_future (language : String) (agora : Nat) (item : DraggedItem) (z : Int)
    (hz : -683003 ≤ z) (hne : dayKey language z ≠ item.diaDeOrigem) :
    handleDragEnd (some item) (some (dayKey language z)) (getSemanaAtual language agora) language
      = some (item.tarefa.id, z * msPerDay) := by
  have hf : (getSemanaAtual language agora).find?
      (fun d => decide (d.displayKey = dayKey language z)) = none := by
    rw [List.find?_eq_none]
    intro d hd hc
    simp only [decide_eq_true_eq] at hc
    apply dayKey_not_dayName language language z
    rw [← getSemanaAtual_displayKey language agora, ← hc]
    exact List.mem_map_of_mem (fun d => d.displayKey) hd
  simp only [handleDragEnd, hf, dataDaChave_dayKey language z hz]
  rw [if_pos ⟨dayKey_ne_empty language z, hne⟩]

theorem tarefas_UPDATE_date (state : AppState) (id : String) (novaData : Nat) :
    (despachar state (some (.UPDATE_TAREFA id { date := some novaData }))).tarefas
      = state.tarefas.map (fun t => if t.id = id then { t with date := novaData } else t) := by
  simp only [despachar, appReducer]
  apply List.map_congr_left
  intro t _
  split_ifs
  · rfl
  · rfl

theorem bucket_after_drop (dias : List WeekDay) (language : String) (state : AppState)
    (id K : String) (n : Nat) (hch : chaveDaData dias language n = K) :
    ∀ t ∈ state.tarefas, t.id = id →
      ∃ p ∈ tarefasAgrupadas dias
          (despachar state (some (.UPDATE_TAREFA id { date := some n }))).tarefas language,
        p.1 = K ∧ { t with date := n } ∈ p.2 := by
  intro t htm hid
  rw [tarefas_UPDATE_date]
  have hm : ({ t with date := n } : Tarefa)
      ∈ state.tarefas.map (fun t => if t.id = id then { t with date := n } else t) := by
    rw [List.mem_map]
    exact ⟨t, htm, by rw [if_pos hid]⟩
  obtain ⟨p, hp, hp1, hp2⟩ := tarefasAgrupadas_mem dias _ language _ hm
  exact ⟨p, hp, hp1.trans hch, hp2⟩

theorem handleDragEnd_key (language : String) (agora : Nat) (tarefas : List Tarefa)
    (item : DraggedItem) (K : String)
    (hK : K ∈ (tarefasAgrupadas (getSemanaAtual language agora) tarefas language).map Prod.fst)
    (hne : K ≠ item.diaDeOrigem) :
    ∃ novaData : Int,
      handleDragEnd (some item) (some K) (getSemanaAtual language agora) language
        = some (item.tarefa.id, novaData) ∧
      chaveDaData (getSemanaAtual language agora) language novaData = K := by
  have hnd := getSemanaAtual_nodup language agora
  rw [tarefasAgrupadas_keys] at hK
  rcases hK with hK | ⟨t0, ht0, hk0⟩
  · obtain ⟨dia, hmem, hkey⟩ := List.mem_map.1 hK
    subst hkey
    exact ⟨dia.dateObj, handleDragEnd_weekday language agora item dia hmem hne,
      chaveDaData_week _ hnd language _ dia hmem (week_dateObj_midnight language agora dia hmem)⟩
  · by_cases hw : K ∈ (getSemanaAtual language agora).map (fun d => d.displayKey)
    · obtain ⟨dia, hmem, hkey⟩ := List.mem_map.1 hw
      subst hkey
      exact ⟨dia.dateObj, handleDragEnd_weekday language agora item dia hmem hne,
        chaveDaData_week _ hnd language _ dia hmem
          (week_dateObj_midnight language agora dia hmem)⟩
    · have hfora : foraDaSemana (getSemanaAtual language agora) t0 = true := by
        rw [foraDaSemana_iff]
        intro d hd hc
        apply hw
        rw [← hk0, chaveDaTarefa_week _ hnd language t0 d hd hc]
        exact List.mem_map_of_mem (fun d => d.displayKey) hd
      have hK2 : K = dayKey language (Day t0.date) := by
        rw [← hk0, chaveDaTarefa_future _ _ _ hfora]
        rfl
      have hD := Day_nonneg t0.date
      subst hK2
      refine ⟨Day t0.date * msPerDay,
        handleDragEnd_future language agora item _ (by omega) hne, ?_⟩
      rw [chaveDaData_future, toLocaleDateString, Day_midnight]
      intro d hd hc
      rw [setHoursZero, Day_midnight] at hc
      exact (foraDaSemana_iff _ _).1 hfora d hd hc.symm

/-- C28 as amended (drag to another day, days from the year 100 on).  The key that
`tarefasAgrupadas` computes for a task is the key `chaveDaData` of its date.  For every
time value `t` whose day is 0100-01-01 or later and every language (day first for `pt`,
month first otherwise), reading back the key that `toLocaleDateString` renders for `t`,
as `handleDragEnd` does, gives the midnight of the day of `t`; a drop on the block of that
key, in the week of any clock reading, dispatches the update of the date of the dragged
task to that midnight, and a task of that date is filed under the key again unless the
day is in the week.  A drop on the block of a slot of the week dispatches the date of the
slot, and a task of that date is filed under the key of the slot.  Hence for every key `K`
of a block of `tarefasAgrupadas`, weekday or other day, other than the origin of the
drag, the drop dispatches an update of the date alone to a date filed under `K`; and
when that date is a date `n` of the store (1970 on), the collection after the dispatch is
the old one with the date replaced in the tasks that carry the id of the dragged task,
and each of them lies in the bucket `K`.  A drop with no hovered block, or on the origin
block, dispatches nothing. -/
theorem handleDragEnd_round_trip (language : String) :
    (∀ (dias : List WeekDay) (t : Tarefa),
      chaveDaTarefa dias language t = chaveDaData dias language t.date) ∧
    (∀ t : Int, daysFromCivil 100 1 1 ≤ Day t →
      dataDaChave language (toLocaleDateString language t) = some (setHoursZero t)) ∧
    (∀ (agora : Nat) (item : DraggedItem) (t : Int), daysFromCivil 100 1 1 ≤ Day t →
      toLocaleDateString language t ≠ item.diaDeOrigem →
      handleDragEnd (some item) (some (toLocaleDateString language t))
          (getSemanaAtual language agora) language
        = some (item.tarefa.id, setHoursZero t) ∧
      ((∀ d ∈ getSemanaAtual language agora, d.dateObj ≠ setHoursZero t) →
        chaveDaData (getSemanaAtual language agora) language (setHoursZero t)
          = toLocaleDateString language t)) ∧
    (∀ (agora : Nat) (item : DraggedItem), ∀ dia ∈ getSemanaAtual language agora,
      dia.displayKey ≠ item.diaDeOrigem →
      handleDragEnd (some item) (some dia.displayKey) (getSemanaAtual language agora) language
        = some (item.tarefa.id, dia.dateObj) ∧
      chaveDaData (getSemanaAtual language agora) language dia.dateObj = dia.displayKey) ∧
    (∀ (agora : Nat) (state : AppState) (item : DraggedItem) (K : String),
      K ∈ (tarefasAgrupadas (getSemanaAtual language agora) state.tarefas language).map Prod.fst →
      K ≠ item.diaDeOrigem →
      ∃ novaData : Int,
        handleDragEnd (some item) (some K) (getSemanaAtual language agora) language
          = some (item.tarefa.id, novaData) ∧
        chaveDaData (getSemanaAtual language agora) language novaData = K ∧
        ∀ n : Nat, (n : Int) = novaData →
          (despachar state (some (.UPDATE_TAREFA item.tarefa.id { date := some n }))).tarefas
            = state.tarefas.map
                (fun t => if t.id = item.tarefa.id then { t with date := n } else t) ∧
          ∀ t ∈ state.tarefas, t.id = item.tarefa.id →
            ∃ p ∈ tarefasAgrupadas (getSemanaAtual language agora)
                (despachar state
                  (some (.UPDATE_TAREFA item.tarefa.id { date := some n }))).tarefas language,
              p.1 = K ∧ { t with date := n } ∈ p.2) ∧
    (∀ (draggedItem : Option DraggedItem) (diasDaSemana : List WeekDay),
      handleDragEnd draggedItem none diasDaSemana language = none) ∧
    (∀ (item : DraggedItem) (diasDaSemana : List WeekDay),
      handleDragEnd (some item) (some item.diaDeOrigem) diasDaSemana language = none) := by
  refine ⟨fun _ _ => rfl, ?_, ?_, ?_, ?_, ?_, ?_⟩
  · intro t ht
    rw [daysFromCivil_100] at ht
    rw [toLocaleDateString, dataDaChave_dayKey _ _ ht]
    rfl
  · intro agora item t ht hne
    rw [daysFromCivil_100] at ht
    refine ⟨handleDragEnd_future language agora item (Day t) ht hne, ?_⟩
    intro hfora
    rw [chaveDaData_future, toLocaleDateString, toLocaleDateString, Day_setHoursZero]
    intro d hd hc
    rw [setHoursZero, Day_setHoursZero] at hc
    exact hfora d hd hc
  · intro agora item dia hd hne
    exact ⟨handleDragEnd_weekday language agora item dia hd hne,
      chaveDaData_week _ (getSemanaAtual_nodup language agora) language _ dia hd
        (week_dateObj_midnight language agora dia hd)⟩
  · intro agora state item K hK hne
    obtain ⟨novaData, hd, hch⟩ := handleDragEnd_key language agora state.tarefas item K hK hne
    refine ⟨novaData, hd, hch, ?_⟩
    intro n hn
    rw [← hn] at hch
    exact ⟨tarefas_UPDATE_date state item.tarefa.id n,
      bucket_after_drop _ language state item.tarefa.id K n hch⟩
  · intro draggedItem diasDaSemana
    cases draggedItem <;> rfl
  · intro item diasDaSemana
    simp [handleDragEnd]

/-! ## Worked examples -/

set_option maxRecDepth 100000

/-- C1 at week start 2024-06-03: pinned 2024-01-01 and unpinned 2024-06-03 survive, unpinned
2024-05-01 is removed. -/
theorem initApp_offline_retention_witness :
    (getSemanaAtual "pt" (meiaNoite 2024 6 5 + 36000000)).head?.map (fun d => d.dateObj)
      = some (meiaNoite 2024 6 3 : Int) ∧
    (initApp (arranque none (some [amostra "a" "A" (meiaNoite 2024 1 1) true,
        amostra "b" "B" (meiaNoite 2024 5 1) false,
        amostra "c" "C" (meiaNoite 2024 6 3) false]) [] (meiaNoite 2024 6 5 + 36000000))).tarefas
      = [amostra "a" "A" (meiaNoite 2024 1 1) true, amostra "c" "C" (meiaNoite 2024 6 3) false] := by
  obtain ⟨weekStart, kept, h1, h2, -, -, h5, h6, -, -, -⟩ :=
    initApp_offline_retention
      (arranque none (some [amostra "a" "A" (meiaNoite 2024 1 1) true,
        amostra "b" "B" (meiaNoite 2024 5 1) false,
        amostra "c" "C" (meiaNoite 2024 6 3) false]) [] (meiaNoite 2024 6 5 + 36000000))
      _ rfl rfl
  have hw : weekStart = (meiaNoite 2024 6 3 : Int) := by rw [h2]; decide
  subst hw
  refine ⟨h1, ?_⟩
  rw [h5 rfl, h6]
  decide

/-- C2 on local `id1:v1` and remote `id1:v2, id2:v3`: the merge is `id1:v1, id2:v3`. -/
theorem mergeTasks_precedence_witness :
    mergeTasks [amostra "id1" "v1" 5 false] [amostra "id1" "v2" 6 false, amostra "id2" "v3" 7 false]
      = [amostra "id1" "v1" 5 false, amostra "id2" "v3" 7 false] ∧
    amostra "id1" "v1" 5 false ∈ [amostra "id1" "v1" 5 false] ∧
    amostra "id2" "v3" 7 false ∈ [amostra "id1" "v2" 6 false, amostra "id2" "v3" 7 false] :=
  ⟨by decide,
   (mergeTasks_precedence [amostra "id1" "v1" 5 false]
      [amostra "id1" "v2" 6 false, amostra "id2" "v3" 7 false]).2.2.1
      (amostra "id1" "v1" 5 false) (by decide) ⟨amostra "id1" "v1" 5 false, by decide, rfl⟩,
   (mergeTasks_precedence [amostra "id1" "v1" 5 false]
      [amostra "id1" "v2" 6 false, amostra "id2" "v3" 7 false]).2.2.2.1
      (amostra "id2" "v3" 7 false) (by decide) (by decide)⟩

/-- C3 on a two-task collection. -/
theorem mergeTasks_idempotent_witness :
    mergeTasks [amostra "id1" "v1" 5 false, amostra "id2" "v3" 7 true]
        [amostra "id1" "v1" 5 false, amostra "id2" "v3" 7 true]
      = [amostra "id1" "v1" 5 false, amostra "id2" "v3" 7 true] :=
  (mergeTasks_idempotent [amostra "id1" "v1" 5 false, amostra "id2" "v3" 7 true]).1 (by decide)

/-- C10 on a two-task store: an add with id `2` changes nothing, an add with id `3` appends. -/
theorem appReducer_ADD_TAREFA_witness :
    appReducer { initialState with tarefas := [amostra "1" "a" 5 false, amostra "2" "b" 6 false] }
        (.ADD_TAREFA (amostra "2" "other" 9 true))
      = { initialState with tarefas := [amostra "1" "a" 5 false, amostra "2" "b" 6 false] } ∧
    appReducer { initialState with tarefas := [amostra "1" "a" 5 false, amostra "2" "b" 6 false] }
        (.ADD_TAREFA (amostra "3" "c" 9 true))
      = { initialState with
          tarefas := [amostra "1" "a" 5 false, amostra "2" "b" 6 false] ++ [amostra "3" "c" 9 true] } :=
  ⟨(appReducer_ADD_TAREFA _ (amostra "2" "other" 9 true)).1
      ⟨amostra "2" "b" 6 false, by decide, by decide⟩,
   (appReducer_ADD_TAREFA _ (amostra "3" "c" 9 true)).2 (by decide)⟩

/-- C4 in the week of 2024-06-03: unpinned tasks of 2023-01-01 (remote) and 2024-05-01
(local) are both in the store after a signed-in start. -/
theorem initApp_signed_in_no_retention_witness :
    (initApp (arranque (some "uid") (some [amostra "b" "B" (meiaNoite 2024 5 1) false])
        [amostra "r" "R" (meiaNoite 2023 1 1) false] (meiaNoite 2024 6 5))).tarefas
      = [amostra "r" "R" (meiaNoite 2023 1 1) false, amostra "b" "B" (meiaNoite 2024 5 1) false] :=
  ((initApp_signed_in_no_retention
      (arranque (some "uid") (some [amostra "b" "B" (meiaNoite 2024 5 1) false])
        [amostra "r" "R" (meiaNoite 2023 1 1) false] (meiaNoite 2024 6 5)) "uid" rfl).2.2.1 rfl).trans
    (by decide)

/-- C8 on tasks dated 2024-07-01, 2024-06-20 and 2024-06-25 in the week of 2024-06-03: after
the 7 weekday blocks come the separator and the days 20/06, 25/06 and 01/07, in that order. -/
theorem buildDisplay_future_order_witness :
    (buildDisplay (getSemanaAtual "pt" (meiaNoite 2024 6 5))
        [amostra "1" "a" (meiaNoite 2024 7 1) false, amostra "2" "b" (meiaNoite 2024 6 20) false,
          amostra "3" "c" (meiaNoite 2024 6 25) false] "pt" "Tarefas Futuras").drop 7
      = [Block.separator "Tarefas Futuras", Block.future_day "20/06/2024",
          Block.future_day "25/06/2024", Block.future_day "01/07/2024"] ∧
    ∃ days : List Int, days.Pairwise (fun a b => a < b) ∧
      buildDisplay (getSemanaAtual "pt" (meiaNoite 2024 6 5))
        [amostra "1" "a" (meiaNoite 2024 7 1) false, amostra "2" "b" (meiaNoite 2024 6 20) false,
          amostra "3" "c" (meiaNoite 2024 6 25) false] "pt" "Tarefas Futuras"
        = (getSemanaAtual "pt" (meiaNoite 2024 6 5)).map Block.weekday ++
          (if days = [] then []
            else Block.separator "Tarefas Futuras"
              :: days.map (fun z => Block.future_day (dayKey "pt" z))) :=
  ⟨by decide,
   (buildDisplay_future_order "pt" "pt" (meiaNoite 2024 6 5)
      [amostra "1" "a" (meiaNoite 2024 7 1) false, amostra "2" "b" (meiaNoite 2024 6 20) false,
        amostra "3" "c" (meiaNoite 2024 6 25) false] "Tarefas Futuras").elim
      (fun days h => ⟨days, h.1, h.2.2.2⟩)⟩

/-- C6 on a task of Tuesday 2024-06-04 and two tasks of 2024-07-01: the Tuesday bucket
holds the first, one overflow bucket holds the other two. -/
theorem tarefasAgrupadas_partition_witness :
    (tarefasAgrupadas (getSemanaAtual "pt" (meiaNoite 2024 6 5))
        [amostra "1" "a" (meiaNoite 2024 7 1 + 5) false, amostra "2" "b" (meiaNoite 2024 6 4) false,
          amostra "3" "c" (meiaNoite 2024 7 1) true] "pt")
      = [("Segunda", []), ("Terça", [amostra "2" "b" (meiaNoite 2024 6 4) false]), ("Quarta", []),
          ("Quinta", []), ("Sexta", []), ("Sábado", []), ("Domingo", []),
          ("01/07/2024", [amostra "1" "a" (meiaNoite 2024 7 1 + 5) false,
            amostra "3" "c" (meiaNoite 2024 7 1) true])] ∧
    ((tarefasAgrupadas (getSemanaAtual "pt" (meiaNoite 2024 6 5))
        [amostra "1" "a" (meiaNoite 2024 7 1 + 5) false, amostra "2" "b" (meiaNoite 2024 6 4) false,
          amostra "3" "c" (meiaNoite 2024 7 1) true] "pt").flatMap Prod.snd).Perm
      [amostra "1" "a" (meiaNoite 2024 7 1 + 5) false, amostra "2" "b" (meiaNoite 2024 6 4) false,
          amostra "3" "c" (meiaNoite 2024 7 1) true] :=
  ⟨by decide,
   (tarefasAgrupadas_partition (getSemanaAtual "pt" (meiaNoite 2024 6 5))
      [amostra "1" "a" (meiaNoite 2024 7 1 + 5) false, amostra "2" "b" (meiaNoite 2024 6 4) false,
        amostra "3" "c" (meiaNoite 2024 7 1) true] "pt").2.1⟩

/-- C7 on two tasks of 2024-07-01 at different times of day, outside the week of
2024-06-03: they share a bucket. -/
theorem tarefasAgrupadas_assignment_witness :
    ∃ p ∈ tarefasAgrupadas (getSemanaAtual "pt" (meiaNoite 2024 6 5))
        [amostra "1" "a" (meiaNoite 2024 7 1 + 5) false, amostra "3" "c" (meiaNoite 2024 7 1) true] "pt",
      amostra "1" "a" (meiaNoite 2024 7 1 + 5) false ∈ p.2
        ∧ amostra "3" "c" (meiaNoite 2024 7 1) true ∈ p.2 :=
  ((tarefasAgrupadas_assignment "pt" "pt" (meiaNoite 2024 6 5)
      [amostra "1" "a" (meiaNoite 2024 7 1 + 5) false, amostra "3" "c" (meiaNoite 2024 7 1) true]).2.2
      (amostra "1" "a" (meiaNoite 2024 7 1 + 5) false) (by decide)
      (amostra "3" "c" (meiaNoite 2024 7 1) true) (by decide) (by decide) (by decide)).2 (by decide)

/-- C9 on a week with one task on Tuesday and two on 2024-07-01: the display shows every
task once. -/
theorem buildDisplay_structure_witness :
    (buildDisplay (getSemanaAtual "pt" (meiaNoite 2024 6 5))
        [amostra "1" "a" (meiaNoite 2024 7 1 + 5) false, amostra "2" "b" (meiaNoite 2024 6 4) false,
          amostra "3" "c" (meiaNoite 2024 7 1) true] "pt" "Tarefas Futuras").flatMap
      (tarefasDoBloco (tarefasAgrupadas (getSemanaAtual "pt" (meiaNoite 2024 6 5))
        [amostra "1" "a" (meiaNoite 2024 7 1 + 5) false, amostra "2" "b" (meiaNoite 2024 6 4) false,
          amostra "3" "c" (meiaNoite 2024 7 1) true] "pt"))
      = [amostra "2" "b" (meiaNoite 2024 6 4) false, amostra "1" "a" (meiaNoite 2024 7 1 + 5) false,
          amostra "3" "c" (meiaNoite 2024 7 1) true] ∧
    ((buildDisplay (getSemanaAtual "pt" (meiaNoite 2024 6 5))
        [amostra "1" "a" (meiaNoite 2024 7 1 + 5) false, amostra "2" "b" (meiaNoite 2024 6 4) false,
          amostra "3" "c" (meiaNoite 2024 7 1) true] "pt" "Tarefas Futuras").flatMap
      (tarefasDoBloco (tarefasAgrupadas (getSemanaAtual "pt" (meiaNoite 2024 6 5))
        [amostra "1" "a" (meiaNoite 2024 7 1 + 5) false, amostra "2" "b" (meiaNoite 2024 6 4) false,
          amostra "3" "c" (meiaNoite 2024 7 1) true] "pt"))).Perm
      [amostra "1" "a" (meiaNoite 2024 7 1 + 5) false, amostra "2" "b" (meiaNoite 2024 6 4) false,
          amostra "3" "c" (meiaNoite 2024 7 1) true] :=
  ⟨by decide,
   (buildDisplay_structure "pt" "pt" (meiaNoite 2024 6 5)
      [amostra "1" "a" (meiaNoite 2024 7 1 + 5) false, amostra "2" "b" (meiaNoite 2024 6 4) false,
        amostra "3" "c" (meiaNoite 2024 7 1) true] "Tarefas Futuras").elim
      (fun _ h => h.2.2.2.2.2.2)⟩

/-- C5 on Wednesday 2024-06-05 at 10:00 and on Sunday 2024-06-09: the week starts on Monday
2024-06-03. -/
theorem getSemanaAtual_week_witness :
    (getSemanaAtual "en" (meiaNoite 2024 6 5 + 36000000)).map (fun d => (d.nome, d.data))
      = [("Monday", "06/03/2024"), ("Tuesday", "06/04/2024"), ("Wednesday", "06/05/2024"),
          ("Thursday", "06/06/2024"), ("Friday", "06/07/2024"), ("Saturday", "06/08/2024"),
          ("Sunday", "06/09/2024")] ∧
    (getSemanaAtual "pt" (meiaNoite 2024 6 9)).map (fun d => d.dateObj)
      = (List.range 7).map (fun i : Nat => ((meiaNoite 2024 6 3 : Int) + i * msPerDay)) ∧
    (getSemanaAtual "pt" (meiaNoite 2024 6 9)).length = 7 :=
  ⟨by decide, by decide,
   (getSemanaAtual_week "pt" (meiaNoite 2024 6 9)).elim (fun _ h => h.2.1)⟩

/-- C11 on a two-task store: an update of the text of task `1` changes that text only. -/
theorem appReducer_UPDATE_TAREFA_witness :
    appReducer (estado [amostra "1" "a" 5 false, amostra "2" "b" 6 true])
        (.UPDATE_TAREFA "1" { texto := some "novo" })
      = estado [amostra "1" "novo" 5 false, amostra "2" "b" 6 true] ∧
    appReducer (estado [amostra "1" "a" 5 false, amostra "2" "b" 6 true])
        (.UPDATE_TAREFA "3" { texto := some "novo" })
      = estado [amostra "1" "a" 5 false, amostra "2" "b" 6 true] :=
  ⟨by decide,
   (appReducer_UPDATE_TAREFA (estado [amostra "1" "a" 5 false, amostra "2" "b" 6 true]) "3"
      { texto := some "novo" }).2.2.1 (by decide)⟩

/-- C12 on a three-task store: deleting ids `1`, `3` and the unknown id `9` leaves task `2`. -/
theorem appReducer_DELETE_TAREFAS_witness :
    (appReducer (estado [amostra "1" "a" 5 false, amostra "2" "b" 6 true, amostra "3" "c" 7 false])
        (.DELETE_TAREFAS ["1", "3", "9"])).tarefas = [amostra "2" "b" 6 true] ∧
    appReducer (estado [amostra "1" "a" 5 false, amostra "2" "b" 6 true]) (.DELETE_TAREFAS ["9"])
      = estado [amostra "1" "a" 5 false, amostra "2" "b" 6 true] :=
  ⟨by decide,
   (appReducer_DELETE_TAREFAS (estado [amostra "1" "a" 5 false, amostra "2" "b" 6 true])
      ["9"]).2.2.2.1 (by decide)⟩

/-- C13 on a two-task store: toggling task `2` unpins it, toggling an unknown id changes
nothing. -/
theorem appReducer_TOGGLE_PIN_TAREFA_witness :
    appReducer (estado [amostra "1" "a" 5 false, amostra "2" "b" 6 true]) (.TOGGLE_PIN_TAREFA "2")
      = estado [amostra "1" "a" 5 false, amostra "2" "b" 6 false] ∧
    appReducer (estado [amostra "1" "a" 5 false, amostra "2" "b" 6 true]) (.TOGGLE_PIN_TAREFA "7")
      = estado [amostra "1" "a" 5 false, amostra "2" "b" 6 true] :=
  ⟨by decide,
   (appReducer_TOGGLE_PIN_TAREFA (estado [amostra "1" "a" 5 false, amostra "2" "b" 6 true])
      "7").2.2.1 (by decide)⟩

/-- C14 on a pinned task duplicated at clock reading 1717581600000, and on the tutorial
task. -/
theorem handleDuplicateTarefa_spec_witness :
    despachar (estado [amostra "1" "a" 5 true])
        (handleDuplicateTarefa 0 1717581600000 1717581600000 (amostra "1" "a" 5 true))
      = estado [amostra "1" "a" 5 true,
          { amostra "1" "a" 5 true with id := "1717581600000-copy", createdAt := 1717581600000 }] ∧
    handleDuplicateTarefa 0 1717581600000 1717581600000 (tutorialTask 0) = none :=
  ⟨by decide,
   ((handleDuplicateTarefa_spec 0 1717581600000 1717581600000 (tutorialTask 0)).2 rfl).1⟩

/-- C15 on a store that holds the tutorial task between two tasks. -/
theorem saveData_tutorial_exclusion_witness :
    (saveData (some "uid") true 0
        { state := estado [amostra "1" "a" 5 false, tutorialTask 0, amostra "2" "b" 6 true]
          storage := armazenado none
          remote := [("tutorial-task-id", tutorialTask 0)] }).storage.tarefas
      = some [amostra "1" "a" 5 false, amostra "2" "b" 6 true] ∧
    (saveData (some "uid") true 0
        { state := estado [amostra "1" "a" 5 false, tutorialTask 0, amostra "2" "b" 6 true]
          storage := armazenado none
          remote := [("tutorial-task-id", tutorialTask 0)] }).remote
      = [("1", amostra "1" "a" 5 false), ("2", amostra "2" "b" 6 true)] ∧
    ∃ tasksToSave : List Tarefa,
      (saveData (some "uid") true 0
        { state := estado [amostra "1" "a" 5 false, tutorialTask 0, amostra "2" "b" 6 true]
          storage := armazenado none
          remote := [("tutorial-task-id", tutorialTask 0)] }).storage.tarefas = some tasksToSave ∧
      ∀ t ∈ tasksToSave, t.id ≠ (tutorialTask 0).id :=
  ⟨by decide, by decide,
   ((saveData_tutorial_exclusion (some "uid") true 0
      { state := estado [amostra "1" "a" 5 false, tutorialTask 0, amostra "2" "b" 6 true]
        storage := armazenado none
        remote := [("tutorial-task-id", tutorialTask 0)] }).1 rfl).elim
      (fun ts h => ⟨ts, h.1, h.2.2.2.1⟩)⟩

/-- C16 on a remote collection `a, b` and the list `b, c`: `a` is deleted, `b` replaced,
`c` added. -/
theorem saveTasksToFirestore_replace_witness :
    saveTasksToFirestore (some "uid") true
        [("a", amostra "a" "A" 1 false), ("b", amostra "b" "B" 2 false)]
        [amostra "b" "B2" 2 true, amostra "c" "C" 3 false]
      = [("b", amostra "b" "B2" 2 true), ("c", amostra "c" "C" 3 false)] ∧
    ("c", amostra "c" "C" 3 false) ∈ saveTasksToFirestore (some "uid") true
        [("a", amostra "a" "A" 1 false), ("b", amostra "b" "B" 2 false)]
        [amostra "b" "B2" 2 true, amostra "c" "C" 3 false] :=
  ⟨by decide,
   ((saveTasksToFirestore_replace [("a", amostra "a" "A" 1 false), ("b", amostra "b" "B" 2 false)]
      [amostra "b" "B2" 2 true, amostra "c" "C" 3 false] (by decide)).1 "uid").2.2.2.2.2
      (by decide) (amostra "c" "C" 3 false) (by decide)⟩

/-- C17 on local `b, c` and remote `a, b`: memory, local store and remote collection all
hold `a, b (local), c`. -/
theorem initAppSignedIn_round_witness :
    initAppSignedIn "uid"
        { state := initialState
          storage := armazenado (some [amostra "b" "B2" 2 true, amostra "c" "C" 3 false])
          remote := [("a", amostra "a" "A" 1 false), ("b", amostra "b" "B" 2 false)] }
      = { state :=
            { initialState with
              tarefas := [amostra "a" "A" 1 false, amostra "b" "B2" 2 true, amostra "c" "C" 3 false] }
          storage := armazenado
            (some [amostra "a" "A" 1 false, amostra "b" "B2" 2 true, amostra "c" "C" 3 false])
          remote := [("a", amostra "a" "A" 1 false), ("b", amostra "b" "B2" 2 true),
            ("c", amostra "c" "C" 3 false)] } ∧
    "a" ∈ (initAppSignedIn "uid"
        { state := initialState
          storage := armazenado (some [amostra "b" "B2" 2 true, amostra "c" "C" 3 false])
          remote := [("a", amostra "a" "A" 1 false), ("b", amostra "b" "B" 2 false)] }).remote.map
      Prod.fst :=
  ⟨by decide,
   (initAppSignedIn_round "uid"
      { state := initialState
        storage := armazenado (some [amostra "b" "B2" 2 true, amostra "c" "C" 3 false])
        remote := [("a", amostra "a" "A" 1 false), ("b", amostra "b" "B" 2 false)] }
      (by decide)).2.2.2.2.1 ("a", amostra "a" "A" 1 false) (by decide)⟩

/-- C18 fails for an update that carries an id: from a store with the distinct ids `a` and
`b`, the update of task `a` with the field `id` set to `b` gives a store whose two tasks
both have the id `b`. -/
theorem appReducer_unique_ids_counterexample :
    ((estado [amostra "a" "x" 5 false, amostra "b" "y" 6 false]).tarefas.map
      (fun t => t.id)).Nodup ∧
    (appReducer (estado [amostra "a" "x" 5 false, amostra "b" "y" 6 false])
      (.UPDATE_TAREFA "a" { id := some "b" })).tarefas.map (fun t => t.id) = ["b", "b"] ∧
    ¬ ((appReducer (estado [amostra "a" "x" 5 false, amostra "b" "y" 6 false])
      (.UPDATE_TAREFA "a" { id := some "b" })).tarefas.map (fun t => t.id)).Nodup := by
  decide

/-- C18 as amended, on a two-task store: an update of the date keeps the ids. -/
theorem appReducer_unique_ids_witness :
    (appReducer (estado [amostra "a" "x" 5 false, amostra "b" "y" 6 false])
      (.UPDATE_TAREFA "a" { date := some 9 })).tarefas.map (fun t => t.id) = ["a", "b"] :=
  (((appReducer_unique_ids (estado [amostra "a" "x" 5 false, amostra "b" "y" 6 false])
      (by decide)).2.1 "a" { date := some 9 } rfl).2).trans (by decide)

/-- C19 fails when the clock has not advanced: two valid adds at the same clock reading
1717581600000 generate the same id and the second one leaves the collection unchanged; so
do two duplications of a task at the same reading. -/
theorem generated_ids_counterexample :
    (adicionarTarefa "segunda" (meiaNoite 2024 6 5) (getSemanaAtual "pt" (meiaNoite 2024 6 5))
      opcoes 1717581600000 1717581600000).isSome = true ∧
    (despachar (estado []) (adicionarTarefa "primeira" (meiaNoite 2024 6 5)
      (getSemanaAtual "pt" (meiaNoite 2024 6 5)) opcoes 1717581600000 1717581600000)).tarefas.length
      = 1 ∧
    despachar
        (despachar (estado []) (adicionarTarefa "primeira" (meiaNoite 2024 6 5)
          (getSemanaAtual "pt" (meiaNoite 2024 6 5)) opcoes 1717581600000 1717581600000))
        (adicionarTarefa "segunda" (meiaNoite 2024 6 5) (getSemanaAtual "pt" (meiaNoite 2024 6 5))
          opcoes 1717581600000 1717581600000)
      = despachar (estado []) (adicionarTarefa "primeira" (meiaNoite 2024 6 5)
          (getSemanaAtual "pt" (meiaNoite 2024 6 5)) opcoes 1717581600000 1717581600000) ∧
    (handleDuplicateTarefa 0 1717581600000 1717581600000 (amostra "1" "a" 5 false)).isSome = true ∧
    despachar
        (despachar (estado [amostra "1" "a" 5 false])
          (handleDuplicateTarefa 0 1717581600000 1717581600000 (amostra "1" "a" 5 false)))
        (handleDuplicateTarefa 0 1717581600000 1717581600000 (amostra "1" "a" 5 false))
      = despachar (estado [amostra "1" "a" 5 false])
          (handleDuplicateTarefa 0 1717581600000 1717581600000 (amostra "1" "a" 5 false)) := by
  decide

/-- C19 as amended, on an add at reading 1717581600001 into a store whose only task was
created at reading 1717581600000. -/
theorem generated_ids_witness :
    (despachar (estado [amostra "1717581600000" "a" 5 false])
      (adicionarTarefa "b" 7 [] opcoes 1717581600001 1717581600001)).tarefas
      = [amostra "1717581600000" "a" 5 false,
          { amostra "1717581600001" "b" 7 false with
            highlightColor := some "#fff8c6", createdAt := 1717581600001 }] :=
  (((generated_ids (estado [amostra "1717581600000" "a" 5 false])).2.2.2.1
      "b" 7 [] opcoes 1717581600001 1717581600001
      { amostra "1717581600001" "b" 7 false with
        highlightColor := some "#fff8c6", createdAt := 1717581600001 } (by decide)).2.1
      (by decide))

/-- C20 on a blank input and on the input `comprar pão` for Wednesday 2024-06-05. -/
theorem adicionarTarefa_spec_witness :
    adicionarTarefa " \t\n" (meiaNoite 2024 6 5) (getSemanaAtual "pt" (meiaNoite 2024 6 5))
      opcoes 1717581600000 1717581600000 = none ∧
    (despachar (estado [amostra "1" "a" 5 false])
      (adicionarTarefa "comprar pão" (meiaNoite 2024 6 5)
        (getSemanaAtual "pt" (meiaNoite 2024 6 5)) opcoes 1717581600000 1717581600000)).tarefas.length
      = 2 :=
  ⟨((adicionarTarefa_spec (estado []) " \t\n" (meiaNoite 2024 6 5)
      (getSemanaAtual "pt" (meiaNoite 2024 6 5)) opcoes 1717581600000 1717581600000).1
      (by decide)).1,
   by
    obtain ⟨nova, -, -, -, -, -, -, hid, -, happ⟩ :=
      (adicionarTarefa_spec (estado [amostra "1" "a" 5 false]) "comprar pão" (meiaNoite 2024 6 5)
        (getSemanaAtual "pt" (meiaNoite 2024 6 5)) opcoes 1717581600000 1717581600000).2
        (by decide) (by decide)
    rw [happ (by rw [hid]; decide)]
    rfl⟩

/-- C21 on a store with the task `a`: Save with the empty text on Wednesday 2024-06-05
leaves the task with an empty text. -/
theorem salvarEdicao_texto_witness :
    ∃ t ∈ (despachar (estado [amostra "1" "a" (meiaNoite 2024 6 5) false])
        (salvarEdicao (some (amostra "1" "a" (meiaNoite 2024 6 5) false)) ""
          (meiaNoite 2024 6 5) opcoes (getSemanaAtual "pt" (meiaNoite 2024 6 5)))).tarefas,
      t.id = "1" ∧ t.texto = "" :=
  (salvarEdicao_texto (estado [amostra "1" "a" (meiaNoite 2024 6 5) false])
    (by decide)).2.2.2 (amostra "1" "a" (meiaNoite 2024 6 5) false) (by decide)
    (meiaNoite 2024 6 5) opcoes (getSemanaAtual "pt" (meiaNoite 2024 6 5)) (by decide)

/-- C22 fails on a local store that holds settings and the tutorial flag: both are still
there after the logout. -/
theorem handleLogoutPress_frame_counterexample :
    (handleLogoutPress
      { state := estado [amostra "1" "a" 5 false]
        storage :=
          { tarefas := some [amostra "1" "a" 5 false]
            settings := some (settingsJSON initialSettings)
            tutorialVisto := true }
        remote := [] }).storage
      = { tarefas := none, settings := some (settingsJSON initialSettings),
          tutorialVisto := true } := by
  decide

/-- C22 as amended on a signed-in world with one task everywhere. -/
theorem handleLogoutPress_frame_witness :
    (handleLogoutPress
      { state := estado [amostra "1" "a" 5 false]
        storage := armazenado (some [amostra "1" "a" 5 false])
        remote := [("1", amostra "1" "a" 5 false)] }).storage.tarefas = none ∧
    (handleLogoutPress
      { state := estado [amostra "1" "a" 5 false]
        storage := armazenado (some [amostra "1" "a" 5 false])
        remote := [("1", amostra "1" "a" 5 false)] }).remote
      = [("1", amostra "1" "a" 5 false)] :=
  ⟨(handleLogoutPress_frame _).1, (handleLogoutPress_frame _).2.2.2.2.2.2⟩

/-- C23 on a signed-in start with one stored task: when the remote read fails, `initApp`
is rejected and the store is still loading and empty. -/
theorem initAppRun_remote_failure_witness :
    (initAppRun (some "u") none (meiaNoite 2024 6 5) 0 false true
      { state := initialState, storage := armazenado (some [amostra "1" "a" 5 false]),
        remote := [] }).rejected = true ∧
    (initAppRun (some "u") none (meiaNoite 2024 6 5) 0 false true
      { state := initialState, storage := armazenado (some [amostra "1" "a" 5 false]),
        remote := [] }).world.state.isLoading = true ∧
    (initAppRun (some "u") none (meiaNoite 2024 6 5) 0 false true
      { state := initialState, storage := armazenado (some [amostra "1" "a" 5 false]),
        remote := [] }).world.state.tarefas = [] :=
  ⟨((initAppRun_remote_failure "u" none (meiaNoite 2024 6 5) 0 _).2.2 true).1,
   ((initAppRun_remote_failure "u" none (meiaNoite 2024 6 5) 0 _).2.2 true).2.1,
   ((initAppRun_remote_failure "u" none (meiaNoite 2024 6 5) 0 _).2.2 true).2.2.1⟩

/-- C24 fails on a collection that holds only the tutorial task: the buckets of the week
of 2024-06-05 hold it, under Wednesday, so their concatenation is not the empty list. -/
theorem tarefasAgrupadas_tutorial_counterexample :
    (tarefasAgrupadas (getSemanaAtual "pt" (meiaNoite 2024 6 5))
      [tutorialTask (meiaNoite 2024 6 5)] "pt").flatMap Prod.snd
      = [tutorialTask (meiaNoite 2024 6 5)] ∧
    objGet (tarefasAgrupadas (getSemanaAtual "pt" (meiaNoite 2024 6 5))
      [tutorialTask (meiaNoite 2024 6 5)] "pt") "Quarta"
      = some [tutorialTask (meiaNoite 2024 6 5)] := by
  decide

/-- C24 as amended on the tutorial task and one task of the user. -/
theorem tarefasAgrupadas_tutorial_witness :
    tutorialTask (meiaNoite 2024 6 5)
      ∈ (tarefasAgrupadas (getSemanaAtual "pt" (meiaNoite 2024 6 5))
          [amostra "1" "a" (meiaNoite 2024 6 4) false, tutorialTask (meiaNoite 2024 6 5)]
          "pt").flatMap Prod.snd :=
  (tarefasAgrupadas_tutorial (getSemanaAtual "pt" (meiaNoite 2024 6 5))
    [amostra "1" "a" (meiaNoite 2024 6 4) false, tutorialTask (meiaNoite 2024 6 5)] "pt"
    (meiaNoite 2024 6 5) (by decide)).2.2.1

/-- C25 on a store with the tutorial task and one task of the user: the bulk delete of a
selection that holds the id of the tutorial task removes it. -/
theorem deleteSelectedTasks_tutorial_witness :
    tutorialTask 0
      ∉ (despachar (estado [tutorialTask 0, amostra "1" "a" 5 false])
          (deleteSelectedTasks ["tutorial-task-id"] true)).tarefas :=
  (deleteSelectedTasks_tutorial (estado [tutorialTask 0, amostra "1" "a" 5 false]) 0
    (by decide)).2.2.2.2.2 ["tutorial-task-id"] (by decide)

/-- C26 in the week of Wednesday 2024-06-05: the add for Sunday 2024-06-02 is rejected, the
add for Monday 2024-06-10 of the next week is accepted. -/
theorem adicionarTarefa_past_date_witness :
    adicionarTarefa "comprar pão" (meiaNoite 2024 6 2)
      (getSemanaAtual "pt" (meiaNoite 2024 6 5)) opcoes 1717581600000 1717581600000 = none ∧
    ∃ nova : Tarefa,
      adicionarTarefa "comprar pão" (meiaNoite 2024 6 10)
        (getSemanaAtual "pt" (meiaNoite 2024 6 5)) opcoes 1717581600000 1717581600000
        = some (.ADD_TAREFA nova) ∧ nova.date = meiaNoite 2024 6 10 :=
  ⟨((adicionarTarefa_past_date (estado []) "pt" (meiaNoite 2024 6 5) "comprar pão"
      (meiaNoite 2024 6 2) opcoes 1717581600000 1717581600000).1 (by decide)).1,
   by
    obtain ⟨nova, h1, -, h3, -⟩ :=
      (adicionarTarefa_past_date (estado []) "pt" (meiaNoite 2024 6 5) "comprar pão"
        (meiaNoite 2024 6 10) opcoes 1717581600000 1717581600000).2 (by decide) (by decide)
    exact ⟨nova, h1, h3⟩⟩

/-- C27 fails on an add of `c` followed by its removal: both pushes are in flight at the
same time, both read the empty collection, and once both commits are applied the remote
collection holds `c` although the latest list is empty. -/
theorem pushSozinho_latest_counterexample :
    ([Passo.chamar [amostra "c" "c" 5 false], .chamar []].foldl passo
      { remote := [], emVoo := [] }).emVoo.length = 2 ∧
    [Passo.chamar [amostra "c" "c" 5 false], .chamar [], .ler 0, .ler 1, .gravar 0,
        .gravar 0].foldl passo { remote := [], emVoo := [] }
      = { remote := [("c", amostra "c" "c" 5 false)], emVoo := [] } := by
  decide

/-- C27 as amended on the same two lists pushed one after the other: the remote
collection ends empty, as the latest list. -/
theorem pushSozinho_latest_witness :
    (([[amostra "c" "c" 5 false]] ++ [[]]).foldl pushSozinho
      { remote := [], emVoo := [] }).emVoo = [] ∧
    ∀ (k : String) (t : Tarefa),
      (k, t) ∈ (([[amostra "c" "c" 5 false]] ++ [[]]).foldl pushSozinho
          { remote := [], emVoo := [] }).remote
        ↔ tarefaDeId [] k = some t :=
  ⟨(pushSozinho_latest "u" [] (by decide) [[amostra "c" "c" 5 false]] []).2.2.1,
   (pushSozinho_latest "u" [] (by decide) [[amostra "c" "c" 5 false]] []).2.2.2.2⟩

/-- C29 on lists with repeated ids: local `1:a, 1:b` and remote `2:c, 1:d, 2:e` merge to
`2:e, 1:b`. -/
theorem mergeTasks_unique_ids_witness :
    (mergeTasks [amostra "1" "a" 5 false, amostra "1" "b" 5 false]
      [amostra "2" "c" 5 false, amostra "1" "d" 5 false, amostra "2" "e" 5 false]).map
        (fun t => t.id)
      = setValues (["2", "1", "2"] ++ ["1", "1"]) ∧
    amostra "1" "b" 5 false
      ∈ mergeTasks [amostra "1" "a" 5 false, amostra "1" "b" 5 false]
          [amostra "2" "c" 5 false, amostra "1" "d" 5 false, amostra "2" "e" 5 false] :=
  ⟨(mergeTasks_unique_ids _ _).2.2.2.2,
   (mergeTasks_unique_ids [amostra "1" "a" 5 false, amostra "1" "b" 5 false]
      [amostra "2" "c" 5 false, amostra "1" "d" 5 false, amostra "2" "e" 5 false]).2.1
      "1" _ (by decide)⟩

/-- C30 in the week of Wednesday 2024-06-05: with the edited date 2024-05-20, Save
dispatches nothing and auto-save moves the task to 2024-05-20. -/
theorem handleAutoSave_past_date_witness :
    salvarEdicao (some (amostra "1" "a" (meiaNoite 2024 6 5) false)) "a" (meiaNoite 2024 5 20)
      opcoes (getSemanaAtual "pt" (meiaNoite 2024 6 5)) = none ∧
    ∃ u ∈ (despachar (estado [amostra "1" "a" (meiaNoite 2024 6 5) false])
        (handleAutoSave (some (amostra "1" "a" (meiaNoite 2024 6 5) false)) "a"
          (meiaNoite 2024 5 20) opcoes)).tarefas,
      u.id = "1" ∧ u.date = meiaNoite 2024 5 20 :=
  ⟨(handleAutoSave_past_date (estado []) "pt" (meiaNoite 2024 6 5)
      (amostra "1" "a" (meiaNoite 2024 6 5) false) "a" (meiaNoite 2024 5 20) opcoes
      (by decide)).1,
   by
    obtain ⟨u, hu, h1, h2, -⟩ :=
      ((handleAutoSave_past_date (estado [amostra "1" "a" (meiaNoite 2024 6 5) false]) "pt"
        (meiaNoite 2024 6 5) (amostra "1" "a" (meiaNoite 2024 6 5) false) "a"
        (meiaNoite 2024 5 20) opcoes (by decide)).2.2 (by decide)).2
        (amostra "1" "a" (meiaNoite 2024 6 5) false) (by decide) rfl
    exact ⟨u, hu, h1, h2⟩⟩

/-- C28 as stated fails at a day of the years 0 to 99.  The key of 0050-01-01 is
`01/01/50`; read back as `handleDragEnd` does, it is the midnight of 1950-01-01 and not
that of 0050-01-01.  A task dropped on the block `01/01/50` is sent to 1950-01-01, and a
task of that date is filed under `01/01/1950`, not under the block it was dropped on. -/
theorem handleDragEnd_round_trip_counterexample :
    toLocaleDateString "pt" (daysFromCivil 50 1 1 * msPerDay) = "01/01/50" ∧
    dataDaChave "pt" "01/01/50" = some (daysFromCivil 1950 1 1 * msPerDay) ∧
    dataDaChave "pt" (toLocaleDateString "pt" (daysFromCivil 50 1 1 * msPerDay))
      ≠ some (setHoursZero (daysFromCivil 50 1 1 * msPerDay)) ∧
    handleDragEnd
        (some { tarefa := amostra "1" "a" (meiaNoite 2024 6 5) false, diaDeOrigem := "Quarta" })
        (some "01/01/50") (getSemanaAtual "pt" (meiaNoite 2024 6 5)) "pt"
      = some ("1", daysFromCivil 1950 1 1 * msPerDay) ∧
    chaveDaData (getSemanaAtual "pt" (meiaNoite 2024 6 5)) "pt"
        (daysFromCivil 1950 1 1 * msPerDay)
      = "01/01/1950" := by
  decide

/-- C28 as amended in the week of Wednesday 2024-06-05: the key of 1960-01-01 is
`01/01/1960` and reads back as that day, a task of Wednesday dropped on that block is sent
to the midnight of 1960-01-01, and dropped on the block `20/06/2024` of another task it
is sent to a date filed under `20/06/2024`. -/
theorem handleDragEnd_round_trip_witness :
    toLocaleDateString "pt" (daysFromCivil 1960 1 1 * msPerDay + 36000000) = "01/01/1960" ∧
    dataDaChave "pt" (toLocaleDateString "pt" (daysFromCivil 1960 1 1 * msPerDay + 36000000))
      = some (setHoursZero (daysFromCivil 1960 1 1 * msPerDay + 36000000)) ∧
    handleDragEnd
        (some { tarefa := amostra "1" "a" (meiaNoite 2024 6 5) false, diaDeOrigem := "Quarta" })
        (some (toLocaleDateString "pt" (daysFromCivil 1960 1 1 * msPerDay + 36000000)))
        (getSemanaAtual "pt" (meiaNoite 2024 6 5)) "pt"
      = some ("1", setHoursZero (daysFromCivil 1960 1 1 * msPerDay + 36000000)) ∧
    ∃ novaData : Int,
      handleDragEnd
          (some { tarefa := amostra "1" "a" (meiaNoite 2024 6 5) false, diaDeOrigem := "Quarta" })
          (some "20/06/2024") (getSemanaAtual "pt" (meiaNoite 2024 6 5)) "pt"
        = some ("1", novaData) ∧
      chaveDaData (getSemanaAtual "pt" (meiaNoite 2024 6 5)) "pt" novaData = "20/06/2024" :=
  ⟨by decide,
   (handleDragEnd_round_trip "pt").2.1 _ (by decide),
   ((handleDragEnd_round_trip "pt").2.2.1 (meiaNoite 2024 6 5)
      { tarefa := amostra "1" "a" (meiaNoite 2024 6 5) false, diaDeOrigem := "Quarta" }
      (daysFromCivil 1960 1 1 * msPerDay + 36000000) (by decide) (by decide)).1,
   by
    obtain ⟨novaData, h1, h2, -⟩ :=
      (handleDragEnd_round_trip "pt").2.2.2.2.1 (meiaNoite 2024 6 5)
        (estado [amostra "1" "a" (meiaNoite 2024 6 5) false,
          amostra "2" "b" (meiaNoite 2024 6 20) false])
        { tarefa := amostra "1" "a" (meiaNoite 2024 6 5) false, diaDeOrigem := "Quarta" }
        "20/06/2024" (by decide) (by decide)
    exact ⟨novaData, h1, h2⟩⟩

end GoTask
